import Mathlib

/-!
# Nature-tours: query translator and authentication gate

A shallow embedding of `src/utilities/apiFeatures.js` (class `APIFeatures`), of the
authentication and password-reset handlers of `src/controllers/authController.js`
(`signToken`, `createSendToken`, `signup`, `login`, `protect`, `isLoggedIn`, `restrictTo`,
`forgotPassword`, `resetPassword`, `updatePassword`), of `filterObj`, `updateMe` and
`deleteMe` of `src/controllers/userController.js`, of the hooks and methods of
`src/models/userModel.js` they rely on, and of `calcAverageRatings` and the hooks of
`src/models/reviewModel.js`, with the properties the specification states about them.

## Conventions of the embedding

* A JavaScript string is a `String`; a JSON text (the result of `JSON.stringify`) is the list
  of its characters. Strings are sequences of Unicode scalar values, so lone surrogates are
  outside the embedding.
* A parsed query string (`req.query`, as produced by the `qs` parser of express) is built from
  strings, arrays and nested objects: the type `QVal`. An object is the list of its own
  properties in enumeration order, modelled as insertion order.
* A JavaScript number is NaN, an infinity or a finite IEEE-754 double, carried as the
  rational it denotes. Every literal and every arithmetic result is rounded to the nearest
  double, ties to even, with overflow to an infinity and gradual underflow (`roundDouble`).
  The two zeros are one value.
* The query builder of the store (a mongoose `Query`) is external. It is embedded as the list of
  the calls made on it, in order: `this.query = this.query.find(x)` appends `QueryCall.find x`.
* A method that can throw returns an `Option`: `none` stands for the exception.
-/

namespace NatureTours

/-! ## Query-string values -/

/-- A value of a parsed query string: a string, an array or a nested object. -/
inductive QVal where
  | str (s : String)
  | arr (items : List QVal)
  | obj (fields : List (String × QVal))

/-- The own properties of an object, in enumeration order. -/
abbrev Fields := List (String × QVal)

/-- Property read `o[k]`: `none` stands for `undefined`. -/
def getProp (o : Fields) (k : String) : Option QVal :=
  (o.find? (fun p => p.1 == k)).map Prod.snd

/-- The statement `delete o[k]`. -/
def deleteProp (o : Fields) (k : String) : Fields :=
  o.filter (fun p => !(p.1 == k))

/-- Property write `o[k] = v`: an existing property keeps its place, a new one goes last. -/
def setProp : Fields → String → QVal → Fields
  | [], k, v => [(k, v)]
  | (k0, v0) :: rest, k, v =>
    if k0 == k then (k0, v) :: rest else (k0, v0) :: setProp rest k v

/-- The own keys of an object. -/
def keys (o : Fields) : List String := o.map Prod.fst

/-! ## JSON.stringify -/

/-- Lower-case hexadecimal digit of a number below 16. -/
def hexDigit (n : Nat) : Char :=
  if n < 10 then Char.ofNat (48 + n) else Char.ofNat (87 + n)

/-- One character of a string inside a JSON text, as `JSON.stringify` writes it
(QuoteJSONString): the quote, the backslash and the control characters are escaped. -/
def escapeChar (c : Char) : List Char :=
  if c = '"' then ['\\', '"']
  else if c = '\\' then ['\\', '\\']
  else if c = '\x08' then ['\\', 'b']
  else if c = '\x0c' then ['\\', 'f']
  else if c = '\n' then ['\\', 'n']
  else if c = '\r' then ['\\', 'r']
  else if c = '\t' then ['\\', 't']
  else if c.toNat < 32 then
    ['\\', 'u', '0', '0', hexDigit (c.toNat / 16), hexDigit (c.toNat % 16)]
  else [c]

/-- The characters of a string between its two quotes in a JSON text. -/
def escapeChars : List Char → List Char
  | [] => []
  | c :: cs => escapeChar c ++ escapeChars cs

/-- A string as a JSON text: its escaped characters between two quotes. -/
def quoteJSON (s : String) : List Char :=
  '"' :: (escapeChars s.data ++ ['"'])

mutual
/-- The text `JSON.stringify(v)` of a query-string value (no indentation). -/
def stringify : QVal → List Char
  | .str s => quoteJSON s
  | .arr [] => ['[', ']']
  | .arr (v :: rest) => '[' :: (stringify v ++ stringifyElements rest)
  | .obj [] => ['{', '}']
  | .obj ((k, v) :: rest) => '{' :: (quoteJSON k ++ ':' :: (stringify v ++ stringifyMembers rest))
/-- The elements of an array after the first, each preceded by a comma, and the closing
bracket. -/
def stringifyElements : List QVal → List Char
  | [] => [']']
  | v :: rest => ',' :: (stringify v ++ stringifyElements rest)
/-- The members of an object after the first, each preceded by a comma, and the closing
brace. -/
def stringifyMembers : List (String × QVal) → List Char
  | [] => ['}']
  | (k, v) :: rest => ',' :: (quoteJSON k ++ ':' :: (stringify v ++ stringifyMembers rest))
end

/-! ## The operator rewrite `/\b(gte|gt|lte|lt)\b/g` -/

/-- Word characters of a regular expression without the `u` flag: `[A-Za-z0-9_]`. -/
def isWordChar (c : Char) : Bool := c.isAlphanum || c == '_'

/-- Whether the text starts with a word character (false at the end of the text). -/
def headIsWord : List Char → Bool
  | [] => false
  | c :: _ => isWordChar c

/-- The assertion `\b`: exactly one of the character before and the character after the
position is a word character. `prevWord` tells whether the character before is one. -/
def wordBoundary (prevWord : Bool) (s : List Char) : Bool :=
  prevWord != headIsWord s

/-- The alternatives of the group `(gte|gt|lte|lt)`, in the order they are tried. -/
def opWords : List (List Char) :=
  ["gte".data, "gt".data, "lte".data, "lt".data]

/-- Whether the last character of a matched word is a word character. -/
def lastIsWord (w : List Char) : Bool :=
  match w.getLast? with
  | some c => isWordChar c
  | none => false

/-- One alternative followed by the closing `\b`: the length of the match, if any. -/
def matchAlt (s : List Char) (w : List Char) : Option Nat :=
  if w.isPrefixOf s && wordBoundary (lastIsWord w) (s.drop w.length) then some w.length
  else none

/-- A match of `\b(gte|gt|lte|lt)\b` starting at the current position: the length of the
matched word. The alternatives are tried in order, each one backtracking on the closing `\b`. -/
def matchOp (prevWord : Bool) (s : List Char) : Option Nat :=
  if wordBoundary prevWord s then opWords.findSome? (matchAlt s) else none

/-- The call `queryStr.replace(/\b(gte|gt|lte|lt)\b/g, match => "$" + match)`, scanning from
left to right. `skip` counts the characters of the current match still to be copied;
`prevWord` tells whether the previous character is a word character. -/
def replaceOps : Nat → Bool → List Char → List Char
  | _, _, [] => []
  | skip + 1, _, c :: cs => c :: replaceOps skip (isWordChar c) cs
  | 0, prevWord, c :: cs =>
    match matchOp prevWord (c :: cs) with
    | some n => '$' :: c :: replaceOps (n - 1) (isWordChar c) cs
    | none => c :: replaceOps 0 (isWordChar c) cs

/-- The rewrite applied to a whole text. -/
def replaceOperators (text : List Char) : List Char :=
  replaceOps 0 false text

/-! ## JSON.parse -/

/-- JSON white space. -/
def isJsonSpace (c : Char) : Bool :=
  c == ' ' || c == '\t' || c == '\n' || c == '\r'

/-- Skip JSON white space. -/
def skipWs : List Char → List Char
  | [] => []
  | c :: cs => if isJsonSpace c then skipWs cs else c :: cs

/-- Value of a hexadecimal digit, either case. -/
def hexValue (c : Char) : Option Nat :=
  if '0' ≤ c ∧ c ≤ '9' then some (c.toNat - 48)
  else if 'a' ≤ c ∧ c ≤ 'f' then some (c.toNat - 87)
  else if 'A' ≤ c ∧ c ≤ 'F' then some (c.toNat - 55)
  else none

/-- The character written `\uXXXX`. A surrogate code unit has no counterpart among the
characters of the embedding and is refused. -/
def unicodeEscape (a b c d : Char) : Option Char :=
  match hexValue a, hexValue b, hexValue c, hexValue d with
  | some x, some y, some z, some w =>
    let n := ((x * 16 + y) * 16 + z) * 16 + w
    if 0xD800 ≤ n ∧ n ≤ 0xDFFF then none else some (Char.ofNat n)
  | _, _, _, _ => none

/-- The character written by a one-letter escape `\c`. -/
def simpleEscape (c : Char) : Option Char :=
  if c = '"' then some '"'
  else if c = '\\' then some '\\'
  else if c = '/' then some '/'
  else if c = 'b' then some '\x08'
  else if c = 'f' then some '\x0c'
  else if c = 'n' then some '\n'
  else if c = 'r' then some '\r'
  else if c = 't' then some '\t'
  else none

/-- A JSON string after its opening quote: the characters of the string and the text after
the closing quote. Raw control characters and unknown escapes are syntax errors. -/
def parseStringBody : List Char → Option (List Char × List Char)
  | [] => none
  | c :: rest =>
    if c = '"' then some ([], rest)
    else if c = '\\' then
      match rest with
      | [] => none
      | e :: rest1 =>
        if e = 'u' then
          match rest1 with
          | a :: b :: c1 :: d :: rest2 =>
            match unicodeEscape a b c1 d, parseStringBody rest2 with
            | some x, some (s, r) => some (x :: s, r)
            | _, _ => none
          | _ => none
        else
          match simpleEscape e, parseStringBody rest1 with
          | some x, some (s, r) => some (x :: s, r)
          | _, _ => none
    else if c.toNat < 32 then none
    else
      match parseStringBody rest with
      | some (s, r) => some (c :: s, r)
      | none => none

/-- The object built from the members of a JSON object text, in order: a repeated key keeps
its first place and takes its last value. -/
def buildObject (members : List (String × QVal)) : Fields :=
  members.foldl (fun o p => setProp o p.1 p.2) []

mutual
/-- A JSON value at the head of the text, and the text after it. The texts accepted are those
of strings, arrays and objects; `fuel` bounds the number of nested calls. -/
def parseValue : Nat → List Char → Option (QVal × List Char)
  | 0, _ => none
  | _ + 1, [] => none
  | fuel + 1, c :: rest =>
    if c = '"' then
      match parseStringBody rest with
      | some (s, r) => some (.str ⟨s⟩, r)
      | none => none
    else if c = '[' then
      match skipWs rest with
      | [] => none
      | d :: rest1 =>
        if d = ']' then some (.arr [], rest1)
        else
          match parseElements fuel (d :: rest1) with
          | some (l, r) => some (.arr l, r)
          | none => none
    else if c = '{' then
      match skipWs rest with
      | [] => none
      | d :: rest1 =>
        if d = '}' then some (.obj [], rest1)
        else
          match parseMembers fuel (d :: rest1) with
          | some (l, r) => some (.obj (buildObject l), r)
          | none => none
    else none
/-- The elements of a non-empty array up to and including the closing bracket. -/
def parseElements : Nat → List Char → Option (List QVal × List Char)
  | 0, _ => none
  | fuel + 1, s =>
    match parseValue fuel (skipWs s) with
    | none => none
    | some (v, r) =>
      match skipWs r with
      | [] => none
      | d :: rest =>
        if d = ',' then
          match parseElements fuel rest with
          | some (l, r1) => some (v :: l, r1)
          | none => none
        else if d = ']' then some ([v], rest)
        else none
/-- The members of a non-empty object up to and including the closing brace. -/
def parseMembers : Nat → List Char → Option (List (String × QVal) × List Char)
  | 0, _ => none
  | fuel + 1, s =>
    match skipWs s with
    | [] => none
    | q :: rest =>
      if q = '"' then
        match parseStringBody rest with
        | none => none
        | some (k, r) =>
          match skipWs r with
          | [] => none
          | d :: rest1 =>
            if d = ':' then
              match parseValue fuel (skipWs rest1) with
              | none => none
              | some (v, r1) =>
                match skipWs r1 with
                | [] => none
                | e :: rest2 =>
                  if e = ',' then
                    match parseMembers fuel rest2 with
                    | some (l, r2) => some ((⟨k⟩, v) :: l, r2)
                    | none => none
                  else if e = '}' then some ([(⟨k⟩, v)], rest2)
                  else none
            else none
      else none
end

/-- The call `JSON.parse(text)`: `none` stands for a thrown `SyntaxError`. The fuel is the
length of the text, which bounds the nesting of any text. -/
def parseJSON (text : List Char) : Option QVal :=
  match parseValue (text.length + 1) (skipWs text) with
  | some (v, r) => if skipWs r = [] then some v else none
  | none => none

/-! ## The class APIFeatures -/

/-- A JavaScript number: NaN, an infinity, or a finite double, carried as the rational it
denotes. The numbers the embedding computes are doubles: they come out of `roundDouble`.
The two zeros are one value; both are falsy and they are equal for `===`. -/
inductive JsNum where
  | nan
  | inf (negative : Bool)
  | fin (x : ℚ)
  deriving DecidableEq

/-- A call recorded on the query builder of the store. -/
inductive QueryCall where
  | find (filter : QVal)
  | sort (arg : String)
  | select (arg : String)
  | skip (n : JsNum)
  | limit (n : JsNum)

/-- The query under construction: the calls made on the builder so far, in order. -/
abbrev Query := List QueryCall

/-- An instance of the class `APIFeatures`: the constructor stores its two arguments. -/
structure APIFeatures where
  query : Query
  queryString : Fields

/-- The constant `excludedFields` of `filter`. -/
def excludedFields : List String := ["page", "sort", "limit", "fields"]

/-- The copy `queryObj` of the query string after
`excludedFields.forEach(el => delete queryObj[el])`. -/
def queryObj (queryString : Fields) : Fields :=
  excludedFields.foldl deleteProp queryString

/-- The method `filter`: the value handed to `find` is
`JSON.parse(JSON.stringify(queryObj).replace(...))`. `none` stands for the `SyntaxError`
that `JSON.parse` throws on a malformed text. -/
def APIFeatures.filter (self : APIFeatures) : Option APIFeatures :=
  let queryStr := stringify (.obj (queryObj self.queryString))
  let queryStr := replaceOperators queryStr
  match parseJSON queryStr with
  | some v => some { self with query := self.query ++ [QueryCall.find v] }
  | none => none

/-! ## Notions used to state the properties

The rewrite acts on the JSON text. Seen from the mapping, it acts on every string of the
mapping, keys and values alike: `renameStr` is that action, and `renameVal` applies it
throughout a value. -/

/-- Whether the escaped form of a character ends in a word character. -/
def endsWord (c : Char) : Bool := lastIsWord (escapeChar c)

/-- The rewrite as it acts on the characters of one string of the mapping: the scan of
`replaceOps`, where the word boundary after a character is the one seen in the JSON text,
that is after the escaped form of the character. -/
def renameChars : Nat → Bool → List Char → List Char
  | _, _, [] => []
  | skip + 1, _, c :: cs => c :: renameChars skip (endsWord c) cs
  | 0, prevWord, c :: cs =>
    match matchOp prevWord (c :: cs) with
    | some n => '$' :: c :: renameChars (n - 1) (endsWord c) cs
    | none => c :: renameChars 0 (endsWord c) cs

/-- The rewrite as it acts on one string (a key or a value) of the mapping. -/
def renameStr (s : String) : String := ⟨renameChars 0 false s.data⟩

mutual
/-- The rewrite applied to every string of a value, keys included. -/
def renameVal : QVal → QVal
  | .str s => .str (renameStr s)
  | .arr l => .arr (renameList l)
  | .obj f => .obj (renameFields f)
/-- The rewrite applied to the elements of an array. -/
def renameList : List QVal → List QVal
  | [] => []
  | v :: rest => renameVal v :: renameList rest
/-- The rewrite applied to the members of an object. -/
def renameFields : List (String × QVal) → List (String × QVal)
  | [] => []
  | (k, v) :: rest => (renameStr k, renameVal v) :: renameFields rest
end

mutual
/-- The value `JSON.parse` builds from the text of a value: every object is built member by
member, so a repeated key keeps its last value. -/
def canon : QVal → QVal
  | .str s => .str s
  | .arr l => .arr (canonList l)
  | .obj f => .obj (buildObject (canonFields f))
/-- The elements of an array as `JSON.parse` builds them. -/
def canonList : List QVal → List QVal
  | [] => []
  | v :: rest => canon v :: canonList rest
/-- The members of an object as `JSON.parse` reads them. -/
def canonFields : List (String × QVal) → List (String × QVal)
  | [] => []
  | (k, v) :: rest => (k, canon v) :: canonFields rest
end

/-- Whether `/\b(gte|gt|lte|lt)\b/` matches somewhere in the text: the scan tries every
position. -/
def hasOp : Bool → List Char → Bool
  | _, [] => false
  | prevWord, c :: cs => (matchOp prevWord (c :: cs)).isSome || hasOp (isWordChar c) cs

/-- Whether a string contains one of the words gte, gt, lte, lt as a whole word. -/
def hasOperatorWord (s : String) : Bool := hasOp false s.data

/-- Word status of the last character of a stretch, or the previous status when the stretch is
empty. -/
def flagAfter (prevWord : Bool) (b : List Char) : Bool :=
  b.foldl (fun _ c => isWordChar c) prevWord

mutual
/-- Fuel that `parseValue` needs on the text of a value: one unit for every value, array
element and object member. -/
def parseCost : QVal → Nat
  | .str _ => 1
  | .arr l => 1 + parseCostList l
  | .obj f => 1 + parseCostFields f
/-- Fuel needed on the elements of an array. -/
def parseCostList : List QVal → Nat
  | [] => 0
  | v :: rest => 1 + parseCost v + parseCostList rest
/-- Fuel needed on the members of an object. -/
def parseCostFields : List (String × QVal) → Nat
  | [] => 0
  | (_, v) :: rest => 1 + parseCost v + parseCostFields rest
end

/-- The filter handed to `find`: the query string without the excluded fields, every string
of it rewritten, rebuilt by `JSON.parse`. -/
def filterObject (queryString : Fields) : QVal :=
  canon (renameVal (.obj (queryObj queryString)))

mutual
/-- Whether every object of the value has distinct keys, as every JavaScript object has. -/
def distinctKeys : QVal → Bool
  | .str _ => true
  | .arr l => distinctKeysList l
  | .obj f => decide (f.map Prod.fst).Nodup && distinctKeysFields f
/-- Distinct keys in every element of an array. -/
def distinctKeysList : List QVal → Bool
  | [] => true
  | v :: rest => distinctKeys v && distinctKeysList rest
/-- Distinct keys in every member value of an object. -/
def distinctKeysFields : List (String × QVal) → Bool
  | [] => true
  | (_, v) :: rest => distinctKeys v && distinctKeysFields rest
end

mutual
/-- Whether no string of the value, key or value, contains gte, gt, lte or lt as a whole
word. -/
def operatorFree : QVal → Bool
  | .str s => !hasOperatorWord s
  | .arr l => operatorFreeList l
  | .obj f => operatorFreeFields f
/-- No operator word in the elements of an array. -/
def operatorFreeList : List QVal → Bool
  | [] => true
  | v :: rest => operatorFree v && operatorFreeList rest
/-- No operator word in the members of an object, keys included. -/
def operatorFreeFields : List (String × QVal) → Bool
  | [] => true
  | (k, v) :: rest => !hasOperatorWord k && operatorFree v && operatorFreeFields rest
end

/-! ## Numbers: the unary plus and the arithmetic of `paginate` -/

/-- The conversion ToBoolean on numbers: NaN and zero are falsy. -/
def JsNum.truthy : JsNum → Bool
  | .nan => false
  | .inf _ => true
  | .fin x => decide (x ≠ 0)

/-- The expression `a || b` on numbers. -/
def JsNum.or (a b : JsNum) : JsNum := if a.truthy then a else b

/-- Rounding to the nearest integer, ties to the even one. -/
def roundHalfEven (x : ℚ) : ℤ :=
  if x - ⌊x⌋ < 1 / 2 then ⌊x⌋
  else if 1 / 2 < x - ⌊x⌋ then ⌊x⌋ + 1
  else if ⌊x⌋ % 2 = 0 then ⌊x⌋ else ⌊x⌋ + 1

/-- The exponent of the spacing of the doubles around a value that is not zero: 52 binary
places below its leading bit, and no lower than the spacing 2^-1074 of the subnormals. -/
def ulpExp (q : ℚ) : ℤ :=
  max (Int.log 2 |q|) (-1022) - 52

/-- The Number value for a real number (IEEE-754 binary64, round to nearest, ties to even):
the nearest multiple of the spacing, and an infinity when that multiple reaches 2^1024. -/
def roundDouble (q : ℚ) : JsNum :=
  if q = 0 then .fin 0
  else
    let r : ℚ := (roundHalfEven (q / (2 : ℚ) ^ ulpExp q) : ℚ) * (2 : ℚ) ^ ulpExp q
    if (2 : ℚ) ^ (1024 : ℕ) ≤ |r| then .inf (decide (q < 0)) else .fin r

/-- The expression `a - b`: the exact difference of two doubles, rounded. -/
def JsNum.sub : JsNum → JsNum → JsNum
  | .nan, _ => .nan
  | _, .nan => .nan
  | .inf a, .inf b => if a = b then .nan else .inf a
  | .inf a, .fin _ => .inf a
  | .fin _, .inf b => .inf (!b)
  | .fin x, .fin y => roundDouble (x - y)

/-- The expression `a * b`: the exact product of two doubles, rounded. -/
def JsNum.mul : JsNum → JsNum → JsNum
  | .nan, _ => .nan
  | _, .nan => .nan
  | .inf a, .inf b => .inf (a != b)
  | .inf a, .fin y => if y = 0 then .nan else .inf (a != decide (y < 0))
  | .fin x, .inf b => if x = 0 then .nan else .inf (decide (x < 0) != b)
  | .fin x, .fin y => roundDouble (x * y)

/-- Whether a number is a whole number (`Number.isInteger`). -/
def JsNum.isInteger : JsNum → Bool
  | .fin x => decide (x.den = 1)
  | _ => false

mutual
/-- The conversion ToString on a query-string value: an array is its elements joined by
commas, an object is `[object Object]`. -/
def toStringQ : QVal → List Char
  | .str s => s.data
  | .arr l => toStringItems l
  | .obj _ => "[object Object]".data
/-- The elements of an array joined by commas (`Array.prototype.join`). -/
def toStringItems : List QVal → List Char
  | [] => []
  | v :: [] => toStringQ v
  | v :: w :: rest => toStringQ v ++ ',' :: toStringItems (w :: rest)
end

/-- White space and line terminators that StringToNumber trims (StrWhiteSpaceChar). -/
def isStrWhiteSpace (c : Char) : Bool :=
  c.toNat ∈ [9, 10, 11, 12, 13, 32, 160, 5760, 8192, 8193, 8194, 8195, 8196, 8197, 8198, 8199,
    8200, 8201, 8202, 8232, 8233, 8239, 8287, 12288, 65279]

/-- A string without its leading and trailing white space. -/
def trimWhiteSpace (s : List Char) : List Char :=
  ((s.dropWhile isStrWhiteSpace).reverse.dropWhile isStrWhiteSpace).reverse

/-- Value of a digit in a base up to 16, either case. -/
def digitValue (base : Nat) (c : Char) : Option Nat :=
  let n := c.toNat
  let d := if 48 ≤ n ∧ n ≤ 57 then some (n - 48)
    else if 97 ≤ n ∧ n ≤ 102 then some (n - 87)
    else if 65 ≤ n ∧ n ≤ 70 then some (n - 55)
    else none
  d.filter (fun x => decide (x < base))

/-- The longest stretch of digits at the head of the text, and the text after it. -/
def readDigits (base : Nat) : List Char → List Nat × List Char
  | [] => ([], [])
  | c :: cs =>
    match digitValue base c with
    | some d => ((readDigits base cs).1.cons d, (readDigits base cs).2)
    | none => ([], c :: cs)

/-- The number written by a list of digits. -/
def natOfDigits (base : Nat) (ds : List Nat) : Nat :=
  ds.foldl (fun acc d => acc * base + d) 0

/-- The exponent part after the letter `e`: an optional sign and digits up to the end. -/
def exponentPart (s : List Char) : Option Int :=
  let signed : Bool × List Char :=
    match s with
    | '+' :: t => (false, t)
    | '-' :: t => (true, t)
    | _ => (false, s)
  let ds := readDigits 10 signed.2
  if ds.1 = [] ∨ ds.2 ≠ [] then none
  else some (if signed.1 then -(natOfDigits 10 ds.1 : Int) else (natOfDigits 10 ds.1 : Int))

/-- An unsigned decimal literal other than `Infinity` (StrUnsignedDecimalLiteral): digits, an
optional fraction, an optional exponent. The result is the pair (m, e) of the value m·10^e. -/
def unsignedDecimal (s : List Char) : Option (Nat × Int) :=
  let ip := readDigits 10 s
  let fp : List Nat × List Char :=
    match ip.2 with
    | '.' :: t => readDigits 10 t
    | _ => ([], ip.2)
  if ip.1 = [] ∧ fp.1 = [] then none
  else
    let m := natOfDigits 10 (ip.1 ++ fp.1)
    match fp.2 with
    | [] => some (m, -(fp.1.length : Int))
    | c :: t =>
      if c = 'e' ∨ c = 'E' then
        match exponentPart t with
        | some x => some (m, x - (fp.1.length : Int))
        | none => none
      else none

/-- A numeric literal as it is written: `Infinity` with its sign, or the pair (m, e) of a
finite value m·10^e. -/
inductive NumericLiteral where
  | infinity (negative : Bool)
  | decimal (m : Int) (e : Int)
  deriving DecidableEq

/-- A decimal literal with its optional sign (StrDecimalLiteral). -/
def strDecimalLiteral (s : List Char) : Option NumericLiteral :=
  let signed : Bool × List Char :=
    match s with
    | '+' :: t => (false, t)
    | '-' :: t => (true, t)
    | _ => (false, s)
  if signed.2 = "Infinity".data then some (.infinity signed.1)
  else
    match unsignedDecimal signed.2 with
    | some (m, e) => some (.decimal (if signed.1 then -(m : Int) else (m : Int)) e)
    | none => none

/-- A binary, octal or hexadecimal integer literal (NonDecimalIntegerLiteral). -/
def nonDecimalLiteral (s : List Char) : Option NumericLiteral :=
  match s with
  | '0' :: x :: t =>
    let base : Nat :=
      if x = 'x' ∨ x = 'X' then 16 else if x = 'o' ∨ x = 'O' then 8
      else if x = 'b' ∨ x = 'B' then 2 else 0
    let ds := readDigits base t
    if base = 0 ∨ ds.1 = [] ∨ ds.2 ≠ [] then none
    else some (.decimal (natOfDigits base ds.1 : Int) 0)
  | _ => none

/-- A numeric literal (StrNumericLiteral), if the text is one. -/
def strNumericLiteral (t : List Char) : Option NumericLiteral :=
  match strDecimalLiteral t with
  | some x => some x
  | none => nonDecimalLiteral t

/-- The number a literal denotes: the Number value for its mathematical value m·10^e. -/
def NumericLiteral.value : NumericLiteral → JsNum
  | .infinity negative => .inf negative
  | .decimal m e => roundDouble ((m : ℚ) * (10 : ℚ) ^ e)

/-- The conversion StringToNumber: white space is trimmed, the empty string is 0, a numeric
literal is its value, anything else is NaN. -/
def stringToNumber (s : List Char) : JsNum :=
  let t := trimWhiteSpace s
  if t = [] then .fin 0
  else
    match strNumericLiteral t with
    | some x => x.value
    | none => .nan

/-- The unary plus `+x` on a property read: `undefined` is NaN, any other value is converted
to a string first. -/
def toNumber : Option QVal → JsNum
  | none => .nan
  | some v => stringToNumber (toStringQ v)

/-! ## The other methods of APIFeatures -/

/-- The call `s.split(sep)` for a separator of one character: the stretches between the
separators, in order. -/
def jsSplit (sep : Char) : List Char → List (List Char)
  | [] => [[]]
  | c :: cs =>
    if c = sep then [] :: jsSplit sep cs
    else
      match jsSplit sep cs with
      | [] => [[c]]
      | w :: ws => (c :: w) :: ws

/-- The call `tokens.join(" ")`. -/
def joinSpace : List (List Char) → List Char
  | [] => []
  | w :: [] => w
  | w :: x :: ws => w ++ ' ' :: joinSpace (x :: ws)

/-- The method `sort`. A `sort` entry that is an array or an object is truthy and has no
method `split`: the call throws a `TypeError`, for which `none` stands. -/
def APIFeatures.sort (self : APIFeatures) : Option APIFeatures :=
  match getProp self.queryString "sort" with
  | some (.str s) =>
    if s ≠ "" then
      let sortBy : String := ⟨joinSpace (jsSplit ',' s.data)⟩
      some { self with query := self.query ++ [QueryCall.sort sortBy] }
    else some { self with query := self.query ++ [QueryCall.sort "-createdAt"] }
  | some _ => none
  | none => some { self with query := self.query ++ [QueryCall.sort "-createdAt"] }

/-- The method `limitFields`, built like `sort`. -/
def APIFeatures.limitFields (self : APIFeatures) : Option APIFeatures :=
  match getProp self.queryString "fields" with
  | some (.str s) =>
    if s ≠ "" then
      let fields : String := ⟨joinSpace (jsSplit ',' s.data)⟩
      some { self with query := self.query ++ [QueryCall.select fields] }
    else some { self with query := self.query ++ [QueryCall.select "-__v"] }
  | some _ => none
  | none => some { self with query := self.query ++ [QueryCall.select "-__v"] }

/-- The constant `page` of `paginate`: `+this.queryString.page || 1`. -/
def pageOf (queryString : Fields) : JsNum :=
  (toNumber (getProp queryString "page")).or (.fin 1)

/-- The constant `limit` of `paginate`: `+this.queryString.limit || 100`. -/
def limitOf (queryString : Fields) : JsNum :=
  (toNumber (getProp queryString "limit")).or (.fin 100)

/-- The method `paginate`: `this.query.skip(skip).limit(limit)`. -/
def APIFeatures.paginate (self : APIFeatures) : APIFeatures :=
  let page := pageOf self.queryString
  let limit := limitOf self.queryString
  let skip := (page.sub (.fin 1)).mul limit
  { self with query := self.query ++ [QueryCall.skip skip, QueryCall.limit limit] }

/-- A comma becomes a space, any other character stays. -/
def commaToSpace (c : Char) : Char := if c = ',' then ' ' else c

/-! ## Authentication: the middleware `protect`

The token library and the store are external. `jwt.verify` with the configured secret is a
parameter of the embedding; the user collection is a list of documents, read through
`User.findById`. A run of the middleware is recorded as an `Outcome`: the request and the
response after the run, the arguments of the calls of `next`, and the calls made to
`jwt.verify` and `User.findById`, in order. -/

/-- Modelled from the spec: the class `AppError` of `utilities/appError.js`, which is not
among the sources. An operational error carries a message and the HTTP status code of the
response. -/
structure AppError where
  message : String
  statusCode : Nat
  deriving DecidableEq

/-- A user document, with the fields the authentication reads. Times are in milliseconds
since the epoch. -/
structure User where
  id : String
  role : String
  passwordChangedAt : Option Int
  active : Bool
  deriving DecidableEq

/-- The payload of a verified token: the subject identifier and the issued-at time, in
seconds. -/
structure Payload where
  id : String
  iat : Int
  deriving DecidableEq

/-- The method `changedPasswordAfter` of the user model: whether the password was changed
after the token was issued. `parseInt(ms / 1000, 10)` keeps the whole seconds, rounding
towards zero. -/
def User.changedPasswordAfter (self : User) (jwtTimestamp : Int) : Bool :=
  match self.passwordChangedAt with
  | some ms => decide (jwtTimestamp < Int.tdiv ms 1000)
  | none => false

/-- The query `User.findById(id)`, through the hook `pre(/^find/)` of the user model, which
adds the condition `active: {$ne: false}` to every find query. -/
def findById (users : List User) (id : String) : Option User :=
  users.find? (fun u => u.id == id && u.active != false)

/-- What the middleware reads of the world outside: `jwt.verify(token, JWT_SECRET)`, which
returns the payload or throws an error (here its name), and the user collection. -/
structure World where
  verify : String → Except String Payload
  users : List User

/-- The part of the request the middleware reads and writes: the header
`req.headers.authorization`, the cookie `req.cookies.jwt` and the property `req.user`. -/
structure Request where
  authorization : Option String
  jwtCookie : Option String
  user : Option User
  deriving DecidableEq

/-- The part of the response the middleware writes: `res.locals.user`. -/
structure Response where
  localsUser : Option User
  deriving DecidableEq

/-- The argument of a call of `next`: nothing, an `AppError`, or the error of a rejected
promise that `catchAsync` hands over. -/
inductive NextArg where
  | none
  | appError (e : AppError)
  | thrown (name : String)
  deriving DecidableEq

/-- A call to the token library or to the store. -/
inductive Call where
  | verify (token : String)
  | findById (id : String)
  deriving DecidableEq

/-- A run of a middleware. -/
structure Outcome where
  req : Request
  res : Response
  next : List NextArg
  calls : List Call
  deriving DecidableEq

/-- The expression `authorization.split(" ")[1]`: `none` stands for `undefined`. -/
def bearerToken (authorization : String) : Option String :=
  ((jsSplit ' ' authorization.data).get? 1).map String.mk

/-- The cookie branch of `protect`: `else if (req.cookies.jwt) token = req.cookies.jwt`. -/
def cookieToken (req : Request) : Option String :=
  match req.jwtCookie with
  | some c => if c ≠ "" then some c else none
  | none => none

/-- Step 1 of `protect`: the variable `token` after the two branches, `none` for `undefined`.
The header branch is taken when the header is set and starts with `Bearer`. -/
def extractToken (req : Request) : Option String :=
  match req.authorization with
  | some a =>
    if a ≠ "" ∧ "Bearer".data.isPrefixOf a.data = true then bearerToken a
    else cookieToken req
  | none => cookieToken req

/-- The error of step 1. -/
def notLoggedIn : AppError :=
  ⟨"You are not logged in! Please log in to get access", 401⟩

/-- The error of step 3. -/
def userGone : AppError :=
  ⟨"The user belonging to this token does no longer exits", 401⟩

/-- The error of step 4. -/
def passwordChanged : AppError :=
  ⟨"User recently changed password! Please log in again.", 401⟩

/-- The middleware `protect`, wrapped in `catchAsync`. -/
def protect (w : World) (req : Request) (res : Response) : Outcome :=
  match extractToken req with
  | none => ⟨req, res, [NextArg.appError notLoggedIn], []⟩
  | some token =>
    if token = "" then ⟨req, res, [NextArg.appError notLoggedIn], []⟩
    else
      match w.verify token with
      | .error name => ⟨req, res, [NextArg.thrown name], [Call.verify token]⟩
      | .ok decoded =>
        match findById w.users decoded.id with
        | none =>
          ⟨req, res, [NextArg.appError userGone], [Call.verify token, Call.findById decoded.id]⟩
        | some currentUser =>
          if currentUser.changedPasswordAfter decoded.iat then
            ⟨req, res, [NextArg.appError passwordChanged],
              [Call.verify token, Call.findById decoded.id]⟩
          else
            ⟨{ req with user := some currentUser }, { res with localsUser := some currentUser },
              [NextArg.none], [Call.verify token, Call.findById decoded.id]⟩

/-! ## The other middleware and hooks of the authentication -/

/-- The update `User.findByIdAndUpdate(id, { active: false })`: the first document the query
finds (through the hook `pre(/^find/)`, an active one) gets `active: false`. -/
def deactivate : List User → String → List User
  | [], _ => []
  | u :: rest, id =>
    if u.id == id && u.active != false then { u with active := false } :: rest
    else u :: deactivate rest id

/-- The handler `deleteMe` of the user controller: the user collection after the request and
the status code of the response. Without `req.user` the read of `req.user.id` throws, for
which `none` stands. -/
def deleteMe (users : List User) (req : Request) : Option (List User × Nat) :=
  match req.user with
  | some u => some (deactivate users u.id, 204)
  | none => none

/-- The second hook `pre("save")` of the user model: when the password of an existing
document was modified, `passwordChangedAt` is set one second before the time of the save. -/
def preSavePasswordChangedAt (isModifiedPassword isNew : Bool) (now : Int) (u : User) : User :=
  if !isModifiedPassword || isNew then u
  else { u with passwordChangedAt := some (now - 1000) }

/-- The error of `restrictTo`. -/
def forbidden : AppError :=
  ⟨"You do not have permission to perform this action", 403⟩

/-- The middleware returned by `restrictTo(...roles)`. It reads `req.user.role`: without
`req.user` the read throws a `TypeError`, which express hands to the error handler. -/
def restrictTo (roles : List String) (req : Request) (res : Response) : Outcome :=
  match req.user with
  | some u =>
    if !roles.contains u.role then ⟨req, res, [NextArg.appError forbidden], []⟩
    else ⟨req, res, [NextArg.none], []⟩
  | none => ⟨req, res, [NextArg.thrown "TypeError"], []⟩

/-- The middleware `isLoggedIn`: the steps of `protect` on the cookie alone, inside a `try`
whose `catch` calls `next()`. -/
def isLoggedIn (w : World) (req : Request) (res : Response) : Outcome :=
  match req.jwtCookie with
  | some c =>
    if c ≠ "" then
      match w.verify c with
      | .error _ => ⟨req, res, [NextArg.none], [Call.verify c]⟩
      | .ok decoded =>
        match findById w.users decoded.id with
        | none => ⟨req, res, [NextArg.none], [Call.verify c, Call.findById decoded.id]⟩
        | some currentUser =>
          if currentUser.changedPasswordAfter decoded.iat then
            ⟨req, res, [NextArg.none], [Call.verify c, Call.findById decoded.id]⟩
          else
            ⟨req, { res with localsUser := some currentUser }, [NextArg.none],
              [Call.verify c, Call.findById decoded.id]⟩
    else ⟨req, res, [NextArg.none], []⟩
  | none => ⟨req, res, [NextArg.none], []⟩

/-! ## The token service

`signToken` calls `jwt.sign` and `protect` calls `jwt.verify`, both of the library
jsonwebtoken. A token is identified with what it carries, its claims and its signature: the
string that encodes them is not part of the embedding. The keyed hash of the signature is a
parameter. Times are in milliseconds, claims in seconds. -/

/-- The configuration read from `process.env`: the signing secret `JWT_SECRET` and the
lifetime `JWT_EXPIRES_IN` of a token, in seconds. -/
structure Env where
  jwtSecret : String
  jwtExpiresIn : Int

/-- The claims of a token: the subject identifier, the issued-at time and the expiry. -/
structure Claims where
  id : String
  iat : Int
  exp : Int
  deriving DecidableEq

/-- A signed token. -/
structure Token where
  claims : Claims
  signature : String
  deriving DecidableEq

/-- Modelled from the spec: the call `jwt.sign({ id }, secret, { expiresIn })` of the library
jsonwebtoken, which is not among the sources (§4.2, `issue`): a signed token that embeds the
subject identifier and the current time, with a fixed expiry horizon. -/
def jwtSign (hmac : String → Claims → String) (now : Int) (id : String) (secret : String)
    (expiresIn : Int) : Token :=
  let claims : Claims := ⟨id, now / 1000, now / 1000 + expiresIn⟩
  ⟨claims, hmac secret claims⟩

/-- Modelled from the spec: the call `jwt.verify(token, secret)` of the library jsonwebtoken,
which is not among the sources (§4.2, `verify`): the subject identifier and the issued-at
time, or a failure on a signature mismatch or when the expiry has elapsed. -/
def jwtVerify (hmac : String → Claims → String) (now : Int) (token : Token) (secret : String) :
    Except String Payload :=
  if token.signature ≠ hmac secret token.claims then .error "JsonWebTokenError"
  else if token.claims.exp ≤ now / 1000 then .error "TokenExpiredError"
  else .ok ⟨token.claims.id, token.claims.iat⟩

/-- The function `signToken` of the authentication controller. -/
def signToken (hmac : String → Claims → String) (env : Env) (now : Int) (id : String) : Token :=
  jwtSign hmac now id env.jwtSecret env.jwtExpiresIn

/-- Step 2 of `protect`: `promisify(jwt.verify)(token, process.env.JWT_SECRET)`. -/
def verifyToken (hmac : String → Claims → String) (env : Env) (now : Int) (token : Token) :
    Except String Payload :=
  jwtVerify hmac now token env.jwtSecret

/-! ## The password-reset flow

The hash functions (SHA-256 of `crypto`, `bcrypt`), the random bytes and the delivery of the
email are external: the functions are parameters, the random token and the success of the
delivery are arguments. The user collection is a list of documents; `save` replaces the
stored document that has the identifier of the saved one. -/

/-- A user document with the fields of the password-reset flow. -/
structure UserDoc extends User where
  email : String
  password : Option String
  passwordConfirm : Option String
  passwordResetToken : Option String
  passwordResetExpires : Option Int
  deriving DecidableEq

/-- The method `createPasswordResetToken` of the user model: the document with the hash of
the token and the expiry, and the raw token it returns. `resetToken` stands for
`crypto.randomBytes(32).toString("hex")`. -/
def UserDoc.createPasswordResetToken (self : UserDoc) (sha256 : String → String)
    (resetToken : String) (now : Int) : UserDoc × String :=
  ({ self with
      passwordResetToken := some (sha256 resetToken),
      passwordResetExpires := some (now + 10 * 60 * 1000) },
   resetToken)

/-- The call `user.save()`, once validation and hooks are passed: the collection with the
document in place of the stored one. -/
def saveDoc (users : List UserDoc) (doc : UserDoc) : List UserDoc :=
  users.map (fun x => if x.id == doc.id then doc else x)

/-- The method `String.prototype.toLowerCase` on the letters A to Z, which it maps as every
case mapping does. It serves as the argument `toLowerCase` of the queries on examples. -/
def asciiLower (s : String) : String :=
  ⟨s.data.map Char.toLower⟩

/-- The query `User.findOne({ email })`, through the hook `pre(/^find/)`. The option
`lowercase: true` of the schema lower-cases the value of the filter as it does the stored
addresses; `toLowerCase` is the method `String.prototype.toLowerCase` of the runtime. -/
def findOneByEmail (toLowerCase : String → String) (users : List UserDoc) (email : String) :
    Option UserDoc :=
  users.find? (fun u => u.email == toLowerCase email && u.active != false)

/-- The condition `passwordResetExpires: { $gt: now }`. -/
def expiresAfter (u : UserDoc) (now : Int) : Bool :=
  match u.passwordResetExpires with
  | some e => decide (now < e)
  | none => false

/-- The query `User.findOne({ passwordResetToken: hashedToken, passwordResetExpires:
{ $gt: Date.now() } })`, through the hook `pre(/^find/)`. -/
def findOneByResetToken (users : List UserDoc) (hashedToken : String) (now : Int) :
    Option UserDoc :=
  users.find? (fun u =>
    u.passwordResetToken == some hashedToken && expiresAfter u now && u.active != false)

/-- What `forgotPassword` leaves: the collection, the arguments of the calls of `next`, the
status and the message of the response, and the address and raw token of the email that was
delivered. -/
structure ForgotOutcome where
  users : List UserDoc
  next : List NextArg
  response : Option (Nat × String)
  mailed : Option (String × String)
  deriving DecidableEq

/-- The handler `forgotPassword`. `delivered` tells whether `sendEmail` resolves. -/
def forgotPassword (toLowerCase sha256 : String → String) (delivered : Bool)
    (resetToken : String) (now : Int) (users : List UserDoc) (email : String) : ForgotOutcome :=
  match findOneByEmail toLowerCase users email with
  | none =>
    ⟨users, [NextArg.appError ⟨"There us no user with that email address.", 404⟩], none, none⟩
  | some user =>
    let issued := user.createPasswordResetToken sha256 resetToken now
    let users1 := saveDoc users issued.1
    if delivered then
      ⟨users1, [], some (200, "Token sent to email!"), some (issued.1.email, issued.2)⟩
    else
      let cleared : UserDoc :=
        { issued.1 with passwordResetToken := none, passwordResetExpires := none }
      ⟨saveDoc users1 cleared,
        [NextArg.appError ⟨"There was an error sending the email. Try again later!", 500⟩],
        none, none⟩

/-- The body of the request of `resetPassword`. -/
structure ResetBody where
  password : Option String
  passwordConfirm : Option String
  deriving DecidableEq

/-- What `resetPassword` leaves: the collection, the arguments of the calls of `next`, and
the arguments of the call `createSendToken(user, 200, res)`. -/
structure ResetOutcome where
  users : List UserDoc
  next : List NextArg
  sent : Option (UserDoc × Nat)
  deriving DecidableEq

/-- The error of `resetPassword`. -/
def invalidOrExpired : AppError :=
  ⟨"Token is invalid or has expired", 400⟩

/-- The length of a JavaScript string, in UTF-16 code units. -/
def utf16Length (s : String) : Nat :=
  (s.data.map (fun c => if c.toNat < 65536 then 1 else 2)).sum

/-- The validators of the schema on the two fields the request sets: a password of at least
8 characters and a confirmation equal to it. -/
def passwordValid (u : UserDoc) : Bool :=
  match u.password, u.passwordConfirm with
  | some p, some c => decide (8 ≤ utf16Length p) && c == p
  | _, _ => false

/-- The two hooks `pre("save")` on a document whose password was modified: the password is
hashed, the confirmation dropped, and `passwordChangedAt` set. -/
def preSave (bcryptHash : String → String) (now : Int) (u : UserDoc) : UserDoc :=
  { u with
      toUser := preSavePasswordChangedAt true false now u.toUser,
      password := u.password.map bcryptHash,
      passwordConfirm := none }

/-- The handler `resetPassword`, wrapped in `catchAsync`. `now` is the time of the query,
`saveTime` the time of the save. A document that fails validation is not saved and the
error goes to `next`. -/
def resetPassword (sha256 bcryptHash : String → String) (now saveTime : Int)
    (users : List UserDoc) (token : String) (body : ResetBody) : ResetOutcome :=
  match findOneByResetToken users (sha256 token) now with
  | none => ⟨users, [NextArg.appError invalidOrExpired], none⟩
  | some user =>
    let user1 : UserDoc :=
      { user with
          password := body.password,
          passwordConfirm := body.passwordConfirm,
          passwordResetToken := none,
          passwordResetExpires := none }
    if passwordValid user1 then
      let saved := preSave bcryptHash saveTime user1
      ⟨saveDoc users saved, [], some (saved, 200)⟩
    else ⟨users, [NextArg.thrown "ValidationError"], none⟩

/-! ## Sending a token: `createSendToken` and the handlers that call it -/

/-- A cookie set by `res.cookie(name, value, options)`: `expires` is in milliseconds, and
`secure` is false when the option is not set. -/
structure Cookie where
  name : String
  value : Token
  expires : Int
  httpOnly : Bool
  secure : Bool
  deriving DecidableEq

/-- The response `createSendToken` sends: the cookie, the status code and the body
`{ status, token, data: { user } }`. -/
structure TokenResponse where
  cookie : Cookie
  statusCode : Nat
  status : String
  token : Token
  user : UserDoc
  deriving DecidableEq

/-- The function `createSendToken`. `cookieExpiresIn` is `process.env.JWT_COOKIE_EXPIRES_IN`,
in days, `production` tells whether `process.env.NODE_ENV === "production"`, and `now` is
`Date.now()`. The password of the document is set to `undefined` before it is sent. -/
def createSendToken (hmac : String → Claims → String) (env : Env) (cookieExpiresIn : Int)
    (production : Bool) (now : Int) (user : UserDoc) (statusCode : Nat) : TokenResponse :=
  let token := signToken hmac env now user.id
  let cookie : Cookie :=
    ⟨"jwt", token, now + cookieExpiresIn * 24 * 60 * 60 * 1000, true, production⟩
  ⟨cookie, statusCode, "success", token, { user with password := none }⟩

/-- The truthiness of a property that is a string or undefined. -/
def truthyStr : Option String → Bool
  | some s => s != ""
  | none => false

/-- The fields of the body that `signup` hands to `User.create`. -/
structure SignupBody where
  name : Option String
  email : Option String
  password : Option String
  passwordConfirm : Option String
  passwordChangedAt : Option Int
  deriving DecidableEq

/-- The document `User.create` builds from the body: the address is lower-cased by the
schema, the role and the flag `active` take their defaults. -/
def newDocument (toLowerCase : String → String) (newId : String) (body : SignupBody) :
    UserDoc :=
  ⟨⟨newId, "user", body.passwordChangedAt, true⟩, toLowerCase (body.email.getD ""),
    body.password, body.passwordConfirm, none, none⟩

/-- The validators of the user schema on a new document: a name and an address are required,
the address passes `validator.isEmail`, and the password and its confirmation pass
`passwordValid`. -/
def signupValid (toLowerCase : String → String) (isEmail : String → Bool) (newId : String)
    (body : SignupBody) : Bool :=
  truthyStr body.name && truthyStr body.email
    && isEmail (newDocument toLowerCase newId body).email
    && passwordValid (newDocument toLowerCase newId body)

/-- The unique indexes of the user collection: the `_id` and the address. -/
def duplicateUser (users : List UserDoc) (doc : UserDoc) : Bool :=
  users.any (fun x => x.id == doc.id || x.email == doc.email)

/-- The handler `signup`, wrapped in `catchAsync`: `User.create(...)` validates the
document, runs the hooks `pre("save")` (the password is hashed and the confirmation dropped;
a new document gets no `passwordChangedAt` from the hook) and inserts it, and
`createSendToken(newUser, 201, res)` follows. `newId` is the `_id` the document gets. -/
def signup (toLowerCase : String → String) (isEmail : String → Bool)
    (bcryptHash : String → String) (newId : String) (users : List UserDoc)
    (body : SignupBody) : ResetOutcome :=
  let doc := newDocument toLowerCase newId body
  if !signupValid toLowerCase isEmail newId body then
    ⟨users, [NextArg.thrown "ValidationError"], none⟩
  else if duplicateUser users doc then ⟨users, [NextArg.thrown "MongoError"], none⟩
  else
    let newUser : UserDoc :=
      { doc with password := doc.password.map bcryptHash, passwordConfirm := none }
    ⟨users ++ [newUser], [], some (newUser, 201)⟩

/-- The method `correctPassword`: `bcrypt.compare(candidatePassword, userPassword)`, which
rejects when an argument is missing. -/
def correctPassword (bcryptCompare : String → String → Bool)
    (candidatePassword userPassword : Option String) : Except String Bool :=
  match candidatePassword, userPassword with
  | some c, some p => .ok (bcryptCompare c p)
  | _, _ => .error "Error"

/-- The handler `login`, wrapped in `catchAsync`, on the body `{ email, password }`. -/
def login (toLowerCase : String → String) (bcryptCompare : String → String → Bool)
    (users : List UserDoc)
    (email password : Option String) : ResetOutcome :=
  if !truthyStr email || !truthyStr password then
    ⟨users, [NextArg.appError ⟨"Please provide email and password!", 400⟩], none⟩
  else
    match findOneByEmail toLowerCase users (email.getD "") with
    | none => ⟨users, [NextArg.appError ⟨"Incorrect email or password", 401⟩], none⟩
    | some user =>
      match correctPassword bcryptCompare password user.password with
      | .error name => ⟨users, [NextArg.thrown name], none⟩
      | .ok false => ⟨users, [NextArg.appError ⟨"Incorrect email or password", 401⟩], none⟩
      | .ok true => ⟨users, [], some (user, 200)⟩

/-- The query `User.findById(id).select("+password")`, through the hook `pre(/^find/)`. -/
def findDocById (users : List UserDoc) (id : String) : Option UserDoc :=
  users.find? (fun u => u.id == id && u.active != false)

/-- The body of the request of `updatePassword`. -/
structure UpdatePasswordBody where
  passwordCurrent : Option String
  password : Option String
  passwordConfirm : Option String
  deriving DecidableEq

/-- The handler `updatePassword`, wrapped in `catchAsync`. `reqUser` is `req.user`; a
missing `req.user` or a subject that is no longer found makes the property access throw. -/
def updatePassword (bcryptCompare : String → String → Bool) (bcryptHash : String → String)
    (saveTime : Int) (users : List UserDoc) (reqUser : Option User)
    (body : UpdatePasswordBody) : ResetOutcome :=
  match reqUser with
  | none => ⟨users, [NextArg.thrown "TypeError"], none⟩
  | some me =>
    match findDocById users me.id with
    | none => ⟨users, [NextArg.thrown "TypeError"], none⟩
    | some user =>
      match correctPassword bcryptCompare body.passwordCurrent user.password with
      | .error name => ⟨users, [NextArg.thrown name], none⟩
      | .ok false => ⟨users, [NextArg.appError ⟨"Incorrect password", 401⟩], none⟩
      | .ok true =>
        let user1 : UserDoc :=
          { user with password := body.password, passwordConfirm := body.passwordConfirm }
        if passwordValid user1 then
          let saved := preSave bcryptHash saveTime user1
          ⟨saveDoc users saved, [], some (saved, 200)⟩
        else ⟨users, [NextArg.thrown "ValidationError"], none⟩

/-- The response of a handler that ends with `createSendToken(user, statusCode, res)`. -/
def sendToken (hmac : String → Claims → String) (env : Env) (cookieExpiresIn : Int)
    (production : Bool) (now : Int) (out : ResetOutcome) : Option TokenResponse :=
  out.sent.map (fun p => createSendToken hmac env cookieExpiresIn production now p.1 p.2)

/-! ## Reviews and the rating statistics of a tour

Ratings and their mean are exact rationals; a rating that is not set is `none`. The hooks
are run to completion one after the other. -/

/-- A review document: its `_id`, the text, the rating (not required by the schema), and the
identifiers of the tour and of the user. -/
structure Review where
  id : String
  review : String
  rating : Option ℚ
  tour : String
  user : String
  deriving DecidableEq

/-- The fields of a tour document that reviews bear on: its `_id`, `ratingsAverage` (`none`
is null) and `ratingsQuantity`. -/
structure Tour where
  id : String
  ratingsAverage : Option ℚ
  ratingsQuantity : ℚ
  deriving DecidableEq

/-- A document of the stage `$group`. -/
structure Stats where
  id : String
  nRating : Nat
  avgRating : Option ℚ
  deriving DecidableEq

/-- The accumulator `$avg`: the mean of the numeric values, null when there is none. -/
def avg (xs : List ℚ) : Option ℚ :=
  if xs.isEmpty then none else some (xs.sum / xs.length)

/-- The pipeline of `calcAverageRatings`: `$match: { tour: tourId }`, then `$group` by
`$tour` with `nRating: { $sum: 1 }` and `avgRating: { $avg: "$rating" }`. All matched
documents have the same tour, so there is one group, or none when nothing matches. -/
def aggregate (reviews : List Review) (tourId : String) : List Stats :=
  let matched := reviews.filter (fun r => r.tour == tourId)
  if matched.isEmpty then []
  else [⟨tourId, matched.length, avg (matched.filterMap (fun r => r.rating))⟩]

/-- The call `Tour.findByIdAndUpdate(tourId, { ratingsQuantity, ratingsAverage })`: the first
document with that `_id` gets the two fields. -/
def tourFindByIdAndUpdate : List Tour → String → ℚ → Option ℚ → List Tour
  | [], _, _, _ => []
  | t :: ts, tourId, ratingsQuantity, ratingsAverage =>
    if t.id == tourId then
      { t with ratingsQuantity := ratingsQuantity, ratingsAverage := ratingsAverage } :: ts
    else t :: tourFindByIdAndUpdate ts tourId ratingsQuantity ratingsAverage

/-- The static method `calcAverageRatings` of the review model. -/
def calcAverageRatings (reviews : List Review) (tours : List Tour) (tourId : String) :
    List Tour :=
  match aggregate reviews tourId with
  | stats :: _ => tourFindByIdAndUpdate tours tourId stats.nRating stats.avgRating
  | [] => tourFindByIdAndUpdate tours tourId 0 (some 4.5)

/-- What a handler on reviews leaves: the two collections, the arguments of the calls of
`next`, and the status code of the response. -/
structure ReviewOutcome where
  reviews : List Review
  tours : List Tour
  next : List NextArg
  status : Option Nat
  deriving DecidableEq

/-- The validators of the review schema: a text that is not empty, a rating between 1 and 5
when there is one, and a tour and a user. -/
def reviewValid (r : Review) : Bool :=
  r.review != "" && r.tour != "" && r.user != "" &&
  match r.rating with
  | some x => decide (1 ≤ x) && decide (x ≤ 5)
  | none => true

/-- The unique indexes: the `_id`, and the pair of tour and user. -/
def duplicateKey (reviews : List Review) (r : Review) : Bool :=
  reviews.any (fun x => x.id == r.id || (x.tour == r.tour && x.user == r.user))

/-- The handler `createReview` (`factory.createOne`): `Review.create(req.body)` followed by
the hook `post("save")`, which calls `calcAverageRatings(this.tour)`. -/
def createReview (reviews : List Review) (tours : List Tour) (r : Review) : ReviewOutcome :=
  if !reviewValid r then ⟨reviews, tours, [NextArg.thrown "ValidationError"], none⟩
  else if duplicateKey reviews r then ⟨reviews, tours, [NextArg.thrown "MongoError"], none⟩
  else ⟨reviews ++ [r], calcAverageRatings (reviews ++ [r]) tours r.tour, [], some 201⟩

/-- The handler `deleteReview` (`factory.deleteOne`): `Review.findByIdAndDelete(id)` between
the hooks `pre(/^findOneAnd/)`, which keeps the document found in `this.r`, and
`post(/^findOneAnd/)`, which calls `calcAverageRatings(this.r.tour)`; with no document
found `this.r` is null and the hook throws. -/
def deleteReview (reviews : List Review) (tours : List Tour) (id : String) : ReviewOutcome :=
  match reviews.find? (fun x => x.id == id) with
  | none => ⟨reviews, tours, [NextArg.thrown "TypeError"], none⟩
  | some r =>
    let reviews1 := reviews.eraseP (fun x => x.id == id)
    ⟨reviews1, calcAverageRatings reviews1 tours r.tour, [], some 204⟩

/-! ## The handler `updateMe`

A request body is an object, a list of keys and values in insertion order. The handler reads
the values for their truthiness only, so their type `α` and the truthiness `truthy` of a
value are arguments. -/

/-- Property read `obj[k]` on a body; `none` is undefined. -/
def bodyGet {α : Type} (obj : List (String × α)) (k : String) : Option α :=
  (obj.find? (fun p => p.1 == k)).map Prod.snd

/-- Property write `obj[k] = v` on a body: an existing property keeps its place, a new one
goes last. -/
def bodySet {α : Type} : List (String × α) → String → α → List (String × α)
  | [], k, v => [(k, v)]
  | (k0, v0) :: rest, k, v =>
    if k0 == k then (k0, v) :: rest else (k0, v0) :: bodySet rest k v

/-- The function `filterObj` of the user controller: for each key of `obj`, in order,
`newObj[el] = obj[el]` when the key is among `allowedFields`. -/
def filterObj {α : Type} (obj : List (String × α)) (allowedFields : List String) :
    List (String × α) :=
  (obj.map Prod.fst).foldl
    (fun newObj el =>
      if allowedFields.contains el then
        match bodyGet obj el with
        | some v => bodySet newObj el v
        | none => newObj
      else newObj)
    []

/-- The truthiness of a property that may be undefined. -/
def truthyProp {α : Type} (truthy : α → Bool) : Option α → Bool
  | some v => truthy v
  | none => false

/-- What `updateMe` leaves: the arguments of the calls of `next`, the identifier and the
update of the call `User.findByIdAndUpdate(req.user.id, filteredBody, ...)`, and the status
code of the response. -/
structure UpdateMeOutcome (α : Type) where
  next : List NextArg
  update : Option (String × List (String × α))
  status : Option Nat

/-- The error of `updateMe` on a body with a password. -/
def notForPasswords : AppError :=
  ⟨"This route is not for password updates. Please use /updateMyPassword", 400⟩

/-- The handler `updateMe`, wrapped in `catchAsync`. `reqUser` is `req.user`, and
`storeError` is the error with which the store rejects the update (validation, cast or
duplicate key), if it does. -/
def updateMe {α : Type} (truthy : α → Bool) (storeError : Option String)
    (reqUser : Option User) (body : List (String × α)) : UpdateMeOutcome α :=
  if truthyProp truthy (bodyGet body "password")
      || truthyProp truthy (bodyGet body "passwordConfirm") then
    ⟨[NextArg.appError notForPasswords], none, none⟩
  else
    let filteredBody := filterObj body ["name", "email"]
    match reqUser with
    | none => ⟨[NextArg.thrown "TypeError"], none, none⟩
    | some me =>
      match storeError with
      | some name => ⟨[NextArg.thrown name], some (me.id, filteredBody), none⟩
      | none => ⟨[], some (me.id, filteredBody), some 200⟩

/-! # Properties -/

theorem lastIsWord_opWords {w : List Char} (hw : w ∈ opWords) : lastIsWord w = true := by
  simp only [opWords, List.mem_cons, List.mem_singleton, List.not_mem_nil, or_false] at hw
  rcases hw with h | h | h | h <;> subst h <;> decide

theorem headIsWord_opWords_append {w : List Char} (hw : w ∈ opWords) (r : List Char) :
    headIsWord (w ++ r) = true := by
  simp only [opWords, List.mem_cons, List.mem_singleton, List.not_mem_nil, or_false] at hw
  rcases hw with h | h | h | h <;> subst h <;> rfl

theorem matchAlt_some {s w : List Char} {n : Nat} (h : matchAlt s w = some n) :
    ∃ r, s = w ++ r ∧ n = w.length ∧ wordBoundary (lastIsWord w) r = true := by
  unfold matchAlt at h
  split at h
  · rename_i hc
    simp only [Bool.and_eq_true] at hc
    obtain ⟨hp, hb⟩ := hc
    rw [List.isPrefixOf_iff_prefix] at hp
    obtain ⟨r, rfl⟩ := hp
    refine ⟨r, rfl, ?_, ?_⟩
    · simpa using h.symm
    · simpa using hb
  · cases h

theorem matchOp_some {pw : Bool} {s : List Char} {n : Nat} (h : matchOp pw s = some n) :
    pw = false ∧ ∃ w r, w ∈ opWords ∧ s = w ++ r ∧ n = w.length ∧ headIsWord r = false := by
  unfold matchOp at h
  split at h
  · rename_i hb
    obtain ⟨w, hw, hm⟩ := List.exists_of_findSome?_eq_some h
    obtain ⟨r, rfl, hn, hbr⟩ := matchAlt_some hm
    rw [lastIsWord_opWords hw] at hbr
    simp only [wordBoundary, headIsWord_opWords_append hw] at hb hbr
    refine ⟨by simpa using hb, w, r, hw, rfl, hn, by simpa using hbr⟩
  · cases h

theorem matchOp_true (s : List Char) : matchOp true s = none := by
  cases h : matchOp true s with
  | none => rfl
  | some n => exact absurd (matchOp_some h).1 (by simp)

theorem matchOp_nil (pw : Bool) : matchOp pw [] = none := by
  cases pw <;> decide

theorem matchOp_cons_of_ne {c : Char} (hg : c ≠ 'g') (hl : c ≠ 'l') (pw : Bool) (cs : List Char) :
    matchOp pw (c :: cs) = none := by
  cases h : matchOp pw (c :: cs) with
  | none => rfl
  | some n =>
    obtain ⟨_, w, r, hw, hs, _, _⟩ := matchOp_some h
    simp only [opWords, List.mem_cons, List.mem_singleton, List.not_mem_nil, or_false] at hw
    rcases hw with h | h | h | h <;> subst h <;> simp at hs <;> simp_all

theorem matchOp_opWord {w : List Char} (hw : w ∈ opWords) {r : List Char}
    (hr : headIsWord r = false) : matchOp false (w ++ r) = some w.length := by
  have he : ∀ t, r ≠ 'e' :: t := by
    rintro t rfl
    have h2 : headIsWord ('e' :: t) = true := rfl
    rw [h2] at hr
    cases hr
  have hb : wordBoundary true r = true := by simp [wordBoundary, hr]
  have we : isWordChar 'e' = true := by decide
  have wt : isWordChar 't' = true := by decide
  have wg : isWordChar 'g' = true := by decide
  have wl : isWordChar 'l' = true := by decide
  have hpe : ['e'].isPrefixOf r = false := by
    cases r with
    | nil => rfl
    | cons d t =>
      simp only [List.isPrefixOf, Bool.and_true, beq_eq_false_iff_ne, ne_eq]
      rintro rfl
      exact he t rfl
  simp only [opWords, List.mem_cons, List.mem_singleton, List.not_mem_nil, or_false] at hw
  rcases hw with h | h | h | h <;> subst h
  · have h1 : matchAlt ('g' :: 't' :: 'e' :: r) "gte".data = some 3 := by
      simp [matchAlt, List.isPrefixOf, lastIsWord, hb, we]
    simp [matchOp, wordBoundary, headIsWord, opWords, wg, h1]
  · have h1 : matchAlt ('g' :: 't' :: r) "gte".data = none := by
      simp [matchAlt, List.isPrefixOf, lastIsWord, hpe]
    have h2 : matchAlt ('g' :: 't' :: r) "gt".data = some 2 := by
      simp [matchAlt, List.isPrefixOf, lastIsWord, hb, wt]
    simp [matchOp, wordBoundary, headIsWord, opWords, wg, h1, h2]
  · have h1 : matchAlt ('l' :: 't' :: 'e' :: r) "gte".data = none := by
      simp [matchAlt, List.isPrefixOf]
    have h2 : matchAlt ('l' :: 't' :: 'e' :: r) "gt".data = none := by
      simp [matchAlt, List.isPrefixOf]
    have h3 : matchAlt ('l' :: 't' :: 'e' :: r) "lte".data = some 3 := by
      simp [matchAlt, List.isPrefixOf, lastIsWord, hb, we]
    simp [matchOp, wordBoundary, headIsWord, opWords, wl, h1, h2, h3]
  · have h1 : matchAlt ('l' :: 't' :: r) "gte".data = none := by
      simp [matchAlt, List.isPrefixOf]
    have h2 : matchAlt ('l' :: 't' :: r) "gt".data = none := by
      simp [matchAlt, List.isPrefixOf]
    have h3 : matchAlt ('l' :: 't' :: r) "lte".data = none := by
      simp [matchAlt, List.isPrefixOf, lastIsWord, hpe]
    have h4 : matchAlt ('l' :: 't' :: r) "lt".data = some 2 := by
      simp [matchAlt, List.isPrefixOf, lastIsWord, hb, wt]
    simp [matchOp, wordBoundary, headIsWord, opWords, wl, h1, h2, h3, h4]

/-! ### Escaped characters -/

theorem hexDigit_ne_op {n : Nat} (hn : n < 16) : hexDigit n ≠ 'g' ∧ hexDigit n ≠ 'l' := by
  interval_cases n <;> decide

theorem hexDigit_isWord {n : Nat} (hn : n < 16) : isWordChar (hexDigit n) = true := by
  interval_cases n <;> decide

theorem hexValue_hexDigit {n : Nat} (hn : n < 16) : hexValue (hexDigit n) = some n := by
  interval_cases n <;> decide

/-- The three shapes of an escaped character: itself, a one-letter escape, or `\u00XX`. -/
theorem escapeChar_cases (c : Char) :
    (escapeChar c = [c] ∧ c ≠ '"' ∧ c ≠ '\\' ∧ 32 ≤ c.toNat) ∨
    (∃ e, escapeChar c = ['\\', e] ∧ simpleEscape e = some c ∧ e ≠ 'u' ∧ e ≠ 'g' ∧ e ≠ 'l'
      ∧ isWordChar c = false) ∨
    (escapeChar c = ['\\', 'u', '0', '0', hexDigit (c.toNat / 16), hexDigit (c.toNat % 16)]
      ∧ c.toNat < 32) := by
  unfold escapeChar
  split_ifs with h1 h2 h3 h4 h5 h6 h7 h8
  · exact Or.inr (Or.inl ⟨'"', rfl, by subst h1; decide, by decide, by decide, by decide,
      by subst h1; decide⟩)
  · exact Or.inr (Or.inl ⟨'\\', rfl, by subst h2; decide, by decide, by decide, by decide,
      by subst h2; decide⟩)
  · exact Or.inr (Or.inl ⟨'b', rfl, by subst h3; decide, by decide, by decide, by decide,
      by subst h3; decide⟩)
  · exact Or.inr (Or.inl ⟨'f', rfl, by subst h4; decide, by decide, by decide, by decide,
      by subst h4; decide⟩)
  · exact Or.inr (Or.inl ⟨'n', rfl, by subst h5; decide, by decide, by decide, by decide,
      by subst h5; decide⟩)
  · exact Or.inr (Or.inl ⟨'r', rfl, by subst h6; decide, by decide, by decide, by decide,
      by subst h6; decide⟩)
  · exact Or.inr (Or.inl ⟨'t', rfl, by subst h7; decide, by decide, by decide, by decide,
      by subst h7; decide⟩)
  · exact Or.inr (Or.inr ⟨rfl, h8⟩)
  · exact Or.inl ⟨rfl, h1, h2, Nat.le_of_not_lt h8⟩

theorem uint32_toNat_le {a b : UInt32} (h : a ≤ b) : a.toNat ≤ b.toNat := by
  rw [UInt32.le_def, BitVec.le_def] at h
  exact h

theorem isWordChar_toNat {c : Char} (h : isWordChar c = true) : 48 ≤ c.toNat := by
  simp only [isWordChar, Char.isAlphanum, Char.isAlpha, Char.isUpper, Char.isLower, Char.isDigit,
    Bool.or_eq_true, Bool.and_eq_true, decide_eq_true_eq, beq_iff_eq] at h
  rcases h with ((⟨h, _⟩ | ⟨h, _⟩) | ⟨h, _⟩) | h
  · have h2 : (65 : UInt32).toNat ≤ c.toNat := uint32_toNat_le h
    have h3 : (65 : UInt32).toNat = 65 := rfl
    omega
  · have h2 : (97 : UInt32).toNat ≤ c.toNat := uint32_toNat_le h
    have h3 : (97 : UInt32).toNat = 97 := rfl
    omega
  · have h2 : (48 : UInt32).toNat ≤ c.toNat := uint32_toNat_le h
    have h3 : (48 : UInt32).toNat = 48 := rfl
    omega
  · subst h
    decide

/-- A word character is written as itself in a JSON text. -/
theorem escapeChar_of_isWord {c : Char} (h : isWordChar c = true) : escapeChar c = [c] := by
  have h48 := isWordChar_toNat h
  rcases escapeChar_cases c with ⟨h1, _⟩ | ⟨e, _, _, _, _, _, hw⟩ | ⟨_, h32⟩
  · exact h1
  · rw [h] at hw; cases hw
  · omega

/-- The escaped form of a character starts with a word character exactly when the character
is one. -/
theorem headIsWord_escapeChar (c : Char) (t : List Char) :
    headIsWord (escapeChar c ++ t) = isWordChar c := by
  cases h : isWordChar c with
  | true => rw [escapeChar_of_isWord h]; exact h
  | false =>
    rcases escapeChar_cases c with ⟨h1, _⟩ | ⟨e, h1, _⟩ | ⟨h1, _⟩
    · rw [h1]; exact h
    · rw [h1]; rfl
    · rw [h1]; rfl

theorem endsWord_of_isWord {c : Char} (h : isWordChar c = true) : endsWord c = true := by
  simp [endsWord, escapeChar_of_isWord h, lastIsWord, h]

/-! ### The scan over a stretch without operator letters -/

theorem replaceOps_block (b : List Char) (hb : ∀ x ∈ b, x ≠ 'g' ∧ x ≠ 'l') (pw : Bool)
    (t : List Char) : replaceOps 0 pw (b ++ t) = b ++ replaceOps 0 (flagAfter pw b) t := by
  induction b generalizing pw with
  | nil => rfl
  | cons c b ih =>
    have hc := hb c (List.mem_cons_self _ _)
    rw [List.cons_append, replaceOps, matchOp_cons_of_ne hc.1 hc.2]
    simp only []
    rw [ih (fun x hx => hb x (List.mem_cons_of_mem _ hx))]
    rfl

theorem escapeChar_block {c : Char} (hg : c ≠ 'g') (hl : c ≠ 'l') :
    ∀ x ∈ escapeChar c, x ≠ 'g' ∧ x ≠ 'l' := by
  rcases escapeChar_cases c with ⟨h1, _⟩ | ⟨e, h1, _, _, h2, h3, _⟩ | ⟨h1, h32⟩
  · rw [h1]; simpa using ⟨hg, hl⟩
  · rw [h1]
    intro x hx
    simp only [List.mem_cons, List.mem_singleton, List.not_mem_nil, or_false] at hx
    rcases hx with rfl | rfl
    · decide
    · exact ⟨h2, h3⟩
  · rw [h1]
    have ha := hexDigit_ne_op (show c.toNat / 16 < 16 by omega)
    have hb := hexDigit_ne_op (show c.toNat % 16 < 16 by omega)
    intro x hx
    simp only [List.mem_cons, List.mem_singleton, List.not_mem_nil, or_false] at hx
    rcases hx with rfl | rfl | rfl | rfl | rfl | rfl
    · decide
    · decide
    · decide
    · decide
    · exact ha
    · exact hb

theorem flagAfter_escapeChar (pw : Bool) (c : Char) : flagAfter pw (escapeChar c) = endsWord c := by
  rcases escapeChar_cases c with ⟨h1, _⟩ | ⟨e, h1, _⟩ | ⟨h1, _⟩ <;>
    simp [endsWord, h1, flagAfter, lastIsWord]

/-! ### The rewrite inside one string of the text -/

theorem escapeChars_append (a b : List Char) :
    escapeChars (a ++ b) = escapeChars a ++ escapeChars b := by
  induction a with
  | nil => rfl
  | cons c a ih => simp [escapeChars, ih]

theorem escapeChars_of_isWord {w : List Char} (hw : ∀ x ∈ w, isWordChar x = true) :
    escapeChars w = w := by
  induction w with
  | nil => rfl
  | cons c w ih =>
    rw [escapeChars, escapeChar_of_isWord (hw c (List.mem_cons_self _ _)),
      ih (fun x hx => hw x (List.mem_cons_of_mem _ hx))]
    rfl

theorem isWord_of_mem_opWords {w : List Char} (hw : w ∈ opWords) :
    ∀ x ∈ w, isWordChar x = true := by
  simp only [opWords, List.mem_cons, List.mem_singleton, List.not_mem_nil, or_false] at hw
  rcases hw with h | h | h | h <;> subst h <;> decide

/-- The text of a string up to its closing quote starts with a word character exactly when
the string does. -/
theorem headIsWord_escapeChars (r rest : List Char) :
    headIsWord (escapeChars r ++ '"' :: rest) = headIsWord r := by
  cases r with
  | nil => rfl
  | cons c cs =>
    rw [escapeChars, List.append_assoc, headIsWord_escapeChar]
    rfl

/-- A stretch of word characters at the head of the text of a string is a stretch at the head
of the string. -/
theorem word_head_of_escapeChars {w : List Char} (hw : ∀ x ∈ w, isWordChar x = true) :
    ∀ (s rest r : List Char), escapeChars s ++ '"' :: rest = w ++ r →
      ∃ r0, s = w ++ r0 ∧ r = escapeChars r0 ++ '"' :: rest := by
  induction w with
  | nil => intro s rest r h; exact ⟨s, rfl, by simpa using h.symm⟩
  | cons x w ih =>
    intro s rest r h
    have hx := hw x (List.mem_cons_self _ _)
    cases s with
    | nil =>
      simp only [escapeChars, List.nil_append, List.cons_append, List.cons.injEq] at h
      rw [← h.1] at hx
      exact absurd hx (by decide)
    | cons c cs =>
      have hc : isWordChar c = true := by
        have h1 := headIsWord_escapeChar c (escapeChars cs ++ '"' :: rest)
        rw [← List.append_assoc, ← escapeChars, h] at h1
        rw [← h1]
        exact hx
      rw [escapeChars, escapeChar_of_isWord hc] at h
      simp only [List.cons_append, List.nil_append, List.cons.injEq] at h
      obtain ⟨r0, h1, h2⟩ := ih (fun y hy => hw y (List.mem_cons_of_mem _ hy)) cs rest r h.2
      exact ⟨r0, by rw [h.1, h1]; rfl, h2⟩

/-- A match in the text of a string is a match in the string, at the same place. -/
theorem matchOp_escapeChars (pw : Bool) (s rest : List Char) :
    matchOp pw (escapeChars s ++ '"' :: rest) = matchOp pw s := by
  cases h : matchOp pw s with
  | some n =>
    obtain ⟨rfl, w, r, hw, rfl, rfl, hr⟩ := matchOp_some h
    rw [escapeChars_append, escapeChars_of_isWord (isWord_of_mem_opWords hw), List.append_assoc]
    apply matchOp_opWord hw
    rw [headIsWord_escapeChars]
    exact hr
  | none =>
    cases h2 : matchOp pw (escapeChars s ++ '"' :: rest) with
    | none => rfl
    | some n =>
      obtain ⟨rfl, w, r, hw, hs, rfl, hr⟩ := matchOp_some h2
      obtain ⟨r0, rfl, rfl⟩ := word_head_of_escapeChars (isWord_of_mem_opWords hw) s rest r hs
      rw [headIsWord_escapeChars] at hr
      rw [matchOp_opWord hw hr] at h
      cases h

/-- What a match leaves to be copied: word characters of the string. -/
theorem matchOp_cons_some {pw : Bool} {c : Char} {cs : List Char} {n : Nat}
    (h : matchOp pw (c :: cs) = some n) :
    isWordChar c = true ∧ n - 1 ≤ cs.length ∧ ∀ x ∈ cs.take (n - 1), isWordChar x = true := by
  obtain ⟨_, w, r, hw, hs, rfl, _⟩ := matchOp_some h
  have hww := isWord_of_mem_opWords hw
  cases w with
  | nil => simp [opWords] at hw
  | cons x w =>
    simp only [List.cons_append, List.cons.injEq] at hs
    obtain ⟨rfl, rfl⟩ := hs
    refine ⟨hww _ (List.mem_cons_self _ _), by simp, ?_⟩
    intro y hy
    simp at hy
    exact hww y (List.mem_cons_of_mem _ hy)

theorem replaceOps_escapeChars (s : List Char) :
    ∀ (k : Nat) (pw : Bool) (rest : List Char),
      k ≤ s.length → (∀ x ∈ s.take k, isWordChar x = true) →
      replaceOps k pw (escapeChars s ++ '"' :: rest)
        = escapeChars (renameChars k pw s) ++ '"' :: replaceOps 0 false rest := by
  induction s with
  | nil =>
    intro k pw rest hk _
    have hk0 : k = 0 := by simpa using hk
    subst hk0
    exact replaceOps_block ['"'] (by decide) pw rest
  | cons c cs ih =>
    intro k pw rest hk hword
    cases k with
    | succ k =>
      have hc : isWordChar c = true := hword c (by simp)
      have ih1 := ih k (isWordChar c) rest (by simpa using hk)
        (fun x hx => hword x (by simp [hx]))
      rw [escapeChars, escapeChar_of_isWord hc, renameChars, escapeChars,
        escapeChar_of_isWord hc, endsWord_of_isWord hc]
      rw [hc] at ih1
      simp only [List.cons_append, List.nil_append]
      rw [replaceOps, hc, ih1]
    | zero =>
      cases hm : matchOp pw (c :: cs) with
      | none =>
        rw [renameChars, hm]
        simp only [escapeChars]
        by_cases hgl : c ≠ 'g' ∧ c ≠ 'l'
        · rw [List.append_assoc, List.append_assoc,
            replaceOps_block _ (escapeChar_block hgl.1 hgl.2), flagAfter_escapeChar,
            ih 0 (endsWord c) rest (Nat.zero_le _) (by simp)]
        · have hc : isWordChar c = true := by
            have : c = 'g' ∨ c = 'l' := by
              by_contra hne
              exact hgl ⟨fun h => hne (Or.inl h), fun h => hne (Or.inr h)⟩
            rcases this with rfl | rfl <;> decide
          have hm2 := matchOp_escapeChars pw (c :: cs) rest
          rw [hm, escapeChars, escapeChar_of_isWord hc] at hm2
          rw [escapeChar_of_isWord hc, endsWord_of_isWord hc]
          simp only [List.cons_append, List.nil_append] at hm2 ⊢
          rw [replaceOps, hm2]
          simp only [hc]
          rw [ih 0 true rest (Nat.zero_le _) (by simp)]
      | some n =>
        obtain ⟨hc, hlen, hw⟩ := matchOp_cons_some hm
        have hm2 := matchOp_escapeChars pw (c :: cs) rest
        rw [hm, escapeChars, escapeChar_of_isWord hc] at hm2
        rw [renameChars, hm]
        simp only [escapeChars]
        rw [escapeChar_of_isWord hc, endsWord_of_isWord hc]
        simp only [List.cons_append, List.nil_append] at hm2 ⊢
        rw [replaceOps, hm2]
        simp only [hc]
        rw [ih (n - 1) true rest hlen hw]
        rfl

/-! ### The rewrite on the text of a value -/

theorem replaceOps_punct {ch : Char} (hg : ch ≠ 'g') (hl : ch ≠ 'l') (hw : isWordChar ch = false)
    (pw : Bool) (t : List Char) : replaceOps 0 pw (ch :: t) = ch :: replaceOps 0 false t := by
  rw [replaceOps, matchOp_cons_of_ne hg hl, hw]

theorem replaceOps_quoteJSON (s : String) (pw : Bool) (rest : List Char) :
    replaceOps 0 pw (quoteJSON s ++ rest)
      = quoteJSON (renameStr s) ++ replaceOps 0 false rest := by
  simp only [quoteJSON, List.cons_append, List.append_assoc, List.singleton_append, renameStr,
    List.nil_append]
  rw [replaceOps_punct (by decide) (by decide) (by decide),
    replaceOps_escapeChars _ 0 false rest (Nat.zero_le _) (by simp)]

mutual
/-- On the text of a value the rewrite acts string by string: it yields the text of the value
whose strings are rewritten. -/
theorem replaceOps_stringify : ∀ (v : QVal) (pw : Bool) (rest : List Char),
    replaceOps 0 pw (stringify v ++ rest) = stringify (renameVal v) ++ replaceOps 0 false rest
  | .str s, pw, rest => by
    rw [stringify, renameVal, stringify, replaceOps_quoteJSON]
  | .arr [], pw, rest => by
    simp only [stringify, renameVal, renameList, List.cons_append, List.nil_append]
    rw [replaceOps_punct (by decide) (by decide) (by decide),
      replaceOps_punct (by decide) (by decide) (by decide)]
  | .arr (v :: l), pw, rest => by
    simp only [stringify, renameVal, renameList, List.cons_append, List.append_assoc]
    rw [replaceOps_punct (by decide) (by decide) (by decide), replaceOps_stringify v,
      replaceOps_stringifyElements l]
  | .obj [], pw, rest => by
    simp only [stringify, renameVal, renameFields, List.cons_append, List.nil_append]
    rw [replaceOps_punct (by decide) (by decide) (by decide),
      replaceOps_punct (by decide) (by decide) (by decide)]
  | .obj ((k, v) :: l), pw, rest => by
    simp only [stringify, renameVal, renameFields, List.cons_append, List.append_assoc]
    rw [replaceOps_punct (by decide) (by decide) (by decide), replaceOps_quoteJSON,
      replaceOps_punct (by decide) (by decide) (by decide), replaceOps_stringify v,
      replaceOps_stringifyMembers l]
theorem replaceOps_stringifyElements : ∀ (l : List QVal) (pw : Bool) (rest : List Char),
    replaceOps 0 pw (stringifyElements l ++ rest)
      = stringifyElements (renameList l) ++ replaceOps 0 false rest
  | [], pw, rest => by
    simp only [stringifyElements, renameList, List.cons_append, List.nil_append]
    rw [replaceOps_punct (by decide) (by decide) (by decide)]
  | v :: l, pw, rest => by
    simp only [stringifyElements, renameList, List.cons_append, List.append_assoc]
    rw [replaceOps_punct (by decide) (by decide) (by decide), replaceOps_stringify v,
      replaceOps_stringifyElements l]
theorem replaceOps_stringifyMembers : ∀ (l : List (String × QVal)) (pw : Bool)
    (rest : List Char),
    replaceOps 0 pw (stringifyMembers l ++ rest)
      = stringifyMembers (renameFields l) ++ replaceOps 0 false rest
  | [], pw, rest => by
    simp only [stringifyMembers, renameFields, List.cons_append, List.nil_append]
    rw [replaceOps_punct (by decide) (by decide) (by decide)]
  | (k, v) :: l, pw, rest => by
    simp only [stringifyMembers, renameFields, List.cons_append, List.append_assoc]
    rw [replaceOps_punct (by decide) (by decide) (by decide), replaceOps_quoteJSON,
      replaceOps_punct (by decide) (by decide) (by decide), replaceOps_stringify v,
      replaceOps_stringifyMembers l]
end

/-- The rewritten text of a value is the text of the rewritten value. -/
theorem replaceOperators_stringify (v : QVal) :
    replaceOperators (stringify v) = stringify (renameVal v) := by
  have h := replaceOps_stringify v false []
  simpa [replaceOperators, replaceOps] using h

/-! ### JSON.parse reads back what JSON.stringify writes -/

theorem unicodeEscape_hexDigit {c : Char} (h : c.toNat < 32) :
    unicodeEscape '0' '0' (hexDigit (c.toNat / 16)) (hexDigit (c.toNat % 16)) = some c := by
  have h0 : hexValue '0' = some 0 := by decide
  have h1 := hexValue_hexDigit (show c.toNat / 16 < 16 by omega)
  have h2 := hexValue_hexDigit (show c.toNat % 16 < 16 by omega)
  have h3 : ((0 * 16 + 0) * 16 + c.toNat / 16) * 16 + c.toNat % 16 = c.toNat := by omega
  simp only [unicodeEscape, h0, h1, h2, h3]
  rw [if_neg (by omega), Char.ofNat_toNat]

theorem parseStringBody_escapeChars (s rest : List Char) :
    parseStringBody (escapeChars s ++ '"' :: rest) = some (s, rest) := by
  induction s with
  | nil =>
    rw [escapeChars, List.nil_append, parseStringBody.eq_def]
    simp only [if_true]
  | cons c cs ih =>
    rw [escapeChars, List.append_assoc]
    rcases escapeChar_cases c with ⟨h1, hq, hb, h32⟩ | ⟨e, h1, he, hu, _, _, _⟩ | ⟨h1, h32⟩
    · rw [h1]
      simp only [List.cons_append, List.nil_append]
      rw [parseStringBody.eq_def]
      simp only [if_neg hq, if_neg hb, if_neg (show ¬ c.toNat < 32 by omega), ih]
    · rw [h1]
      simp only [List.cons_append, List.nil_append]
      rw [parseStringBody.eq_def]
      simp only [if_neg (show ('\\' : Char) ≠ '"' by decide), if_true, if_neg hu, he, ih]
    · rw [h1]
      simp only [List.cons_append, List.nil_append]
      rw [parseStringBody.eq_def]
      simp only [if_neg (show ('\\' : Char) ≠ '"' by decide), if_true,
        unicodeEscape_hexDigit h32, ih]

theorem skipWs_cons {c : Char} (h : isJsonSpace c = false) (t : List Char) :
    skipWs (c :: t) = c :: t := by
  rw [skipWs, h]
  rfl

/-- The text of a value starts with a quote, a bracket or a brace. -/
theorem stringify_head (v : QVal) :
    ∃ d t, stringify v = d :: t ∧ (d = '"' ∨ d = '[' ∨ d = '{') := by
  match v with
  | .str s => exact ⟨_, _, rfl, Or.inl rfl⟩
  | .arr [] => exact ⟨_, _, rfl, Or.inr (Or.inl rfl)⟩
  | .arr (_ :: _) => exact ⟨_, _, by rw [stringify], Or.inr (Or.inl rfl)⟩
  | .obj [] => exact ⟨_, _, rfl, Or.inr (Or.inr rfl)⟩
  | .obj ((_, _) :: _) => exact ⟨_, _, by rw [stringify], Or.inr (Or.inr rfl)⟩

theorem skipWs_stringify (v : QVal) (rest : List Char) :
    skipWs (stringify v ++ rest) = stringify v ++ rest := by
  obtain ⟨d, t, h, hd⟩ := stringify_head v
  rw [h, List.cons_append]
  apply skipWs_cons
  rcases hd with rfl | rfl | rfl <;> decide

theorem parseValue_str (fuel : Nat) (s : String) (rest : List Char) :
    parseValue (fuel + 1) (stringify (.str s) ++ rest) = some (.str s, rest) := by
  simp only [stringify, quoteJSON, List.cons_append, List.append_assoc, List.singleton_append,
    List.nil_append]
  rw [parseValue, if_pos rfl, parseStringBody_escapeChars]

theorem parseValue_open_arr (fuel : Nat) (v : QVal) (t : List Char) :
    parseValue (fuel + 1) ('[' :: (stringify v ++ t))
      = (parseElements fuel (stringify v ++ t)).map (fun p => (QVal.arr p.1, p.2)) := by
  obtain ⟨d, u, h, hd⟩ := stringify_head v
  have hs : skipWs (d :: (u ++ t)) = d :: (u ++ t) := by
    apply skipWs_cons
    rcases hd with rfl | rfl | rfl <;> decide
  have hne : d ≠ ']' := by rcases hd with rfl | rfl | rfl <;> decide
  rw [h, List.cons_append, parseValue, if_neg (by decide), if_pos rfl, hs]
  simp only [if_neg hne]
  cases parseElements fuel (d :: (u ++ t)) <;> rfl

theorem parseValue_open_obj (fuel : Nat) (k : String) (t : List Char) :
    parseValue (fuel + 1) ('{' :: (quoteJSON k ++ t))
      = (parseMembers fuel (quoteJSON k ++ t)).map (fun p => (QVal.obj (buildObject p.1), p.2)) := by
  have hs : ∀ u, skipWs ('"' :: u) = '"' :: u := fun u => skipWs_cons (by decide) u
  rw [quoteJSON, List.cons_append, parseValue, if_neg (by decide), if_neg (by decide), if_pos rfl,
    hs]
  simp only [if_neg (show ('"' : Char) ≠ '}' by decide)]
  cases parseMembers fuel ('"' :: (escapeChars k.data ++ ['"'] ++ t)) <;> rfl

theorem parseElements_last (fuel : Nat) (v : QVal) (t : List Char) (cv : QVal)
    (hv : parseValue fuel (stringify v ++ ']' :: t) = some (cv, ']' :: t)) :
    parseElements (fuel + 1) (stringify v ++ ']' :: t) = some ([cv], t) := by
  rw [parseElements, skipWs_stringify, hv]
  simp only [skipWs_cons (show isJsonSpace ']' = false by decide),
    if_neg (show (']' : Char) ≠ ',' by decide), if_true]

theorem parseElements_more (fuel : Nat) (v : QVal) (t : List Char) (cv : QVal)
    (hv : parseValue fuel (stringify v ++ ',' :: t) = some (cv, ',' :: t)) :
    parseElements (fuel + 1) (stringify v ++ ',' :: t)
      = (parseElements fuel t).map (fun p => (cv :: p.1, p.2)) := by
  rw [parseElements, skipWs_stringify, hv]
  simp only [skipWs_cons (show isJsonSpace ',' = false by decide), if_true]
  cases parseElements fuel t <;> rfl

theorem parseMembers_last (fuel : Nat) (k : String) (v : QVal) (t : List Char) (cv : QVal)
    (hv : parseValue fuel (stringify v ++ '}' :: t) = some (cv, '}' :: t)) :
    parseMembers (fuel + 1) (quoteJSON k ++ ':' :: (stringify v ++ '}' :: t))
      = some ([(k, cv)], t) := by
  simp only [quoteJSON, List.cons_append, List.append_assoc, List.singleton_append,
    List.nil_append]
  rw [parseMembers, skipWs_cons (show isJsonSpace '"' = false by decide)]
  simp only [if_true, parseStringBody_escapeChars,
    skipWs_cons (show isJsonSpace ':' = false by decide), skipWs_stringify, hv,
    skipWs_cons (show isJsonSpace '}' = false by decide),
    if_neg (show ('}' : Char) ≠ ',' by decide)]

theorem parseMembers_more (fuel : Nat) (k : String) (v : QVal) (t : List Char) (cv : QVal)
    (hv : parseValue fuel (stringify v ++ ',' :: t) = some (cv, ',' :: t)) :
    parseMembers (fuel + 1) (quoteJSON k ++ ':' :: (stringify v ++ ',' :: t))
      = (parseMembers fuel t).map (fun p => ((k, cv) :: p.1, p.2)) := by
  simp only [quoteJSON, List.cons_append, List.append_assoc, List.singleton_append,
    List.nil_append]
  rw [parseMembers, skipWs_cons (show isJsonSpace '"' = false by decide)]
  simp only [if_true, parseStringBody_escapeChars,
    skipWs_cons (show isJsonSpace ':' = false by decide), skipWs_stringify, hv,
    skipWs_cons (show isJsonSpace ',' = false by decide)]
  cases parseMembers fuel t <;> rfl

mutual
/-- With enough fuel, `parseValue` reads the text of a value back, up to the way objects are
built. -/
theorem parseValue_stringify : ∀ (v : QVal) (fuel : Nat) (rest : List Char),
    parseCost v ≤ fuel → parseValue fuel (stringify v ++ rest) = some (canon v, rest)
  | .str s, fuel, rest, h => by
    cases fuel with
    | zero => simp [parseCost] at h
    | succ f => rw [canon]; exact parseValue_str f s rest
  | .arr [], fuel, rest, h => by
    cases fuel with
    | zero => simp [parseCost] at h
    | succ f =>
      simp only [stringify, canon, canonList, List.cons_append, List.nil_append]
      rw [parseValue, if_neg (by decide), if_pos rfl,
        skipWs_cons (show isJsonSpace ']' = false by decide)]
      simp only [if_true]
  | .arr (v :: l), fuel, rest, h => by
    cases fuel with
    | zero => simp [parseCost] at h
    | succ f =>
      rw [parseCost] at h
      simp only [stringify, canon, canonList, List.cons_append, List.append_assoc]
      rw [parseValue_open_arr,
        parseElements_stringify l v f rest (parseValue_stringify v) (by omega)]
      rfl
  | .obj [], fuel, rest, h => by
    cases fuel with
    | zero => simp [parseCost] at h
    | succ f =>
      simp only [stringify, canon, canonFields, List.cons_append, List.nil_append]
      rw [parseValue, if_neg (by decide), if_neg (by decide), if_pos rfl,
        skipWs_cons (show isJsonSpace '}' = false by decide)]
      simp only [if_true]
      rfl
  | .obj ((k, v) :: l), fuel, rest, h => by
    cases fuel with
    | zero => simp [parseCost] at h
    | succ f =>
      rw [parseCost] at h
      simp only [stringify, canon, canonFields, List.cons_append, List.append_assoc]
      rw [parseValue_open_obj,
        parseMembers_stringify l k v f rest (parseValue_stringify v) (by omega)]
      rfl
/-- The elements of an array are read back one by one. -/
theorem parseElements_stringify : ∀ (l : List QVal) (v : QVal) (fuel : Nat) (rest : List Char),
    (∀ fuel rest, parseCost v ≤ fuel → parseValue fuel (stringify v ++ rest) = some (canon v, rest)) →
    parseCostList (v :: l) ≤ fuel →
    parseElements fuel (stringify v ++ (stringifyElements l ++ rest))
      = some (canon v :: canonList l, rest)
  | [], v, fuel, rest, hv, h => by
    cases fuel with
    | zero => simp [parseCostList] at h
    | succ f =>
      simp only [parseCostList] at h
      simp only [stringifyElements, canonList, List.cons_append, List.nil_append]
      exact parseElements_last f v rest (canon v) (hv f _ (by omega))
  | v2 :: l2, v, fuel, rest, hv, h => by
    cases fuel with
    | zero => simp [parseCostList] at h
    | succ f =>
      simp only [parseCostList] at h
      rw [stringifyElements, List.cons_append, List.append_assoc,
        parseElements_more f v _ (canon v) (hv f _ (by omega)),
        parseElements_stringify l2 v2 f rest (parseValue_stringify v2)
          (by simp only [parseCostList]; omega)]
      rfl
/-- The members of an object are read back one by one. -/
theorem parseMembers_stringify : ∀ (l : List (String × QVal)) (k : String) (v : QVal)
    (fuel : Nat) (rest : List Char),
    (∀ fuel rest, parseCost v ≤ fuel → parseValue fuel (stringify v ++ rest) = some (canon v, rest)) →
    parseCostFields ((k, v) :: l) ≤ fuel →
    parseMembers fuel (quoteJSON k ++ ':' :: (stringify v ++ (stringifyMembers l ++ rest)))
      = some ((k, canon v) :: canonFields l, rest)
  | [], k, v, fuel, rest, hv, h => by
    cases fuel with
    | zero => simp [parseCostFields] at h
    | succ f =>
      simp only [parseCostFields] at h
      simp only [stringifyMembers, canonFields, List.cons_append, List.nil_append]
      exact parseMembers_last f k v rest (canon v) (hv f _ (by omega))
  | (k2, v2) :: l2, k, v, fuel, rest, hv, h => by
    cases fuel with
    | zero => simp [parseCostFields] at h
    | succ f =>
      simp only [parseCostFields] at h
      rw [stringifyMembers, List.cons_append, List.append_assoc,
        parseMembers_more f k v _ (canon v) (hv f _ (by omega)), List.cons_append,
        List.append_assoc,
        parseMembers_stringify l2 k2 v2 f rest (parseValue_stringify v2)
          (by simp only [parseCostFields]; omega)]
      rfl
end

mutual
theorem parseCost_le_length : ∀ v : QVal, parseCost v ≤ (stringify v).length
  | .str s => by simp [parseCost, stringify, quoteJSON]
  | .arr [] => by simp [parseCost, parseCostList, stringify]
  | .arr (v :: l) => by
    have h1 := parseCost_le_length v
    have h2 := parseCostList_le_length l
    simp only [parseCost, parseCostList, stringify, List.length_cons, List.length_append]
    omega
  | .obj [] => by simp [parseCost, parseCostFields, stringify]
  | .obj ((k, v) :: l) => by
    have h1 := parseCost_le_length v
    have h2 := parseCostFields_le_length l
    simp only [parseCost, parseCostFields, stringify, List.length_cons, List.length_append]
    omega
theorem parseCostList_le_length : ∀ l : List QVal,
    parseCostList l + 1 ≤ (stringifyElements l).length
  | [] => by simp [parseCostList, stringifyElements]
  | v :: l => by
    have h1 := parseCost_le_length v
    have h2 := parseCostList_le_length l
    simp only [parseCostList, stringifyElements, List.length_cons, List.length_append]
    omega
theorem parseCostFields_le_length : ∀ l : List (String × QVal),
    parseCostFields l + 1 ≤ (stringifyMembers l).length
  | [] => by simp [parseCostFields, stringifyMembers]
  | (k, v) :: l => by
    have h1 := parseCost_le_length v
    have h2 := parseCostFields_le_length l
    simp only [parseCostFields, stringifyMembers, List.length_cons, List.length_append]
    omega
end

/-- `JSON.parse(JSON.stringify(v))` succeeds and rebuilds the value. -/
theorem parseJSON_stringify (v : QVal) : parseJSON (stringify v) = some (canon v) := by
  have h := parseValue_stringify v ((stringify v).length + 1) []
    (Nat.le_succ_of_le (parseCost_le_length v))
  rw [List.append_nil] at h
  have hs := skipWs_stringify v []
  rw [List.append_nil] at hs
  rw [parseJSON, hs, h]
  rfl

/-- What `filter` does, for every query string: it never throws, and it calls `find` once. -/
theorem filter_eq (self : APIFeatures) :
    self.filter = some { self with query := self.query ++ [QueryCall.find (filterObject self.queryString)] } := by
  rw [APIFeatures.filter]
  simp only [replaceOperators_stringify, parseJSON_stringify, filterObject]

/-! ### Strings the rewrite leaves alone -/

theorem hasOp_of_matchOp {pw : Bool} {s : List Char} {n : Nat} (h : matchOp pw s = some n) :
    hasOp pw s = true := by
  cases s with
  | nil => rw [matchOp_nil] at h; cases h
  | cons c cs => simp [hasOp, h]

/-- A string without operator word is left unchanged. -/
theorem renameChars_of_not_hasOp (s : List Char) :
    ∀ (pw pw2 : Bool), (pw = true → pw2 = true) → hasOp pw s = false →
      renameChars 0 pw2 s = s := by
  induction s with
  | nil => intro _ _ _ _; rfl
  | cons c cs ih =>
    intro pw pw2 hpw h
    simp only [hasOp, Bool.or_eq_false_iff] at h
    have hm : matchOp pw2 (c :: cs) = none := by
      cases pw2 with
      | true => exact matchOp_true _
      | false =>
        cases pw with
        | true => exact absurd (hpw rfl) (by simp)
        | false => simpa using h.1
    rw [renameChars, hm]
    simp only []
    rw [ih (isWordChar c) (endsWord c) endsWord_of_isWord h.2]

theorem headIsWord_renameChars_true (r : List Char) :
    headIsWord (renameChars 0 true r) = headIsWord r := by
  cases r with
  | nil => rfl
  | cons c cs => rw [renameChars, matchOp_true]; rfl

/-- At a match the scan writes `$`, the matched word, and goes on after it. -/
theorem renameChars_match {pw : Bool} {s : List Char} {n : Nat} (h : matchOp pw s = some n) :
    ∃ w r, w ∈ opWords ∧ headIsWord r = false ∧
      renameChars 0 pw s = '$' :: (w ++ renameChars 0 true r) := by
  obtain ⟨_, w, r, hw, rfl, rfl, hr⟩ := matchOp_some h
  refine ⟨w, r, hw, hr, ?_⟩
  have we : endsWord 'e' = true := by decide
  have wt : endsWord 't' = true := by decide
  simp only [opWords, List.mem_cons, List.mem_singleton, List.not_mem_nil, or_false] at hw
  rcases hw with h1 | h1 | h1 | h1 <;> subst h1
  · have h2 : matchOp pw ('g' :: 't' :: 'e' :: r) = some 3 := h
    show renameChars 0 pw ('g' :: 't' :: 'e' :: r) = _
    rw [renameChars, h2]
    show '$' :: 'g' :: renameChars (1 + 1) _ ('t' :: 'e' :: r) = _
    rw [renameChars, renameChars, we]
    rfl
  · have h2 : matchOp pw ('g' :: 't' :: r) = some 2 := h
    show renameChars 0 pw ('g' :: 't' :: r) = _
    rw [renameChars, h2]
    show '$' :: 'g' :: renameChars (0 + 1) _ ('t' :: r) = _
    rw [renameChars, wt]
    rfl
  · have h2 : matchOp pw ('l' :: 't' :: 'e' :: r) = some 3 := h
    show renameChars 0 pw ('l' :: 't' :: 'e' :: r) = _
    rw [renameChars, h2]
    show '$' :: 'l' :: renameChars (1 + 1) _ ('t' :: 'e' :: r) = _
    rw [renameChars, renameChars, we]
    rfl
  · have h2 : matchOp pw ('l' :: 't' :: r) = some 2 := h
    show renameChars 0 pw ('l' :: 't' :: r) = _
    rw [renameChars, h2]
    show '$' :: 'l' :: renameChars (0 + 1) _ ('t' :: r) = _
    rw [renameChars, wt]
    rfl

/-- A rewritten string without operator word was not changed by the rewrite. -/
theorem renameChars_eq_of_not_hasOp (s : List Char) :
    ∀ (k : Nat) (pw pw2 : Bool), hasOp pw (renameChars k pw2 s) = false →
      renameChars k pw2 s = s := by
  induction s with
  | nil => intro k _ _ _; cases k <;> rfl
  | cons c cs ih =>
    intro k pw pw2 h
    cases k with
    | succ k =>
      rw [renameChars] at h ⊢
      simp only [hasOp, Bool.or_eq_false_iff] at h
      rw [ih k _ _ h.2]
    | zero =>
      cases hm : matchOp pw2 (c :: cs) with
      | none =>
        rw [renameChars, hm] at h ⊢
        simp only [hasOp, Bool.or_eq_false_iff] at h ⊢
        rw [ih 0 _ _ h.2]
      | some n =>
        exfalso
        obtain ⟨w, r, hw, hr, he⟩ := renameChars_match hm
        rw [he] at h
        simp only [hasOp, Bool.or_eq_false_iff] at h
        have h2 := matchOp_opWord hw (r := renameChars 0 true r)
          (by rw [headIsWord_renameChars_true]; exact hr)
        have h3 := hasOp_of_matchOp h2
        have h4 : isWordChar '$' = false := by decide
        rw [h4, h3] at h
        exact absurd h.2 (by simp)

theorem renameStr_of_not_hasOperatorWord {s : String} (h : hasOperatorWord s = false) :
    renameStr s = s := by
  rw [renameStr, renameChars_of_not_hasOp s.data false false (fun h => h) h]

theorem renameStr_eq_of_not_hasOperatorWord {s : String}
    (h : hasOperatorWord (renameStr s) = false) : renameStr s = s := by
  have h2 := renameChars_eq_of_not_hasOp s.data 0 false false h
  rw [renameStr, h2]

/-! ### Objects -/

theorem getProp_nil (k : String) : getProp [] k = none := rfl

theorem getProp_cons (k0 : String) (v0 : QVal) (o : Fields) (k : String) :
    getProp ((k0, v0) :: o) k = if k0 = k then some v0 else getProp o k := by
  by_cases h : k0 = k
  · simp [getProp, List.find?, h]
  · have hb : (k0 == k) = false := by simpa using h
    simp [getProp, List.find?, h, hb]

theorem getProp_setProp (o : Fields) (k : String) (v : QVal) (k2 : String) :
    getProp (setProp o k v) k2 = if k = k2 then some v else getProp o k2 := by
  induction o with
  | nil => simp [setProp, getProp_cons, getProp_nil]
  | cons p o ih =>
    obtain ⟨k0, v0⟩ := p
    by_cases h : k0 = k
    · subst h
      simp only [setProp, beq_self_eq_true, if_true, getProp_cons]
      by_cases h2 : k0 = k2 <;> simp [h2]
    · simp only [setProp, beq_iff_eq, h, if_false, getProp_cons, ih]
      by_cases h2 : k0 = k2
      · subst h2
        simp [Ne.symm h]
      · simp [h2]

theorem getProp_eq_none_of_not_mem {o : Fields} {k : String} (h : k ∉ keys o) :
    getProp o k = none := by
  induction o with
  | nil => rfl
  | cons p o ih =>
    obtain ⟨k0, v0⟩ := p
    simp only [keys, List.map_cons, List.mem_cons, not_or] at h
    rw [getProp_cons, if_neg (Ne.symm h.1)]
    exact ih h.2

theorem mem_keys_setProp {o : Fields} {k : String} {v : QVal} {x : String}
    (h : x ∈ keys (setProp o k v)) : x ∈ keys o ∨ x = k := by
  induction o with
  | nil => simpa [setProp, keys] using h
  | cons p o ih =>
    obtain ⟨k0, v0⟩ := p
    by_cases hk : k0 = k
    · subst hk
      simp only [setProp, beq_self_eq_true, if_true] at h
      exact Or.inl h
    · simp only [setProp, beq_iff_eq, hk, if_false, keys, List.map_cons, List.mem_cons] at h ⊢
      rcases h with h | h
      · exact Or.inl (Or.inl h)
      · rcases ih h with h2 | h2
        · exact Or.inl (Or.inr h2)
        · exact Or.inr h2

theorem mem_keys_foldl_setProp (m : List (String × QVal)) (acc : Fields) {x : String}
    (h : x ∈ keys (m.foldl (fun o p => setProp o p.1 p.2) acc)) : x ∈ keys acc ∨ x ∈ keys m := by
  induction m generalizing acc with
  | nil => exact Or.inl h
  | cons p m ih =>
    rcases ih _ h with h2 | h2
    · rcases mem_keys_setProp h2 with h3 | h3
      · exact Or.inl h3
      · exact Or.inr (by simp [keys, h3])
    · exact Or.inr (by simp only [keys, List.map_cons, List.mem_cons]; exact Or.inr h2)

/-- A key of a built object is the key of one of its members. -/
theorem mem_keys_buildObject {m : List (String × QVal)} {x : String}
    (h : x ∈ keys (buildObject m)) : x ∈ keys m := by
  rcases mem_keys_foldl_setProp m [] h with h2 | h2
  · simp [keys] at h2
  · exact h2

theorem getProp_foldl_setProp_of_not_mem (m : List (String × QVal)) (acc : Fields) {k : String}
    (h : k ∉ keys m) :
    getProp (m.foldl (fun o p => setProp o p.1 p.2) acc) k = getProp acc k := by
  induction m generalizing acc with
  | nil => rfl
  | cons p m ih =>
    simp only [keys, List.map_cons, List.mem_cons, not_or] at h
    rw [List.foldl_cons, ih _ h.2, getProp_setProp, if_neg (Ne.symm h.1)]

theorem setProp_of_not_mem {o : Fields} {k : String} (v : QVal) (h : k ∉ keys o) :
    setProp o k v = o ++ [(k, v)] := by
  induction o with
  | nil => rfl
  | cons p o ih =>
    obtain ⟨k0, v0⟩ := p
    simp only [keys, List.map_cons, List.mem_cons, not_or] at h
    simp only [setProp, beq_iff_eq, Ne.symm h.1, if_false, List.cons_append]
    rw [ih h.2]

theorem foldl_setProp_of_nodup (m : List (String × QVal)) (acc : Fields)
    (h : (keys (acc ++ m)).Nodup) :
    m.foldl (fun o p => setProp o p.1 p.2) acc = acc ++ m := by
  induction m generalizing acc with
  | nil => simp
  | cons p m ih =>
    have hp : p.1 ∉ keys acc := by
      simp only [keys, List.map_append, List.map_cons] at h
      have := (List.nodup_append.mp h).2.2
      intro hmem
      exact this hmem (List.mem_cons_self _ _)
    rw [List.foldl_cons, setProp_of_not_mem _ hp, ih]
    · simp
    · simpa using h

/-- Members with distinct keys are the properties of the object built from them. -/
theorem buildObject_of_nodup {m : List (String × QVal)} (h : (keys m).Nodup) :
    buildObject m = m := by
  have := foldl_setProp_of_nodup m [] (by simpa using h)
  simpa [buildObject] using this

/-! ### The excluded fields -/

theorem queryObj_eq_filter (f : Fields) :
    queryObj f = f.filter (fun p => decide (p.1 ∉ excludedFields)) := by
  simp only [queryObj, excludedFields, List.foldl, deleteProp, List.filter_filter]
  congr 1
  funext p
  simp only [List.mem_cons, List.mem_singleton, List.not_mem_nil, or_false, not_or]
  by_cases h1 : p.1 = "page" <;> by_cases h2 : p.1 = "sort" <;> by_cases h3 : p.1 = "limit" <;>
    by_cases h4 : p.1 = "fields" <;> simp [h1, h2, h3, h4]

theorem mem_keys_queryObj {f : Fields} {k : String} (h : k ∈ keys (queryObj f)) :
    k ∈ keys f ∧ k ∉ excludedFields := by
  rw [queryObj_eq_filter] at h
  simp only [keys, List.mem_map, List.mem_filter, decide_eq_true_eq] at h ⊢
  obtain ⟨p, ⟨hp, hne⟩, rfl⟩ := h
  exact ⟨⟨p, hp, rfl⟩, hne⟩

theorem getProp_filter (f : Fields) (q : String → Bool) (k : String) (hk : q k = true) :
    getProp (f.filter (fun p => q p.1)) k = getProp f k := by
  induction f with
  | nil => rfl
  | cons p f ih =>
    obtain ⟨k0, v0⟩ := p
    by_cases h : q k0 = true
    · rw [List.filter_cons_of_pos (by simpa using h), getProp_cons, getProp_cons, ih]
    · have hne : k0 ≠ k := by rintro rfl; exact h hk
      rw [List.filter_cons_of_neg (by simpa using h), getProp_cons, if_neg hne, ih]

theorem getProp_queryObj (f : Fields) {k : String} (hk : k ∉ excludedFields) :
    getProp (queryObj f) k = getProp f k := by
  rw [queryObj_eq_filter]
  exact getProp_filter f (fun x => decide (x ∉ excludedFields)) k (by simpa using hk)

theorem nodup_keys_queryObj {f : Fields} (h : (keys f).Nodup) : (keys (queryObj f)).Nodup := by
  rw [queryObj_eq_filter]
  exact List.Nodup.sublist (List.Sublist.map _ (List.filter_sublist _)) h

/-! ### The filter handed to find -/

theorem filterObject_eq (qs : Fields) :
    filterObject qs = .obj (buildObject (canonFields (renameFields (queryObj qs)))) := by
  rw [filterObject, renameVal, canon]

theorem keys_canonFields_renameFields (f : Fields) :
    keys (canonFields (renameFields f)) = (keys f).map renameStr := by
  induction f with
  | nil => rfl
  | cons p f ih =>
    obtain ⟨k, v⟩ := p
    simp only [renameFields, canonFields, keys, List.map_cons] at ih ⊢
    rw [ih]

theorem hasOperatorWord_excludedFields {k : String} (h : k ∈ excludedFields) :
    hasOperatorWord k = false := by
  simp only [excludedFields, List.mem_cons, List.mem_singleton, List.not_mem_nil, or_false] at h
  rcases h with rfl | rfl | rfl | rfl <;> decide

/-- The rewrite never turns a key into another key without operator word. -/
theorem renameStr_eq_imp {k k2 : String} (h : renameStr k2 = k) (hk : hasOperatorWord k = false) :
    k2 = k := by
  rw [← h] at hk
  rw [← h, renameStr_eq_of_not_hasOperatorWord hk]

theorem getProp_foldl_rename (k v : String) (hk : hasOperatorWord k = false)
    (hv : hasOperatorWord v = false) (f : Fields) :
    ∀ acc : Fields, (keys f).Nodup → getProp f k = some (.str v) →
      getProp ((canonFields (renameFields f)).foldl (fun o p => setProp o p.1 p.2) acc) k
        = some (.str v) := by
  induction f with
  | nil => intro acc _ h; cases h
  | cons p f ih =>
    obtain ⟨k0, v0⟩ := p
    intro acc hnd hget
    simp only [keys, List.map_cons, List.nodup_cons] at hnd
    rw [getProp_cons] at hget
    simp only [renameFields, canonFields, List.foldl_cons]
    by_cases h0 : k0 = k
    · subst h0
      rw [if_pos rfl] at hget
      cases hget
      have hnot : k0 ∉ keys (canonFields (renameFields f)) := by
        rw [keys_canonFields_renameFields]
        intro hmem
        obtain ⟨k2, hk2, he⟩ := List.mem_map.mp hmem
        rw [renameStr_eq_imp he hk] at hk2
        exact hnd.1 hk2
      rw [getProp_foldl_setProp_of_not_mem _ _ hnot, getProp_setProp,
        renameStr_of_not_hasOperatorWord hk, if_pos rfl, renameVal, canon,
        renameStr_of_not_hasOperatorWord hv]
    · rw [if_neg h0] at hget
      exact ih _ hnd.2 hget

mutual
theorem renameVal_of_operatorFree : ∀ v : QVal, operatorFree v = true → renameVal v = v
  | .str s, h => by
    simp only [operatorFree, Bool.not_eq_true'] at h
    rw [renameVal, renameStr_of_not_hasOperatorWord h]
  | .arr l, h => by
    rw [operatorFree] at h
    rw [renameVal, renameList_of_operatorFree l h]
  | .obj f, h => by
    rw [operatorFree] at h
    rw [renameVal, renameFields_of_operatorFree f h]
theorem renameList_of_operatorFree : ∀ l : List QVal, operatorFreeList l = true →
    renameList l = l
  | [], _ => rfl
  | v :: l, h => by
    simp only [operatorFreeList, Bool.and_eq_true] at h
    rw [renameList, renameVal_of_operatorFree v h.1, renameList_of_operatorFree l h.2]
theorem renameFields_of_operatorFree : ∀ f : List (String × QVal),
    operatorFreeFields f = true → renameFields f = f
  | [], _ => rfl
  | (k, v) :: f, h => by
    simp only [operatorFreeFields, Bool.and_eq_true, Bool.not_eq_true'] at h
    rw [renameFields, renameStr_of_not_hasOperatorWord h.1.1, renameVal_of_operatorFree v h.1.2,
      renameFields_of_operatorFree f h.2]
end

mutual
theorem canon_of_distinctKeys : ∀ v : QVal, distinctKeys v = true → canon v = v
  | .str s, _ => by rw [canon]
  | .arr l, h => by
    rw [distinctKeys] at h
    rw [canon, canonList_of_distinctKeys l h]
  | .obj f, h => by
    simp only [distinctKeys, Bool.and_eq_true, decide_eq_true_eq] at h
    have h2 := canonFields_of_distinctKeys f h.2
    rw [canon, h2, buildObject_of_nodup h.1]
theorem canonList_of_distinctKeys : ∀ l : List QVal, distinctKeysList l = true →
    canonList l = l
  | [], _ => rfl
  | v :: l, h => by
    simp only [distinctKeysList, Bool.and_eq_true] at h
    rw [canonList, canon_of_distinctKeys v h.1, canonList_of_distinctKeys l h.2]
theorem canonFields_of_distinctKeys : ∀ f : List (String × QVal),
    distinctKeysFields f = true → canonFields f = f
  | [], _ => rfl
  | (k, v) :: f, h => by
    simp only [distinctKeysFields, Bool.and_eq_true] at h
    rw [canonFields, canon_of_distinctKeys v h.1, canonFields_of_distinctKeys f h.2]
end

theorem operatorFreeFields_filter (q : String × QVal → Bool) (f : Fields)
    (h : operatorFreeFields f = true) : operatorFreeFields (f.filter q) = true := by
  induction f with
  | nil => rfl
  | cons p f ih =>
    obtain ⟨k, v⟩ := p
    simp only [operatorFreeFields, Bool.and_eq_true] at h
    by_cases hq : q (k, v) = true
    · rw [List.filter_cons_of_pos hq]
      simp only [operatorFreeFields, Bool.and_eq_true]
      exact ⟨h.1, ih h.2⟩
    · rw [List.filter_cons_of_neg hq]
      exact ih h.2

theorem distinctKeysFields_filter (q : String × QVal → Bool) (f : Fields)
    (h : distinctKeysFields f = true) : distinctKeysFields (f.filter q) = true := by
  induction f with
  | nil => rfl
  | cons p f ih =>
    obtain ⟨k, v⟩ := p
    simp only [distinctKeysFields, Bool.and_eq_true] at h
    by_cases hq : q (k, v) = true
    · rw [List.filter_cons_of_pos hq]
      simp only [distinctKeysFields, Bool.and_eq_true]
      exact ⟨h.1, ih h.2⟩
    · rw [List.filter_cons_of_neg hq]
      exact ih h.2

/-- A query string without operator word and with distinct keys: the filter is the query
string without the excluded fields. -/
theorem filterObject_of_operatorFree {qs : Fields} (hd : distinctKeys (.obj qs) = true)
    (ho : operatorFree (.obj qs) = true) : filterObject qs = .obj (queryObj qs) := by
  simp only [distinctKeys, Bool.and_eq_true, decide_eq_true_eq] at hd
  rw [operatorFree] at ho
  have h1 : operatorFree (.obj (queryObj qs)) = true := by
    rw [operatorFree, queryObj_eq_filter]
    exact operatorFreeFields_filter _ _ ho
  have h2 : distinctKeys (.obj (queryObj qs)) = true := by
    simp only [distinctKeys, Bool.and_eq_true, decide_eq_true_eq]
    refine ⟨nodup_keys_queryObj hd.1, ?_⟩
    rw [queryObj_eq_filter]
    exact distinctKeysFields_filter _ _ hd.2
  rw [filterObject, renameVal_of_operatorFree _ h1, canon_of_distinctKeys _ h2]

/-! ## Claims on `filter` -/

/-- C1. For every query string, `filter` calls `find` with an object that has none of the keys
page, sort, limit, fields, whatever the query string held under them, and the `queryString`
of the instance is the one it had before the call. -/
theorem filter_excludes_reserved_keys (self : APIFeatures) :
    ∃ filterObj : Fields,
      self.filter = some { query := self.query ++ [QueryCall.find (.obj filterObj)],
                           queryString := self.queryString } ∧
      ∀ k ∈ excludedFields, k ∉ keys filterObj ∧ getProp filterObj k = none := by
  refine ⟨buildObject (canonFields (renameFields (queryObj self.queryString))), ?_, ?_⟩
  · rw [filter_eq, filterObject_eq]
  · intro k hk
    have hnot : k ∉ keys (buildObject (canonFields (renameFields (queryObj self.queryString)))) := by
      intro hmem
      have h1 := mem_keys_buildObject hmem
      rw [keys_canonFields_renameFields] at h1
      obtain ⟨k2, hk2, he⟩ := List.mem_map.mp h1
      have h2 := renameStr_eq_imp he (hasOperatorWord_excludedFields hk)
      subst h2
      exact (mem_keys_queryObj hk2).2 hk
    exact ⟨hnot, getProp_eq_none_of_not_mem hnot⟩

/-- C2, as stated, fails on a reserved field name: for the mapping `page[gte]=5` the field
`page` is deleted before the rewrite, and `find` receives the empty object. -/
theorem filter_range_operator_counterexample :
    hasOperatorWord "page" = false ∧ hasOperatorWord "5" = false ∧
    APIFeatures.filter ⟨[], [("page", .obj [("gte", .str "5")])]⟩
      = some ⟨[QueryCall.find (.obj [])], [("page", .obj [("gte", .str "5")])]⟩ ∧
    QVal.obj [] ≠ QVal.obj [("page", .obj [("$gte", .str "5")])] := by
  refine ⟨by decide, by decide, rfl, by simp⟩

theorem renameStr_operator {op : String} (h : op ∈ ["gt", "gte", "lt", "lte"]) :
    renameStr op = "$" ++ op := by
  simp only [List.mem_cons, List.mem_singleton, List.not_mem_nil, or_false] at h
  rcases h with rfl | rfl | rfl | rfl <;> decide

theorem queryObj_singleton {f : String} (hf : f ∉ excludedFields) (x : QVal) :
    queryObj [(f, x)] = [(f, x)] := by
  rw [queryObj_eq_filter, List.filter_cons_of_pos (by simpa using hf)]
  rfl

/-- C2, amended. For every operator `op` among gt, gte, lt, lte, every field name `f` that is
not one of page, sort, limit, fields, and every string `v`, with no operator word in `f` or
`v`: on the mapping `{f: {op: v}}`, `filter` calls `find` with `{f: {$op: v}}`. -/
theorem filter_range_operator (q : Query) (op f v : String)
    (hop : op ∈ ["gt", "gte", "lt", "lte"]) (hf : f ∉ excludedFields)
    (hfo : hasOperatorWord f = false) (hvo : hasOperatorWord v = false) :
    APIFeatures.filter ⟨q, [(f, .obj [(op, .str v)])]⟩
      = some ⟨q ++ [QueryCall.find (.obj [(f, .obj [("$" ++ op, .str v)])])],
              [(f, .obj [(op, .str v)])]⟩ := by
  rw [filter_eq, filterObject_eq, queryObj_singleton hf]
  simp only [renameFields, renameVal, canonFields, canon, renameStr_operator hop,
    renameStr_of_not_hasOperatorWord hfo, renameStr_of_not_hasOperatorWord hvo]
  rfl

/-- The example of the specification: `duration[gte]=5` becomes `{duration: {$gte: "5"}}`. -/
theorem filter_range_operator_witness :
    APIFeatures.filter ⟨[], [("duration", .obj [("gte", .str "5")])]⟩
      = some ⟨[QueryCall.find (.obj [("duration", .obj [("$gte", .str "5")])])],
              [("duration", .obj [("gte", .str "5")])]⟩ :=
  filter_range_operator [] "gte" "duration" "5" (by decide) (by decide) (by decide) (by decide)

/-- C3, as stated, fails on a value that is an operator word: for `name=gt` the filter holds
`$gt` under `name`. -/
theorem filter_equality_counterexample :
    "name" ∉ excludedFields ∧
    getProp [("name", .str "gt")] "name" = some (.str "gt") ∧
    APIFeatures.filter ⟨[], [("name", .str "gt")]⟩
      = some ⟨[QueryCall.find (.obj [("name", .str "$gt")])], [("name", .str "gt")]⟩ ∧
    getProp [("name", .str "$gt")] "name" ≠ some (.str "gt") := by
  refine ⟨by decide, rfl, rfl, ?_⟩
  intro h
  have h2 : getProp [("name", QVal.str "$gt")] "name" = some (.str "$gt") := rfl
  rw [h2] at h
  injection h with h
  injection h with h
  exact absurd h (by decide)

/-- C3, amended. For every query string (an object: its keys are distinct) and every key `k`
outside page, sort, limit, fields whose value is a string `v`, with no operator word in `k`
or `v`: the object `filter` hands to `find` holds exactly `v` under `k`. -/
theorem filter_equality_predicate (self : APIFeatures) (k v : String)
    (hnd : (keys self.queryString).Nodup) (hk : k ∉ excludedFields)
    (hget : getProp self.queryString k = some (.str v))
    (hko : hasOperatorWord k = false) (hvo : hasOperatorWord v = false) :
    ∃ filterObj : Fields,
      self.filter = some { query := self.query ++ [QueryCall.find (.obj filterObj)],
                           queryString := self.queryString } ∧
      getProp filterObj k = some (.str v) := by
  refine ⟨buildObject (canonFields (renameFields (queryObj self.queryString))), ?_, ?_⟩
  · rw [filter_eq, filterObject_eq]
  · rw [← getProp_queryObj _ hk] at hget
    exact getProp_foldl_rename k v hko hvo _ [] (nodup_keys_queryObj hnd) hget

/-- An equality predicate next to a page number: `difficulty=easy&page=2`. -/
theorem filter_equality_predicate_witness :
    ∃ filterObj : Fields,
      APIFeatures.filter ⟨[], [("difficulty", .str "easy"), ("page", .str "2")]⟩
        = some ⟨[QueryCall.find (.obj filterObj)],
                [("difficulty", .str "easy"), ("page", .str "2")]⟩ ∧
      getProp filterObj "difficulty" = some (.str "easy") :=
  filter_equality_predicate ⟨[], [("difficulty", .str "easy"), ("page", .str "2")]⟩
    "difficulty" "easy" (by decide) (by decide) rfl (by decide) (by decide)

/-- C4. For every query string, the rewritten text is well-formed JSON: `JSON.parse` returns
a value and `filter` hands it to `find`, so no decode error is raised. And a query string
(with distinct keys in every object) in which no key or value contains gte, gt, lte or lt as
a whole word reaches `find` unchanged, apart from the removal of the excluded fields. -/
theorem filter_never_throws (self : APIFeatures) :
    (∃ v, parseJSON (replaceOperators (stringify (.obj (queryObj self.queryString)))) = some v ∧
      self.filter = some { query := self.query ++ [QueryCall.find v],
                           queryString := self.queryString }) ∧
    (distinctKeys (.obj self.queryString) = true →
      operatorFree (.obj self.queryString) = true →
      self.filter = some { query := self.query ++ [QueryCall.find (.obj (queryObj self.queryString))],
                           queryString := self.queryString }) := by
  constructor
  · refine ⟨filterObject self.queryString, ?_, filter_eq self⟩
    rw [replaceOperators_stringify, parseJSON_stringify, filterObject]
  · intro hd ho
    rw [filter_eq, filterObject_of_operatorFree hd ho]

/-- A query string without operator word: `difficulty=easy&sort=price`. -/
theorem filter_never_throws_witness :
    APIFeatures.filter ⟨[], [("difficulty", .str "easy"), ("sort", .str "price")]⟩
      = some ⟨[QueryCall.find (.obj [("difficulty", .str "easy")])],
              [("difficulty", .str "easy"), ("sort", .str "price")]⟩ :=
  (filter_never_throws ⟨[], [("difficulty", .str "easy"), ("sort", .str "price")]⟩).2
    (by decide) (by decide)

/-! ## Claims on `paginate` and `sort` -/

/-! ### Rounding to a double -/

theorem roundHalfEven_intCast (n : ℤ) : roundHalfEven (n : ℚ) = n := by
  simp [roundHalfEven]

theorem roundDouble_zero : roundDouble 0 = .fin 0 := by
  simp [roundDouble]

theorem roundDouble_exact {q : ℚ} (n : ℤ) (hn : q = (n : ℚ) * (2 : ℚ) ^ ulpExp q)
    (hlt : |q| < (2 : ℚ) ^ (1024 : ℕ)) : roundDouble q = .fin q := by
  by_cases h0 : q = 0
  · rw [h0, roundDouble_zero]
  · have hq : q / (2 : ℚ) ^ ulpExp q = (n : ℚ) := by
      have hpos : (2 : ℚ) ^ ulpExp q ≠ 0 := by positivity
      field_simp
      exact hn
    simp only [roundDouble, if_neg h0, hq, roundHalfEven_intCast, ← hn]
    rw [if_neg (not_le.2 hlt)]

theorem ulpExp_eq {q : ℚ} {k : ℤ} (h1 : (2 : ℚ) ^ k ≤ |q|) (h2 : |q| < (2 : ℚ) ^ (k + 1)) :
    ulpExp q = max k (-1022) - 52 := by
  have hpos : 0 < |q| := lt_of_lt_of_le (by positivity) h1
  have hl : Int.log 2 |q| = k := by
    apply le_antisymm
    · have := (Int.lt_zpow_iff_log_lt (b := 2) (by norm_num) hpos (x := k + 1)).1
        (by exact_mod_cast h2)
      omega
    · exact (Int.zpow_le_iff_le_log (b := 2) (by norm_num) hpos).1 (by exact_mod_cast h1)
  rw [ulpExp, hl]


theorem log_two_bounds {q : ℚ} (h0 : q ≠ 0) :
    (2 : ℚ) ^ Int.log 2 |q| ≤ |q| ∧ |q| < (2 : ℚ) ^ (Int.log 2 |q| + 1) := by
  have hpos : 0 < |q| := abs_pos.2 h0
  constructor
  · exact_mod_cast Int.zpow_log_le_self (b := 2) (by norm_num) hpos
  · exact_mod_cast Int.lt_zpow_succ_log_self (b := 2) (by norm_num) |q|

/-- A value m·2^e with |m| < 2^53 and e no lower than -1074, below 2^1024 in magnitude, is a
double: rounding leaves it as it is. -/
theorem roundDouble_dyadic (m e : ℤ) (hm : |m| < 2 ^ 53) (he : -1074 ≤ e)
    (hlt : |(m : ℚ) * (2 : ℚ) ^ e| < (2 : ℚ) ^ (1024 : ℕ)) :
    roundDouble ((m : ℚ) * (2 : ℚ) ^ e) = .fin ((m : ℚ) * (2 : ℚ) ^ e) := by
  by_cases h0 : (m : ℚ) * (2 : ℚ) ^ e = 0
  · rw [h0, roundDouble_zero]
  · obtain ⟨hlo, _⟩ := log_two_bounds h0
    set q : ℚ := (m : ℚ) * (2 : ℚ) ^ e with hq
    have hmq : |(m : ℚ)| < (2 : ℚ) ^ (53 : ℤ) := by
      have : ((|m| : ℤ) : ℚ) < ((2 ^ 53 : ℤ) : ℚ) := by exact_mod_cast hm
      rw [Int.cast_abs] at this
      norm_num at this ⊢
      exact this
    have habs : |q| < (2 : ℚ) ^ (53 + e) := by
      rw [hq, abs_mul, abs_of_pos (show (0 : ℚ) < 2 ^ e by positivity), zpow_add₀ (by norm_num)]
      exact mul_lt_mul_of_pos_right hmq (by positivity)
    have hk : Int.log 2 |q| < 53 + e := by
      have h := lt_of_le_of_lt hlo habs
      exact (zpow_lt_zpow_iff_right₀ (by norm_num : (1 : ℚ) < 2)).1 h
    have hu : ulpExp q ≤ e := by
      simp only [ulpExp]
      omega
    obtain ⟨d, hd⟩ : ∃ d : ℕ, e = ulpExp q + d := ⟨(e - ulpExp q).toNat, by omega⟩
    apply roundDouble_exact (m * 2 ^ d) _ hlt
    rw [hq]
    conv_lhs => rw [hd]
    rw [zpow_add₀ (by norm_num)]
    push_cast
    rw [zpow_natCast]
    ring

/-- Whole numbers up to 2^53 in magnitude are doubles. -/
theorem roundDouble_intCast_of_le (n : ℤ) (h : |n| ≤ 2 ^ 53) : roundDouble (n : ℚ) = .fin n := by
  by_cases h2 : |n| < 2 ^ 53
  · have hq : |(n : ℚ)| < (2 : ℚ) ^ (1024 : ℕ) := by
      have h3 : ((|n| : ℤ) : ℚ) < ((2 ^ 53 : ℤ) : ℚ) := by exact_mod_cast h2
      have h4 : ((2 ^ 53 : ℤ) : ℚ) < (2 : ℚ) ^ (1024 : ℕ) := by norm_num
      have h5 : ((|n| : ℤ) : ℚ) = |(n : ℚ)| := by simp
      rw [← h5]
      exact lt_trans h3 h4
    have := roundDouble_dyadic n 0 h2 (by norm_num) (by simpa using hq)
    simpa using this
  · have h3 : |n| = 2 ^ 53 := le_antisymm h (not_lt.1 h2)
    rcases abs_eq (by norm_num : (0 : ℤ) ≤ 2 ^ 53) |>.1 h3 with h4 | h4
    · have := roundDouble_dyadic 1 53 (by norm_num) (by norm_num) (by norm_num)
      rw [h4]
      norm_num at this ⊢
      exact this
    · have := roundDouble_dyadic (-1) 53 (by norm_num) (by norm_num) (by norm_num)
      rw [h4]
      norm_num at this ⊢
      exact this


theorem floor_le_roundHalfEven (x : ℚ) : ⌊x⌋ ≤ roundHalfEven x := by
  unfold roundHalfEven
  split_ifs <;> omega

theorem roundHalfEven_le_ceil (x : ℚ) : roundHalfEven x ≤ ⌈x⌉ := by
  by_cases h : (⌊x⌋ : ℚ) = x
  · rw [← h, roundHalfEven_intCast, Int.ceil_intCast]
  · have hlt : (⌊x⌋ : ℚ) < x := lt_of_le_of_ne (Int.floor_le x) h
    have hc : ⌊x⌋ + 1 ≤ ⌈x⌉ := by
      have : ⌊x⌋ < ⌈x⌉ := Int.lt_ceil.2 hlt
      omega
    unfold roundHalfEven
    split_ifs <;> omega

/-- The Number value for a whole number is a whole number, or an infinity when the value
is out of range. -/
theorem roundDouble_intCast (n : ℤ) :
    (∃ z : ℤ, roundDouble (n : ℚ) = .fin (z : ℚ)) ∨ (∃ b : Bool, roundDouble (n : ℚ) = .inf b) := by
  by_cases h0 : (n : ℚ) = 0
  · exact Or.inl ⟨0, by rw [h0, roundDouble_zero]; simp⟩
  · obtain ⟨hlo, hhi⟩ := log_two_bounds h0
    have hn1 : (1 : ℚ) ≤ |(n : ℚ)| := by
      have hn : n ≠ 0 := by exact_mod_cast h0
      have : (1 : ℤ) ≤ |n| := Int.one_le_abs hn
      rw [← Int.cast_abs]
      exact_mod_cast this
    have hk0 : 0 ≤ Int.log 2 |(n : ℚ)| := by
      have := (Int.zpow_le_iff_le_log (b := 2) (by norm_num) (abs_pos.2 h0) (x := 0)).1
        (by simpa using hn1)
      exact this
    by_cases hk : 52 ≤ Int.log 2 |(n : ℚ)|
    · obtain ⟨d, hd⟩ : ∃ d : ℕ, ulpExp (n : ℚ) = d :=
        ⟨(ulpExp (n : ℚ)).toNat, by simp only [ulpExp]; omega⟩
      simp only [roundDouble, if_neg h0, hd, zpow_natCast]
      split_ifs
      · exact Or.inr ⟨_, rfl⟩
      · exact Or.inl ⟨roundHalfEven ((n : ℚ) / 2 ^ d) * 2 ^ d, by push_cast; rfl⟩
    · have hlt : |n| < 2 ^ 53 := by
        have h1 : |(n : ℚ)| < (2 : ℚ) ^ (53 : ℤ) :=
          lt_of_lt_of_le hhi (zpow_le_zpow_right₀ (by norm_num) (by omega))
        rw [← Int.cast_abs] at h1
        norm_num at h1
        exact_mod_cast h1
      exact Or.inl ⟨n, roundDouble_intCast_of_le n (le_of_lt hlt)⟩

/-- Overflow: a value of magnitude 2^1024 or more rounds to an infinity. -/
theorem roundDouble_overflow {q : ℚ} (h : (2 : ℚ) ^ (1024 : ℕ) ≤ |q|) :
    roundDouble q = .inf (decide (q < 0)) := by
  have h0 : q ≠ 0 := by
    intro hq
    rw [hq] at h
    norm_num at h
  obtain ⟨hlo, _⟩ := log_two_bounds h0
  have hk : 1024 ≤ Int.log 2 |q| :=
    (Int.zpow_le_iff_le_log (b := 2) (by norm_num) (abs_pos.2 h0) (x := 1024)).1
      (by norm_num at h ⊢; exact h)
  have hu : ulpExp q = Int.log 2 |q| - 52 := by
    simp only [ulpExp]
    omega
  have hupos : (0 : ℚ) < (2 : ℚ) ^ ulpExp q := by positivity
  have hx : (2 : ℚ) ^ (52 : ℤ) ≤ |q / (2 : ℚ) ^ ulpExp q| := by
    rw [abs_div, abs_of_pos hupos, le_div_iff₀ hupos, ← zpow_add₀ (by norm_num), hu]
    have : (52 : ℤ) + (Int.log 2 |q| - 52) = Int.log 2 |q| := by ring
    rw [this]
    exact hlo
  have hr : (2 : ℚ) ^ (52 : ℤ) ≤ |(roundHalfEven (q / (2 : ℚ) ^ ulpExp q) : ℚ)| := by
    set x : ℚ := q / (2 : ℚ) ^ ulpExp q with hxdef
    have h52 : ((2 ^ 52 : ℤ) : ℚ) = (2 : ℚ) ^ (52 : ℤ) := by norm_num
    rw [← h52] at hx ⊢
    rcases le_abs.1 hx with h1 | h1
    · have : (2 ^ 52 : ℤ) ≤ roundHalfEven x :=
        le_trans (Int.le_floor.2 h1) (floor_le_roundHalfEven x)
      have h3 : ((2 ^ 52 : ℤ) : ℚ) ≤ (roundHalfEven x : ℚ) := by exact_mod_cast this
      exact le_trans h3 (le_abs_self _)
    · have h2 : x ≤ ((-(2 ^ 52) : ℤ) : ℚ) := by
        push_cast
        push_cast at h1
        linarith
      have : roundHalfEven x ≤ (-(2 ^ 52) : ℤ) :=
        le_trans (roundHalfEven_le_ceil x) (Int.ceil_le.2 h2)
      have h3 : (roundHalfEven x : ℚ) ≤ ((-(2 ^ 52) : ℤ) : ℚ) := by exact_mod_cast this
      have h4 : ((2 ^ 52 : ℤ) : ℚ) ≤ -(roundHalfEven x : ℚ) := by
        push_cast at h3 ⊢
        linarith
      exact le_trans h4 (neg_le_abs _)
  have hbig : (2 : ℚ) ^ (1024 : ℕ)
      ≤ |(roundHalfEven (q / (2 : ℚ) ^ ulpExp q) : ℚ) * (2 : ℚ) ^ ulpExp q| := by
    rw [abs_mul, abs_of_pos hupos]
    calc (2 : ℚ) ^ (1024 : ℕ) = (2 : ℚ) ^ (1024 : ℤ) := by norm_num
      _ ≤ (2 : ℚ) ^ Int.log 2 |q| := zpow_le_zpow_right₀ (by norm_num) hk
      _ = (2 : ℚ) ^ (52 : ℤ) * (2 : ℚ) ^ ulpExp q := by
          rw [← zpow_add₀ (by norm_num), hu]
          congr 1
          ring
      _ ≤ _ := mul_le_mul_of_nonneg_right hr (le_of_lt hupos)
  simp only [roundDouble, if_neg h0, if_pos hbig]

/-- Underflow: a value of magnitude below 2^-1075 rounds to zero. -/
theorem roundDouble_underflow {q : ℚ} (h : |q| < (2 : ℚ) ^ (-1075 : ℤ)) :
    roundDouble q = .fin 0 := by
  by_cases h0 : q = 0
  · rw [h0, roundDouble_zero]
  · obtain ⟨hlo, _⟩ := log_two_bounds h0
    have hk : Int.log 2 |q| < -1075 :=
      (zpow_lt_zpow_iff_right₀ (by norm_num : (1 : ℚ) < 2)).1 (lt_of_le_of_lt hlo h)
    have hu : ulpExp q = -1074 := by
      simp only [ulpExp]
      omega
    have hx : |q / (2 : ℚ) ^ (-1074 : ℤ)| < 1 / 2 := by
      rw [abs_div, abs_of_pos (by positivity : (0 : ℚ) < 2 ^ (-1074 : ℤ)),
        div_lt_iff₀ (by positivity)]
      have : (1 : ℚ) / 2 * 2 ^ (-1074 : ℤ) = 2 ^ (-1075 : ℤ) := by
        rw [show (-1074 : ℤ) = -1075 + 1 by norm_num, zpow_add₀ (by norm_num)]
        norm_num
      rw [this]
      exact h
    have hr : roundHalfEven (q / (2 : ℚ) ^ (-1074 : ℤ)) = 0 := by
      set x : ℚ := q / (2 : ℚ) ^ (-1074 : ℤ)
      obtain ⟨h1, h2⟩ := abs_lt.1 hx
      by_cases hneg : x < 0
      · have hf : ⌊x⌋ = -1 := by
          rw [Int.floor_eq_iff]
          constructor <;> push_cast <;> linarith
        simp only [roundHalfEven, hf]
        push_cast
        rw [if_neg (by linarith), if_pos (by linarith)]
      · have hf : ⌊x⌋ = 0 := by
          rw [Int.floor_eq_iff]
          constructor <;> push_cast <;> linarith
        simp only [roundHalfEven, hf]
        push_cast
        rw [if_pos (by linarith)]
    simp only [roundDouble, if_neg h0, hu, hr]
    norm_num

/-! ### The unary plus and the arithmetic -/

theorem stringToNumber_literal {s : List Char} {l : NumericLiteral}
    (ht : trimWhiteSpace s ≠ []) (hl : strNumericLiteral (trimWhiteSpace s) = some l) :
    stringToNumber s = l.value := by
  simp only [stringToNumber, if_neg ht, hl]

/-- The value of a whole literal up to 2^53 in magnitude. -/
theorem value_decimal_int (m : ℤ) (h : |m| ≤ 2 ^ 53) :
    (NumericLiteral.decimal m 0).value = .fin (m : ℚ) := by
  simp only [NumericLiteral.value, zpow_zero, mul_one]
  exact roundDouble_intCast_of_le m h

theorem toNumber_none : toNumber none = .nan := rfl

theorem toNumber_empty : toNumber (some (.str "")) = .fin 0 := by
  simp [toNumber, toStringQ, stringToNumber, trimWhiteSpace]

theorem toNumber_zero : toNumber (some (.str "0")) = .fin 0 := by
  have h := stringToNumber_literal (s := "0".data) (l := .decimal 0 0) (by decide) (by decide)
  simp only [toNumber, toStringQ, h, value_decimal_int 0 (by norm_num)]
  norm_num

theorem toNumber_infinity : toNumber (some (.str "Infinity")) = .inf false := by
  have h := stringToNumber_literal (s := "Infinity".data) (l := .infinity false) (by decide)
    (by decide)
  simp only [toNumber, toStringQ, h, NumericLiteral.value]

theorem toNumber_two_and_a_half : toNumber (some (.str "2.5")) = .fin (5 / 2) := by
  have h := stringToNumber_literal (s := "2.5".data) (l := .decimal 25 (-1)) (by decide)
    (by decide)
  have h2 := roundDouble_dyadic 5 (-1) (by norm_num) (by norm_num)
    (by rw [abs_of_pos (by norm_num)]; norm_num)
  have h3 : ((25 : ℤ) : ℚ) * (10 : ℚ) ^ (-1 : ℤ) = ((5 : ℤ) : ℚ) * (2 : ℚ) ^ (-1 : ℤ) := by
    norm_num
  simp only [toNumber, toStringQ, h, NumericLiteral.value, h3, h2]
  norm_num

theorem toNumber_minus_two : toNumber (some (.str "-2")) = .fin (-2) := by
  have h := stringToNumber_literal (s := "-2".data) (l := .decimal (-2) 0) (by decide) (by decide)
  simp only [toNumber, toStringQ, h, value_decimal_int (-2) (by norm_num)]
  norm_num

theorem toNumber_three : toNumber (some (.str "3")) = .fin 3 := by
  have h := stringToNumber_literal (s := "3".data) (l := .decimal 3 0) (by decide) (by decide)
  simp only [toNumber, toStringQ, h, value_decimal_int 3 (by norm_num)]
  norm_num

theorem toNumber_ten : toNumber (some (.str "10")) = .fin 10 := by
  have h := stringToNumber_literal (s := "10".data) (l := .decimal 10 0) (by decide) (by decide)
  simp only [toNumber, toStringQ, h, value_decimal_int 10 (by norm_num)]
  norm_num

/-- The literal `1e400` is out of range: its Number value is Infinity. -/
theorem toNumber_overflow : toNumber (some (.str "1e400")) = .inf false := by
  have h := stringToNumber_literal (s := "1e400".data) (l := .decimal 1 400) (by decide)
    (by decide)
  have h2 := roundDouble_overflow (q := ((1 : ℤ) : ℚ) * (10 : ℚ) ^ (400 : ℤ)) (by norm_num)
  simp only [toNumber, toStringQ, h, NumericLiteral.value, h2]
  norm_num

/-- The literal `1e-400` is below the smallest double: its Number value is 0. -/
theorem toNumber_underflow : toNumber (some (.str "1e-400")) = .fin 0 := by
  have h := stringToNumber_literal (s := "1e-400".data) (l := .decimal 1 (-400)) (by decide)
    (by decide)
  have h2 := roundDouble_underflow (q := ((1 : ℤ) : ℚ) * (10 : ℚ) ^ (-400 : ℤ))
    (by rw [abs_of_pos (by norm_num)]; norm_num)
  simp only [toNumber, toStringQ, h, NumericLiteral.value, h2]

/-- The rule `x || d` on numbers: the default replaces NaN and zero, nothing else. -/
theorem or_eq (x d : JsNum) : x.or d = if x = .nan ∨ x = .fin 0 then d else x := by
  cases x with
  | nan => simp [JsNum.or, JsNum.truthy]
  | inf b => simp [JsNum.or, JsNum.truthy]
  | fin q =>
    by_cases h : q = 0
    · simp [JsNum.or, JsNum.truthy, h]
    · simp [JsNum.or, JsNum.truthy, h]

theorem or_nan (d : JsNum) : JsNum.nan.or d = d := rfl

theorem or_fin_of_ne_zero {x : ℚ} (h : x ≠ 0) (d : JsNum) : (JsNum.fin x).or d = .fin x := by
  simp [JsNum.or, JsNum.truthy, h]

theorem sub_fin (x y : ℚ) : (JsNum.fin x).sub (.fin y) = roundDouble (x - y) := rfl

theorem mul_fin (x y : ℚ) : (JsNum.fin x).mul (.fin y) = roundDouble (x * y) := rfl

theorem sub_one_one : (JsNum.fin 1).sub (.fin 1) = .fin 0 := by
  rw [sub_fin, sub_self, roundDouble_zero]

theorem mul_zero_fin (l : ℚ) : (JsNum.fin 0).mul (.fin l) = .fin 0 := by
  rw [mul_fin, zero_mul, roundDouble_zero]

/-- The limit of `paginate` is never zero: zero is replaced by the default. -/
theorem limitOf_ne_zero (queryString : Fields) : limitOf queryString ≠ .fin 0 := by
  rw [limitOf, or_eq]
  split_ifs with h
  · simp
  · exact fun h2 => h (Or.inr h2)

/-- Whole numbers within 2^53: the difference and the product are exact. -/
theorem sub_mul_int (p l : ℤ) (h1 : |p - 1| ≤ 2 ^ 53) (h2 : |(p - 1) * l| ≤ 2 ^ 53) :
    ((JsNum.fin (p : ℚ)).sub (.fin 1)).mul (.fin (l : ℚ)) = .fin (((p - 1) * l : ℤ) : ℚ) := by
  have e1 : (p : ℚ) - 1 = ((p - 1 : ℤ) : ℚ) := by push_cast; rfl
  rw [sub_fin, e1, roundDouble_intCast_of_le _ h1, mul_fin]
  have e2 : ((p - 1 : ℤ) : ℚ) * (l : ℚ) = (((p - 1) * l : ℤ) : ℚ) := by push_cast; rfl
  rw [e2, roundDouble_intCast_of_le _ h2]

/-- Whole numbers of any size: the difference and the product are whole, or infinite. -/
theorem sub_mul_int_isInteger (p l : ℤ) (hl : l ≠ 0) :
    (((JsNum.fin (p : ℚ)).sub (.fin 1)).mul (.fin (l : ℚ))).isInteger = true ∨
    ((JsNum.fin (p : ℚ)).sub (.fin 1)).mul (.fin (l : ℚ)) = .inf false ∨
    ((JsNum.fin (p : ℚ)).sub (.fin 1)).mul (.fin (l : ℚ)) = .inf true := by
  have e1 : (p : ℚ) - 1 = ((p - 1 : ℤ) : ℚ) := by push_cast; rfl
  have hlq : (l : ℚ) ≠ 0 := by exact_mod_cast hl
  rw [sub_fin, e1]
  rcases roundDouble_intCast (p - 1) with ⟨z, hz⟩ | ⟨b, hb⟩
  · rw [hz, mul_fin]
    have e2 : (z : ℚ) * (l : ℚ) = ((z * l : ℤ) : ℚ) := by push_cast; rfl
    rw [e2]
    rcases roundDouble_intCast (z * l) with ⟨w, hw⟩ | ⟨b, hb⟩
    · rw [hw]
      exact Or.inl (by simp only [JsNum.isInteger, Rat.intCast_den, decide_True])
    · rw [hb]
      cases b
      · exact Or.inr (Or.inl rfl)
      · exact Or.inr (Or.inr rfl)
  · rw [hb]
    simp only [JsNum.mul, if_neg hlq]
    cases (b != decide ((l : ℚ) < 0))
    · exact Or.inr (Or.inl rfl)
    · exact Or.inr (Or.inr rfl)

/-- The nearest integer: a value less than one half away from n rounds to n. -/
theorem roundHalfEven_of_near {x : ℚ} {n : ℤ} (h : |x - n| < 1 / 2) : roundHalfEven x = n := by
  obtain ⟨h1, h2⟩ := abs_lt.1 h
  by_cases hx : (n : ℚ) ≤ x
  · have hf : ⌊x⌋ = n := by
      rw [Int.floor_eq_iff]
      constructor
      · exact hx
      · linarith
    simp only [roundHalfEven, hf]
    rw [if_pos (by linarith)]
  · have hf : ⌊x⌋ = n - 1 := by
      rw [Int.floor_eq_iff]
      push_cast
      constructor <;> linarith
    simp only [roundHalfEven, hf]
    push_cast
    rw [if_neg (by linarith), if_pos (by linarith)]
    ring

/-- The Number value of a value in the binade [2^k, 2^(k+1)), by its nearest multiple of the
spacing 2^(k-52). -/
theorem roundDouble_of_near {q : ℚ} (k n : ℤ) (hk : -1022 ≤ k) (h1 : (2 : ℚ) ^ k ≤ |q|)
    (h2 : |q| < (2 : ℚ) ^ (k + 1)) (hn : |q / (2 : ℚ) ^ (k - 52) - n| < 1 / 2)
    (hlt : |(n : ℚ) * (2 : ℚ) ^ (k - 52)| < (2 : ℚ) ^ (1024 : ℕ)) :
    roundDouble q = .fin ((n : ℚ) * (2 : ℚ) ^ (k - 52)) := by
  have h0 : q ≠ 0 := by
    intro h
    rw [h, abs_zero] at h1
    exact absurd h1 (not_le.2 (by positivity))
  have hu : ulpExp q = k - 52 := by
    rw [ulpExp_eq h1 h2, max_eq_left hk]
  simp only [roundDouble, if_neg h0, hu, roundHalfEven_of_near hn]
  rw [if_neg (not_le.2 hlt)]

/-- The request `?limit=1e400`: the limit is Infinity, as the page is 1 the skip is
0 · Infinity, which is NaN. -/
theorem paginate_overflow_example :
    APIFeatures.paginate ⟨[], [("limit", .str "1e400")]⟩
      = ⟨[QueryCall.skip .nan, QueryCall.limit (.inf false)], [("limit", .str "1e400")]⟩ := by
  have h1 : getProp [("limit", QVal.str "1e400")] "limit" = some (.str "1e400") := rfl
  have h2 : getProp [("limit", QVal.str "1e400")] "page" = none := rfl
  simp only [APIFeatures.paginate, pageOf, limitOf, h1, h2, toNumber_overflow, toNumber_none,
    or_eq, sub_one_one]
  simp [JsNum.mul, sub_one_one]

/-- The request `?limit=1e-400`: the number is 0, so the limit is the default. -/
theorem paginate_underflow_example :
    APIFeatures.paginate ⟨[], [("limit", .str "1e-400")]⟩
      = ⟨[QueryCall.skip (.fin 0), QueryCall.limit (.fin 100)], [("limit", .str "1e-400")]⟩ := by
  have h1 : getProp [("limit", QVal.str "1e-400")] "limit" = some (.str "1e-400") := rfl
  have h2 : getProp [("limit", QVal.str "1e-400")] "page" = none := rfl
  simp only [APIFeatures.paginate, pageOf, limitOf, h1, h2, toNumber_underflow, toNumber_none,
    or_eq, sub_one_one]
  simp [sub_one_one, mul_zero_fin]

/-- The literal `1.1` is not a double: its Number value is the nearest one,
4953959590107546 · 2^-52. -/
theorem toNumber_one_point_one :
    toNumber (some (.str "1.1")) = .fin (4953959590107546 / 4503599627370496) := by
  have h := stringToNumber_literal (s := "1.1".data) (l := .decimal 11 (-1)) (by decide)
    (by decide)
  have h2 := roundDouble_of_near (q := ((11 : ℤ) : ℚ) * (10 : ℚ) ^ (-1 : ℤ)) 0 4953959590107546
    (by norm_num) (by rw [abs_of_pos (by norm_num)]; norm_num)
    (by rw [abs_of_pos (by norm_num)]; norm_num)
    (by rw [abs_lt]; constructor <;> norm_num)
    (by rw [abs_of_pos (by norm_num)]; norm_num)
  simp only [toNumber, toStringQ, h, NumericLiteral.value, h2]
  norm_num

/-- The request `?page=1.1&limit=3`: the skip is the double 0.30000000000000027, not the
real number 0.3. -/
theorem paginate_rounding_example :
    APIFeatures.paginate ⟨[], [("page", .str "1.1"), ("limit", .str "3")]⟩
      = ⟨[QueryCall.skip (.fin (675539944105575 / 2251799813685248)), QueryCall.limit (.fin 3)],
         [("page", .str "1.1"), ("limit", .str "3")]⟩ := by
  have h1 : getProp [("page", QVal.str "1.1"), ("limit", QVal.str "3")] "page"
      = some (.str "1.1") := rfl
  have h2 : getProp [("page", QVal.str "1.1"), ("limit", QVal.str "3")] "limit"
      = some (.str "3") := rfl
  have e1 : (4953959590107546 : ℚ) / 4503599627370496 - 1
      = ((450359962737050 : ℤ) : ℚ) * (2 : ℚ) ^ (-52 : ℤ) := by norm_num
  have r1 := roundDouble_dyadic 450359962737050 (-52) (by norm_num) (by norm_num)
    (by rw [abs_of_pos (by norm_num)]; norm_num)
  have e2 : ((450359962737050 : ℤ) : ℚ) * (2 : ℚ) ^ (-52 : ℤ) * 3
      = ((1351079888211150 : ℤ) : ℚ) * (2 : ℚ) ^ (-52 : ℤ) := by norm_num
  have r2 := roundDouble_dyadic 1351079888211150 (-52) (by norm_num) (by norm_num)
    (by rw [abs_of_pos (by norm_num)]; norm_num)
  simp only [APIFeatures.paginate, pageOf, limitOf, h1, h2, toNumber_one_point_one,
    toNumber_three, or_fin_of_ne_zero (show (4953959590107546 : ℚ) / 4503599627370496 ≠ 0 by
      norm_num), or_fin_of_ne_zero (show (3 : ℚ) ≠ 0 by norm_num), sub_fin, e1, r1, mul_fin, e2,
    r2]
  norm_num

/-- C5, as stated, fails on the limit `0`: the entry is present, not empty and numeric, and
yet the limit applied is the default 100, not its numeric value 0. -/
theorem paginate_default_counterexample :
    toNumber (getProp [("limit", .str "0")] "limit") = .fin 0 ∧
    APIFeatures.paginate ⟨[], [("limit", .str "0")]⟩
      = ⟨[QueryCall.skip (.fin 0), QueryCall.limit (.fin 100)], [("limit", .str "0")]⟩ ∧
    JsNum.fin 100 ≠ JsNum.fin 0 := by
  have h1 : getProp [("limit", QVal.str "0")] "limit" = some (.str "0") := rfl
  have h2 : getProp [("limit", QVal.str "0")] "page" = none := rfl
  refine ⟨by rw [h1, toNumber_zero], ?_, by simp⟩
  simp only [APIFeatures.paginate, pageOf, limitOf, h1, h2, toNumber_zero, toNumber_none, or_eq,
    sub_one_one]
  simp [sub_one_one, mul_zero_fin]

/-- C5, amended. For every query string, `paginate` applies `skip((page − 1) · limit)` and
then `limit(limit)`, where `page` and `limit` are the numeric values of the entries `page`
and `limit`, each replaced by its default (1 and 100) when that value is NaN (the entry is
missing or not numeric) or zero (as for the empty string). The difference and the product
are those of JavaScript numbers, exact for whole numbers within 2^53. In particular a
missing or empty `limit` gives 100, and with both entries missing the skip is 0 and the
limit 100. -/
theorem paginate_skip_limit (self : APIFeatures) :
    self.paginate
      = { query := self.query ++
            [QueryCall.skip (((pageOf self.queryString).sub (.fin 1)).mul (limitOf self.queryString)),
             QueryCall.limit (limitOf self.queryString)],
          queryString := self.queryString } ∧
    pageOf self.queryString
      = (if toNumber (getProp self.queryString "page") = .nan
            ∨ toNumber (getProp self.queryString "page") = .fin 0
         then .fin 1 else toNumber (getProp self.queryString "page")) ∧
    limitOf self.queryString
      = (if toNumber (getProp self.queryString "limit") = .nan
            ∨ toNumber (getProp self.queryString "limit") = .fin 0
         then .fin 100 else toNumber (getProp self.queryString "limit")) ∧
    toNumber none = .nan ∧ toNumber (some (.str "")) = .fin 0 ∧
    (getProp self.queryString "limit" = none ∨ getProp self.queryString "limit" = some (.str "") →
      limitOf self.queryString = .fin 100) ∧
    (getProp self.queryString "page" = none ∨ getProp self.queryString "page" = some (.str "") →
      pageOf self.queryString = .fin 1) ∧
    (getProp self.queryString "page" = none → getProp self.queryString "limit" = none →
      self.paginate = { query := self.query ++ [QueryCall.skip (.fin 0), QueryCall.limit (.fin 100)],
                        queryString := self.queryString }) ∧
    (∀ p l : ℤ, pageOf self.queryString = .fin (p : ℚ) → limitOf self.queryString = .fin (l : ℚ) →
      |p - 1| ≤ 2 ^ 53 → |(p - 1) * l| ≤ 2 ^ 53 →
      self.paginate
        = { query := self.query ++
              [QueryCall.skip (.fin (((p - 1) * l : ℤ) : ℚ)), QueryCall.limit (.fin (l : ℚ))],
            queryString := self.queryString }) := by
  have hl : getProp self.queryString "limit" = none ∨
      getProp self.queryString "limit" = some (.str "") → limitOf self.queryString = .fin 100 := by
    rintro (h | h) <;> rw [limitOf, h, or_eq]
    · simp [toNumber]
    · simp [toNumber_empty]
  have hp : getProp self.queryString "page" = none ∨
      getProp self.queryString "page" = some (.str "") → pageOf self.queryString = .fin 1 := by
    rintro (h | h) <;> rw [pageOf, h, or_eq]
    · simp [toNumber]
    · simp [toNumber_empty]
  refine ⟨rfl, or_eq _ _, or_eq _ _, rfl, toNumber_empty, hl, hp, ?_, ?_⟩
  · intro h1 h2
    simp only [APIFeatures.paginate, hl (Or.inl h2), hp (Or.inl h1), sub_one_one, mul_zero_fin]
  · intro p l h1 h2 h3 h4
    simp only [APIFeatures.paginate, h1, h2, sub_mul_int p l h3 h4]

/-- The request `?difficulty=easy`: no page, no limit. -/
theorem paginate_skip_limit_witness :
    APIFeatures.paginate ⟨[], [("difficulty", .str "easy")]⟩
      = ⟨[QueryCall.skip (.fin 0), QueryCall.limit (.fin 100)], [("difficulty", .str "easy")]⟩ :=
  (paginate_skip_limit ⟨[], [("difficulty", .str "easy")]⟩).2.2.2.2.2.2.2.1 rfl rfl

/-- C6, as stated, fails for an infinite limit: with page `0` and limit `Infinity` the
effective page is 1 and the skip is (1 − 1) · Infinity, which is NaN, not 0. -/
theorem paginate_page_zero_counterexample :
    APIFeatures.paginate ⟨[], [("page", .str "0"), ("limit", .str "Infinity")]⟩
      = ⟨[QueryCall.skip .nan, QueryCall.limit (.inf false)],
         [("page", .str "0"), ("limit", .str "Infinity")]⟩ ∧
    JsNum.nan ≠ JsNum.fin 0 := by
  refine ⟨?_, by simp⟩
  have h1 : getProp [("page", QVal.str "0"), ("limit", QVal.str "Infinity")] "page"
      = some (.str "0") := rfl
  have h2 : getProp [("page", QVal.str "0"), ("limit", QVal.str "Infinity")] "limit"
      = some (.str "Infinity") := rfl
  simp only [APIFeatures.paginate, pageOf, limitOf, h1, h2, toNumber_zero, toNumber_infinity,
    or_eq, sub_one_one]
  simp [JsNum.mul, sub_one_one]

/-- C6, amended. `paginate` follows the rule `+page || 1`: for page `0` the effective page is
the default 1, and the skip is 0 for every finite limit; for every page entry whose numeric
value is a negative number p the effective page stays p and the skip applied is
(p − 1) · limit, the difference and the product being those of JavaScript numbers, exact for
whole numbers within 2^53. -/
theorem paginate_page_rule (self : APIFeatures) :
    (getProp self.queryString "page" = some (.str "0") →
      pageOf self.queryString = .fin 1 ∧
      ∀ l : ℚ, limitOf self.queryString = .fin l →
        self.paginate = { query := self.query ++ [QueryCall.skip (.fin 0), QueryCall.limit (.fin l)],
                          queryString := self.queryString }) ∧
    (∀ p : ℚ, toNumber (getProp self.queryString "page") = .fin p → p < 0 →
      pageOf self.queryString = .fin p ∧
      self.paginate
        = { query := self.query ++
              [QueryCall.skip (((JsNum.fin p).sub (.fin 1)).mul (limitOf self.queryString)),
               QueryCall.limit (limitOf self.queryString)],
            queryString := self.queryString } ∧
      ∀ z l : ℤ, p = (z : ℚ) → limitOf self.queryString = .fin (l : ℚ) →
        |z - 1| ≤ 2 ^ 53 → |(z - 1) * l| ≤ 2 ^ 53 →
        self.paginate
          = { query := self.query ++
                [QueryCall.skip (.fin (((z - 1) * l : ℤ) : ℚ)), QueryCall.limit (.fin (l : ℚ))],
              queryString := self.queryString }) := by
  constructor
  · intro h
    have hp : pageOf self.queryString = .fin 1 := by
      rw [pageOf, h, toNumber_zero, or_eq]
      simp
    refine ⟨hp, ?_⟩
    intro l hl
    simp only [APIFeatures.paginate, hp, hl, sub_one_one, mul_zero_fin]
  · intro p hp hneg
    have hpage : pageOf self.queryString = .fin p := by
      rw [pageOf, hp, or_eq, if_neg]
      simp only [reduceCtorEq, JsNum.fin.injEq, false_or]
      exact ne_of_lt hneg
    refine ⟨hpage, ?_, ?_⟩
    · simp only [APIFeatures.paginate, hpage]
    · intro z l hz hl h1 h2
      simp only [APIFeatures.paginate, hpage, hl, hz, sub_mul_int z l h1 h2]

/-- The request `?page=-2`: the page stays −2 and the skip is (−2 − 1) · 100 = −300. -/
theorem paginate_page_rule_witness :
    APIFeatures.paginate ⟨[], [("page", .str "-2")]⟩
      = ⟨[QueryCall.skip (.fin (-300)), QueryCall.limit (.fin 100)], [("page", .str "-2")]⟩ := by
  have h := ((paginate_page_rule ⟨[], [("page", .str "-2")]⟩).2 (-2) toNumber_minus_two
    (by norm_num)).2.2 (-2) 100 (by norm_num) (by rw [limitOf]; rfl) (by norm_num) (by norm_num)
  rw [h]
  norm_num

/-- C7, as stated, fails on a limit that is not a whole number: `limit=2.5` is applied as
2.5, the unary plus does not truncate. -/
theorem paginate_integer_counterexample :
    APIFeatures.paginate ⟨[], [("limit", .str "2.5")]⟩
      = ⟨[QueryCall.skip (.fin 0), QueryCall.limit (.fin (5 / 2))], [("limit", .str "2.5")]⟩ ∧
    JsNum.isInteger (.fin (5 / 2)) = false := by
  have h1 : getProp [("limit", QVal.str "2.5")] "limit" = some (.str "2.5") := rfl
  have h2 : getProp [("limit", QVal.str "2.5")] "page" = none := rfl
  constructor
  · simp only [APIFeatures.paginate, pageOf, limitOf, h1, h2, toNumber_two_and_a_half,
      toNumber_none, or_nan, or_fin_of_ne_zero (show (5 : ℚ) / 2 ≠ 0 by norm_num), sub_one_one,
      mul_zero_fin]
    rfl
  · have h : ((5 : ℚ) / 2).den = 2 := by norm_num
    simp [JsNum.isInteger, h]

/-- C7, amended. The page and the limit that `paginate` uses are the numeric values of the
entries (or the defaults), not truncated. When both are whole numbers p and l, the limit
applied is the whole number l and the skip applied is a whole number, or an infinity when
the product is out of range; the skip is (p − 1) · l when |p − 1| and |(p − 1) · l| do not
exceed 2^53. -/
theorem paginate_integer (self : APIFeatures) (p l : ℤ)
    (hp : pageOf self.queryString = .fin (p : ℚ)) (hl : limitOf self.queryString = .fin (l : ℚ)) :
    ∃ s : JsNum,
      self.paginate
        = { query := self.query ++ [QueryCall.skip s, QueryCall.limit (.fin (l : ℚ))],
            queryString := self.queryString } ∧
      (s.isInteger = true ∨ s = .inf false ∨ s = .inf true) ∧
      (|p - 1| ≤ 2 ^ 53 → |(p - 1) * l| ≤ 2 ^ 53 → s = .fin (((p - 1) * l : ℤ) : ℚ)) := by
  have hl0 : l ≠ 0 := by
    intro h
    apply limitOf_ne_zero self.queryString
    rw [hl, h]
    simp
  refine ⟨((JsNum.fin (p : ℚ)).sub (.fin 1)).mul (.fin (l : ℚ)), ?_, sub_mul_int_isInteger p l hl0,
    fun h1 h2 => sub_mul_int p l h1 h2⟩
  simp only [APIFeatures.paginate, hp, hl]

theorem pageOf_example : pageOf [("page", .str "3"), ("limit", .str "10")] = .fin ((3 : ℤ) : ℚ) := by
  have h1 : getProp [("page", QVal.str "3"), ("limit", QVal.str "10")] "page"
      = some (.str "3") := rfl
  rw [pageOf, h1, toNumber_three, or_fin_of_ne_zero (by norm_num)]
  norm_num

theorem limitOf_example :
    limitOf [("page", .str "3"), ("limit", .str "10")] = .fin ((10 : ℤ) : ℚ) := by
  have h1 : getProp [("page", QVal.str "3"), ("limit", QVal.str "10")] "limit"
      = some (.str "10") := rfl
  rw [limitOf, h1, toNumber_ten, or_fin_of_ne_zero (by norm_num)]
  norm_num

/-- The request `?page=3&limit=10`: the skip is 20 and the limit 10. -/
theorem paginate_integer_witness :
    APIFeatures.paginate ⟨[], [("page", .str "3"), ("limit", .str "10")]⟩
      = ⟨[QueryCall.skip (.fin 20), QueryCall.limit (.fin 10)],
         [("page", .str "3"), ("limit", .str "10")]⟩ := by
  obtain ⟨s, h1, _, h3⟩ := paginate_integer ⟨[], [("page", .str "3"), ("limit", .str "10")]⟩ 3 10
    pageOf_example limitOf_example
  rw [h1, h3 (by norm_num) (by norm_num)]
  norm_num

/-- Joining the stretches between the commas with spaces replaces every comma by a space. -/
theorem joinSpace_jsSplit (s : List Char) :
    joinSpace (jsSplit ',' s) = s.map commaToSpace := by
  have key : ∀ t : List Char, ∃ w ws, jsSplit ',' t = w :: ws ∧
      joinSpace (w :: ws) = t.map commaToSpace := by
    intro t
    induction t with
    | nil => exact ⟨[], [], rfl, rfl⟩
    | cons c cs ih =>
      obtain ⟨w, ws, h1, h2⟩ := ih
      by_cases hc : c = ','
      · refine ⟨[], w :: ws, by simp [jsSplit, hc, h1], ?_⟩
        simp [joinSpace, hc, h2, commaToSpace]
      · refine ⟨c :: w, ws, by simp [jsSplit, hc, h1], ?_⟩
        rw [List.map_cons, commaToSpace, if_neg hc, ← h2]
        cases ws <;> simp [joinSpace]
  obtain ⟨w, ws, h1, h2⟩ := key s
  rw [h1, h2]

/-- C8, as stated, fails on a `sort` entry that is not a string: for `sort[price]=asc` the
entry is an object, `split` is not a function, and the store's `sort` is never called. -/
theorem sort_counterexample :
    APIFeatures.sort ⟨[], [("sort", .obj [("price", .str "asc")])]⟩ = none := rfl

/-- C8, amended. For every query string whose `sort` entry is a string or missing, `sort`
calls the store's `sort` once: with the entry in which every comma is replaced by a space
(the tokens between the commas, verbatim and in order) when the entry is a non-empty string,
and with the default `-createdAt` when it is missing or empty. -/
theorem sort_argument (self : APIFeatures) :
    (∀ s : String, getProp self.queryString "sort" = some (.str s) → s ≠ "" →
      self.sort = some ⟨self.query ++ [QueryCall.sort (String.mk (s.data.map commaToSpace))],
        self.queryString⟩) ∧
    (getProp self.queryString "sort" = none ∨ getProp self.queryString "sort" = some (.str "") →
      self.sort = some ⟨self.query ++ [QueryCall.sort "-createdAt"], self.queryString⟩) := by
  constructor
  · intro s h hs
    simp only [APIFeatures.sort, h, hs, ne_eq, not_false_eq_true, if_true, joinSpace_jsSplit]
  · rintro (h | h)
    · simp only [APIFeatures.sort, h]
    · simp [APIFeatures.sort, h]

/-- The request `?sort=price,-ratingsAverage`. -/
theorem sort_argument_witness :
    APIFeatures.sort ⟨[], [("sort", .str "price,-ratingsAverage")]⟩
      = some ⟨[QueryCall.sort "price -ratingsAverage"], [("sort", .str "price,-ratingsAverage")]⟩ :=
  (sort_argument ⟨[], [("sort", .str "price,-ratingsAverage")]⟩).1 "price,-ratingsAverage" rfl
    (by decide)

/-! ## Claims on `protect` -/

/-- C9. For every request with neither an Authorization header nor a jwt cookie, `protect`
calls `next` once, with the 401 error "You are not logged in! Please log in to get access";
it verifies no token and looks up no user, and the request and the response are as they
were, so `req.user` and `res.locals.user` are not set. -/
theorem protect_no_credentials (w : World) (req : Request) (res : Response)
    (hh : req.authorization = none) (hc : req.jwtCookie = none) :
    protect w req res
      = ⟨req, res,
         [NextArg.appError ⟨"You are not logged in! Please log in to get access", 401⟩], []⟩ := by
  simp [protect, extractToken, cookieToken, hh, hc, notLoggedIn]

/-- A request without header and cookie, against a store that holds a user. -/
theorem protect_no_credentials_witness :
    protect ⟨fun _ => .ok ⟨"u1", 0⟩, [⟨"u1", "user", none, true⟩]⟩ ⟨none, none, none⟩ ⟨none⟩
      = ⟨⟨none, none, none⟩, ⟨none⟩,
         [NextArg.appError ⟨"You are not logged in! Please log in to get access", 401⟩], []⟩ :=
  protect_no_credentials _ ⟨none, none, none⟩ ⟨none⟩ rfl rfl

/-- C10, as stated, fails on a bearer-scheme header without token: with the header `Bearer`
and a valid jwt cookie, the header branch is taken, the cookie is not read, and the request
fails with the 401 of step 1 although the cookie is present. -/
theorem protect_cookie_fallback_counterexample :
    bearerToken "Bearer" = none ∧
    protect ⟨fun _ => .ok ⟨"u1", 0⟩, [⟨"u1", "user", none, true⟩]⟩
        ⟨some "Bearer", some "abc", none⟩ ⟨none⟩
      = ⟨⟨some "Bearer", some "abc", none⟩, ⟨none⟩, [NextArg.appError notLoggedIn], []⟩ := by
  constructor <;> decide

theorem protect_calls_of_token (w : World) (req : Request) (res : Response) {t : String}
    (h : extractToken req = some t) (ht : t ≠ "") :
    (protect w req res).calls.head? = some (Call.verify t) := by
  simp only [protect, h, if_neg ht]
  cases w.verify t with
  | error e => rfl
  | ok d =>
    simp only []
    cases findById w.users d.id with
    | none => rfl
    | some u =>
      simp only []
      split <;> rfl

theorem protect_next_notLoggedIn_iff (w : World) (req : Request) (res : Response) :
    (protect w req res).next = [NextArg.appError notLoggedIn]
      ↔ (extractToken req = none ∨ extractToken req = some "") := by
  cases h : extractToken req with
  | none => simp [protect, h]
  | some t =>
    by_cases ht : t = ""
    · simp [protect, h, ht]
    · simp only [protect, h, if_neg ht, reduceCtorEq, Option.some.injEq, ht, or_self, iff_false]
      cases w.verify t with
      | error e => simp
      | ok d =>
        simp only []
        cases findById w.users d.id with
        | none => simp [userGone, notLoggedIn]
        | some u =>
          simp only []
          by_cases hcp : u.changedPasswordAfter d.iat = true
          · simp [hcp, passwordChanged, notLoggedIn]
          · simp [hcp]

/-- C10, amended. For every request whose Authorization header is absent or does not start
with `Bearer`, and whose jwt cookie is present and not empty, `protect` falls back to the
cookie: the token it verifies is the value of the cookie. When the header starts with
`Bearer`, the token is the part of the header after its first space (up to the second) and
the cookie is not read. `protect` fails with the 401 of step 1 exactly when the token so
obtained is missing or empty. -/
theorem protect_token_source (w : World) (req : Request) (res : Response) :
    ((req.authorization = none ∨
        ∃ a, req.authorization = some a ∧ "Bearer".data.isPrefixOf a.data = false) →
      ∀ c, req.jwtCookie = some c → c ≠ "" →
        extractToken req = some c ∧ (protect w req res).calls.head? = some (Call.verify c)) ∧
    (∀ a, req.authorization = some a → "Bearer".data.isPrefixOf a.data = true →
      extractToken req = bearerToken a) ∧
    ((protect w req res).next = [NextArg.appError notLoggedIn]
      ↔ (extractToken req = none ∨ extractToken req = some "")) := by
  refine ⟨?_, ?_, protect_next_notLoggedIn_iff w req res⟩
  · intro hh c hc hne
    have ht : extractToken req = some c := by
      rcases hh with h | ⟨a, h, hp⟩
      · simp [extractToken, cookieToken, h, hc, hne]
      · simp [extractToken, cookieToken, h, hp, hc, hne]
    exact ⟨ht, protect_calls_of_token w req res ht hne⟩
  · intro a ha hp
    have hne : a ≠ "" := by
      rintro rfl
      exact absurd hp (by decide)
    simp [extractToken, ha, hp, hne]

/-- A request with a basic-scheme header and a jwt cookie: the cookie is the token. -/
theorem protect_token_source_witness :
    extractToken ⟨some "Basic dXNlcg==", some "abc", none⟩ = some "abc" ∧
    (protect ⟨fun _ => .ok ⟨"u1", 0⟩, [⟨"u1", "user", none, true⟩]⟩
        ⟨some "Basic dXNlcg==", some "abc", none⟩ ⟨none⟩).calls.head? = some (Call.verify "abc") :=
  (protect_token_source ⟨fun _ => .ok ⟨"u1", 0⟩, [⟨"u1", "user", none, true⟩]⟩
      ⟨some "Basic dXNlcg==", some "abc", none⟩ ⟨none⟩).1
    (Or.inr ⟨"Basic dXNlcg==", rfl, by decide⟩) "abc" rfl (by decide)

/-! ## Claims on the authentication steps -/

theorem protect_of_success (w : World) (req : Request) (res : Response) {t : String}
    {d : Payload} {u : User} (ht : extractToken req = some t) (hne : t ≠ "")
    (hv : w.verify t = .ok d) (hf : findById w.users d.id = some u)
    (hc : u.changedPasswordAfter d.iat = false) :
    protect w req res
      = ⟨{ req with user := some u }, { res with localsUser := some u }, [NextArg.none],
         [Call.verify t, Call.findById d.id]⟩ := by
  simp [protect, ht, hne, hv, hf, hc]

theorem protect_of_failure (w : World) (req : Request) (res : Response)
    (h : ¬ ∃ t d u, extractToken req = some t ∧ t ≠ "" ∧ w.verify t = .ok d ∧
      findById w.users d.id = some u ∧ u.changedPasswordAfter d.iat = false) :
    (protect w req res).req = req ∧ (protect w req res).res = res ∧
    ∃ e, (protect w req res).next = [e] ∧ e ≠ NextArg.none := by
  cases ht : extractToken req with
  | none => simp [protect, ht]
  | some t =>
    by_cases hne : t = ""
    · simp [protect, ht, hne]
    · cases hv : w.verify t with
      | error name => simp [protect, ht, hne, hv]
      | ok d =>
        cases hf : findById w.users d.id with
        | none => simp [protect, ht, hne, hv, hf]
        | some u =>
          by_cases hc : u.changedPasswordAfter d.iat = true
          · simp [protect, ht, hne, hv, hf, hc]
          · exact absurd ⟨t, d, u, ht, hne, hv, hf, by simpa using hc⟩ h

/-- C11. `protect` attaches a subject and lets the request through exactly when the four
steps pass. When a token is extracted, verifies, names a subject that is found, and the
subject has not changed its password since, `req.user` and `res.locals.user` are set to that
subject and `next` is called once, without argument. In every other case the request and the
response are as they were and `next` is called once, with an error. -/
theorem protect_success_iff (w : World) (req : Request) (res : Response) :
    (∀ t d u, extractToken req = some t → t ≠ "" → w.verify t = .ok d →
      findById w.users d.id = some u → u.changedPasswordAfter d.iat = false →
      protect w req res
        = ⟨{ req with user := some u }, { res with localsUser := some u }, [NextArg.none],
           [Call.verify t, Call.findById d.id]⟩) ∧
    ((¬ ∃ t d u, extractToken req = some t ∧ t ≠ "" ∧ w.verify t = .ok d ∧
        findById w.users d.id = some u ∧ u.changedPasswordAfter d.iat = false) →
      (protect w req res).req = req ∧ (protect w req res).res = res ∧
      ∃ e, (protect w req res).next = [e] ∧ e ≠ NextArg.none) ∧
    ((protect w req res).next = [NextArg.none] ↔
      ∃ t d u, extractToken req = some t ∧ t ≠ "" ∧ w.verify t = .ok d ∧
        findById w.users d.id = some u ∧ u.changedPasswordAfter d.iat = false) := by
  refine ⟨fun t d u ht hne hv hf hc => protect_of_success w req res ht hne hv hf hc,
    protect_of_failure w req res, ?_, ?_⟩
  · intro hn
    by_contra h
    obtain ⟨_, _, e, he, hne⟩ := protect_of_failure w req res h
    rw [hn] at he
    simp only [List.cons.injEq, and_true] at he
    exact hne he.symm
  · rintro ⟨t, d, u, ht, hne, hv, hf, hc⟩
    rw [protect_of_success w req res ht hne hv hf hc]

/-- A bearer token that verifies for an active user whose password never changed. -/
theorem protect_success_iff_witness :
    protect ⟨fun _ => .ok ⟨"u1", 100⟩, [⟨"u1", "user", none, true⟩]⟩
        ⟨some "Bearer abc", none, none⟩ ⟨none⟩
      = ⟨⟨some "Bearer abc", none, some ⟨"u1", "user", none, true⟩⟩,
         ⟨some ⟨"u1", "user", none, true⟩⟩, [NextArg.none],
         [Call.verify "abc", Call.findById "u1"]⟩ :=
  (protect_success_iff ⟨fun _ => .ok ⟨"u1", 100⟩, [⟨"u1", "user", none, true⟩]⟩
      ⟨some "Bearer abc", none, none⟩ ⟨none⟩).1 "abc" ⟨"u1", 100⟩ ⟨"u1", "user", none, true⟩
    (by decide) (by decide) rfl (by decide) (by decide)

theorem findById_eq_none_iff (users : List User) (id : String) :
    findById users id = none ↔ ∀ x ∈ users, x.id = id → x.active = false := by
  simp only [findById, List.find?_eq_none, Bool.and_eq_true, beq_iff_eq, bne_iff_ne, ne_eq,
    Bool.not_eq_false, not_and, Bool.not_eq_true]

theorem eq_of_id_eq {users : List User} (hids : (users.map User.id).Nodup) {x y : User}
    (hx : x ∈ users) (hy : y ∈ users) (h : x.id = y.id) : x = y :=
  List.inj_on_of_nodup_map hids hx hy h

theorem findById_inactive {users : List User} {u : User} (hu : u ∈ users)
    (hin : u.active = false) (hids : (users.map User.id).Nodup) :
    findById users u.id = none := by
  rw [findById_eq_none_iff]
  intro x hx hid
  rw [eq_of_id_eq hids hx hu hid]
  exact hin

theorem deactivate_inactive (users : List User) (id : String)
    (hids : (users.map User.id).Nodup) :
    ∀ x ∈ deactivate users id, x.id = id → x.active = false := by
  induction users with
  | nil => intro x hx; simp [deactivate] at hx
  | cons u rest ih =>
    simp only [List.map_cons, List.nodup_cons] at hids
    intro x hx hid
    by_cases h : (u.id == id && u.active != false) = true
    · simp only [deactivate, h, if_true, List.mem_cons] at hx
      rcases hx with rfl | hx
      · rfl
      · exfalso
        simp only [Bool.and_eq_true, beq_iff_eq] at h
        exact hids.1 (List.mem_map.mpr ⟨x, hx, by rw [hid, h.1]⟩)
    · have h2 : (u.id == id && u.active != false) = false := by simpa using h
      simp only [deactivate, h2, Bool.false_eq_true, if_false, List.mem_cons] at hx
      rcases hx with rfl | hx
      · simp only [Bool.and_eq_false_iff, beq_eq_false_iff_ne, ne_eq, bne_eq_false_iff_eq] at h2
        rcases h2 with h2 | h2
        · exact absurd hid h2
        · exact h2
      · exact ih hids.2 x hx hid

/-- C12. For every subject whose `active` flag is false and every token that verifies for
it, `protect` fails with a 401 error: the lookup by identifier goes through the hook
`pre(/^find/)`, finds no document, and the subject is not attached. The flag is false after
`deleteMe`: in the collection it leaves, the lookup of the deleted subject finds nothing. -/
theorem protect_inactive_subject (w : World) (req : Request) (res : Response) (u : User)
    (t : String) (d : Payload) (hu : u ∈ w.users) (hin : u.active = false)
    (hids : (w.users.map User.id).Nodup) (ht : extractToken req = some t) (hne : t ≠ "")
    (hv : w.verify t = .ok d) (hid : d.id = u.id) :
    findById w.users u.id = none ∧
    protect w req res
      = ⟨req, res, [NextArg.appError userGone], [Call.verify t, Call.findById d.id]⟩ ∧
    userGone.statusCode = 401 ∧
    (∀ (r : Request) (v : User) (users2 : List User) (status : Nat),
      r.user = some v → deleteMe w.users r = some (users2, status) →
      findById users2 v.id = none) := by
  have hf := findById_inactive hu hin hids
  refine ⟨hf, ?_, rfl, ?_⟩
  · simp [protect, ht, hne, hv, hid, hf]
  · intro r v users2 status hr hd
    simp only [deleteMe, hr, Option.some.injEq, Prod.mk.injEq] at hd
    rw [← hd.1, findById_eq_none_iff]
    exact deactivate_inactive w.users v.id hids

/-- A deactivated user presenting a token that still verifies. -/
theorem protect_inactive_subject_witness :
    findById [(⟨"u1", "user", none, false⟩ : User)] "u1" = none ∧
    protect ⟨fun _ => .ok ⟨"u1", 100⟩, [⟨"u1", "user", none, false⟩]⟩
        ⟨some "Bearer abc", none, none⟩ ⟨none⟩
      = ⟨⟨some "Bearer abc", none, none⟩, ⟨none⟩, [NextArg.appError userGone],
         [Call.verify "abc", Call.findById "u1"]⟩ :=
  have h := protect_inactive_subject ⟨fun _ => .ok ⟨"u1", 100⟩, [⟨"u1", "user", none, false⟩]⟩
    ⟨some "Bearer abc", none, none⟩ ⟨none⟩ ⟨"u1", "user", none, false⟩ "abc" ⟨"u1", 100⟩
    (by decide) rfl (by decide) (by decide) (by decide) rfl rfl
  ⟨h.1, h.2.1⟩

/-! ## Claims on the freshness check -/

/-- Whole seconds of a time in milliseconds, as `parseInt(ms / 1000, 10)` computes them. -/
theorem tdiv_thousand (ms : Int) :
    Int.tdiv ms 1000 = if 0 ≤ ms then ms / 1000 else -((-ms) / 1000) := by
  split
  · rename_i h
    exact Int.tdiv_eq_ediv h (by decide)
  · rename_i h
    have h2 : Int.tdiv (-ms) 1000 = (-ms) / 1000 := Int.tdiv_eq_ediv (by omega) (by decide)
    rw [← h2, Int.neg_tdiv, Int.neg_neg]

theorem changedPasswordAfter_eq_true_iff (u : User) (iat : Int) :
    u.changedPasswordAfter iat = true ↔
      ∃ ms, u.passwordChangedAt = some ms ∧ iat < Int.tdiv ms 1000 := by
  cases h : u.passwordChangedAt with
  | none => simp [User.changedPasswordAfter, h]
  | some ms => simp [User.changedPasswordAfter, h]

/-- C13, as stated, fails when the password change is later than the issued-at instant by
less than a second: changed at 1500 ms, issued at second 1, the method returns false. -/
theorem changedPasswordAfter_counterexample :
    (1 : Int) * 1000 < 1500 ∧
    User.changedPasswordAfter ⟨"u1", "user", some 1500, true⟩ 1 = false := by
  constructor <;> decide

/-- C13, amended. For every subject and every issued-at timestamp `iat` in seconds,
`changedPasswordAfter(iat)` returns true exactly when `passwordChangedAt` is set and its
whole second is later than `iat`, that is, for a time since the epoch, when it is at least
(iat + 1) · 1000 ms; it returns false for every `iat` when `passwordChangedAt` is absent. -/
theorem changedPasswordAfter_spec (u : User) (iat : Int) :
    (u.changedPasswordAfter iat = true ↔
      ∃ ms, u.passwordChangedAt = some ms ∧ iat < Int.tdiv ms 1000) ∧
    (∀ ms, u.passwordChangedAt = some ms → 0 ≤ ms →
      (u.changedPasswordAfter iat = true ↔ (iat + 1) * 1000 ≤ ms)) ∧
    (u.passwordChangedAt = none → u.changedPasswordAfter iat = false) := by
  refine ⟨changedPasswordAfter_eq_true_iff u iat, ?_, ?_⟩
  · intro ms h hms
    rw [changedPasswordAfter_eq_true_iff, h]
    simp only [Option.some.injEq, exists_eq_left']
    rw [tdiv_thousand, if_pos hms]
    omega
  · intro h
    simp [User.changedPasswordAfter, h]

/-- A password changed at 6000 ms and a token issued at second 5. -/
theorem changedPasswordAfter_spec_witness :
    User.changedPasswordAfter ⟨"u1", "user", some 6000, true⟩ 5 = true ↔
      ((5 : Int) + 1) * 1000 ≤ 6000 :=
  (changedPasswordAfter_spec ⟨"u1", "user", some 6000, true⟩ 5).2.1 6000 rfl (by decide)

/-- C14, as stated, fails for a change saved less than two seconds after the issued-at
second: token issued at second 5, password saved at 6999 ms, so `passwordChangedAt` is
5999 ms and `changedPasswordAfter(5)` is false: `protect` lets the old token through. -/
theorem password_change_counterexample :
    (5 : Int) * 1000 < 6999 ∧
    (preSavePasswordChangedAt true false 6999 ⟨"u1", "user", none, true⟩).changedPasswordAfter 5
      = false ∧
    (protect ⟨fun _ => .ok ⟨"u1", 5⟩,
          [preSavePasswordChangedAt true false 6999 ⟨"u1", "user", none, true⟩]⟩
        ⟨some "Bearer abc", none, none⟩ ⟨none⟩).next = [NextArg.none] := by
  refine ⟨by decide, by decide, by decide⟩

theorem changedPasswordAfter_preSave (u : User) (iat t : Int) (h : (iat + 2) * 1000 ≤ t) :
    (preSavePasswordChangedAt true false t u).changedPasswordAfter iat = true := by
  rw [changedPasswordAfter_eq_true_iff]
  refine ⟨t - 1000, by simp [preSavePasswordChangedAt], ?_⟩
  rw [tdiv_thousand]
  split <;> omega

/-- C14, amended. Changing a subject's password invalidates every token issued at least two
whole seconds before the change: for every token with issued-at second `iat` and every
password change saved by the hook `pre("save")` at a time t ≥ (iat + 2) · 1000 ms (which
stores `passwordChangedAt` = t − 1000 ms), `changedPasswordAfter(iat)` is true afterwards,
and `protect` rejects the token with the 401 error of the freshness check. -/
theorem password_change_invalidates (w : World) (req : Request) (res : Response) (u : User)
    (iat t : Int) (tok : String) (d : Payload) (h : (iat + 2) * 1000 ≤ t)
    (ht : extractToken req = some tok) (hne : tok ≠ "") (hv : w.verify tok = .ok d)
    (hiat : d.iat = iat)
    (hf : findById w.users d.id = some (preSavePasswordChangedAt true false t u)) :
    (preSavePasswordChangedAt true false t u).passwordChangedAt = some (t - 1000) ∧
    (preSavePasswordChangedAt true false t u).changedPasswordAfter iat = true ∧
    protect w req res
      = ⟨req, res, [NextArg.appError passwordChanged],
         [Call.verify tok, Call.findById d.id]⟩ ∧
    passwordChanged.statusCode = 401 := by
  have hc := changedPasswordAfter_preSave u iat t h
  refine ⟨by simp [preSavePasswordChangedAt], hc, ?_, rfl⟩
  simp [protect, ht, hne, hv, hf, hiat, hc]

/-- A token issued at second 5 and a password saved at 7000 ms. -/
theorem password_change_invalidates_witness :
    (preSavePasswordChangedAt true false 7000 ⟨"u1", "user", none, true⟩).changedPasswordAfter 5
      = true :=
  (password_change_invalidates
    ⟨fun _ => .ok ⟨"u1", 5⟩, [preSavePasswordChangedAt true false 7000 ⟨"u1", "user", none, true⟩]⟩
    ⟨some "Bearer abc", none, none⟩ ⟨none⟩ ⟨"u1", "user", none, true⟩ 5 7000 "abc" ⟨"u1", 5⟩
    (by decide) (by decide) (by decide) rfl rfl (by decide)).2.1

/-- C15. A token created after a password change is never stale by that change: for every
password change saved at time t (`passwordChangedAt` = t − 1000 ms) and every token issued
at a time t' ≥ t, with `iat` the whole seconds of t', `changedPasswordAfter(iat)` is false. -/
theorem fresh_token_not_stale (u : User) (t t2 : Int) (h : t ≤ t2) :
    (preSavePasswordChangedAt true false t u).changedPasswordAfter (t2 / 1000) = false := by
  cases hc : (preSavePasswordChangedAt true false t u).changedPasswordAfter (t2 / 1000) with
  | false => rfl
  | true =>
    exfalso
    rw [changedPasswordAfter_eq_true_iff] at hc
    obtain ⟨ms, hms, hlt⟩ := hc
    have h2 : ms = t - 1000 := by
      simp [preSavePasswordChangedAt] at hms
      omega
    subst h2
    rw [tdiv_thousand] at hlt
    split at hlt <;> omega

/-- A password saved at 7000 ms and a token issued in the same millisecond. -/
theorem fresh_token_not_stale_witness :
    (preSavePasswordChangedAt true false 7000 ⟨"u1", "user", none, true⟩).changedPasswordAfter
      (7000 / 1000) = false :=
  fresh_token_not_stale ⟨"u1", "user", none, true⟩ 7000 7000 (by decide)

/-! ## Claims on `restrictTo` and `isLoggedIn` -/

/-- C16. For every list of roles and every authenticated subject, the middleware returned by
`restrictTo(...roles)` calls `next` without argument exactly when the role of the subject is
in the list, and otherwise calls `next` with the 403 error "You do not have permission to
perform this action". A guide on a route restricted to admin gets the 403, and the empty
list forbids every subject. -/
theorem restrictTo_spec (roles : List String) (req : Request) (res : Response) (u : User)
    (hu : req.user = some u) :
    (u.role ∈ roles → restrictTo roles req res = ⟨req, res, [NextArg.none], []⟩) ∧
    (u.role ∉ roles →
      restrictTo roles req res
        = ⟨req, res,
           [NextArg.appError ⟨"You do not have permission to perform this action", 403⟩], []⟩) ∧
    ((restrictTo roles req res).next = [NextArg.none] ↔ u.role ∈ roles) ∧
    (u.role = "guide" →
      restrictTo ["admin"] req res = ⟨req, res, [NextArg.appError forbidden], []⟩) ∧
    restrictTo [] req res = ⟨req, res, [NextArg.appError forbidden], []⟩ := by
  refine ⟨?_, ?_, ?_, ?_, ?_⟩
  · intro h
    simp [restrictTo, hu, h]
  · intro h
    simp [restrictTo, hu, h, forbidden]
  · by_cases h : u.role ∈ roles
    · simp [restrictTo, hu, h]
    · simp [restrictTo, hu, h]
  · intro h
    simp [restrictTo, hu, h]
  · simp [restrictTo, hu]

/-- A guide on the routes of the user router that are restricted to admin. -/
theorem restrictTo_spec_witness :
    restrictTo ["admin"] ⟨none, none, some ⟨"u1", "guide", none, true⟩⟩ ⟨none⟩
      = ⟨⟨none, none, some ⟨"u1", "guide", none, true⟩⟩, ⟨none⟩,
         [NextArg.appError ⟨"You do not have permission to perform this action", 403⟩], []⟩ :=
  (restrictTo_spec ["admin"] ⟨none, none, some ⟨"u1", "guide", none, true⟩⟩ ⟨none⟩
    ⟨"u1", "guide", none, true⟩ rfl).2.1 (by decide)

theorem isLoggedIn_of_success (w : World) (req : Request) (res : Response) {c : String}
    {d : Payload} {u : User} (hc : req.jwtCookie = some c) (hne : c ≠ "")
    (hv : w.verify c = .ok d) (hf : findById w.users d.id = some u)
    (hp : u.changedPasswordAfter d.iat = false) :
    isLoggedIn w req res
      = ⟨req, { res with localsUser := some u }, [NextArg.none],
         [Call.verify c, Call.findById d.id]⟩ := by
  simp [isLoggedIn, hc, hne, hv, hf, hp]

theorem isLoggedIn_of_failure (w : World) (req : Request) (res : Response)
    (h : ¬ ∃ c d u, req.jwtCookie = some c ∧ c ≠ "" ∧ w.verify c = .ok d ∧
      findById w.users d.id = some u ∧ u.changedPasswordAfter d.iat = false) :
    (isLoggedIn w req res).req = req ∧ (isLoggedIn w req res).res = res ∧
    (isLoggedIn w req res).next = [NextArg.none] := by
  cases hc : req.jwtCookie with
  | none => simp [isLoggedIn, hc]
  | some c =>
    by_cases hne : c = ""
    · simp [isLoggedIn, hc, hne]
    · cases hv : w.verify c with
      | error name => simp [isLoggedIn, hc, hne, hv]
      | ok d =>
        cases hf : findById w.users d.id with
        | none => simp [isLoggedIn, hc, hne, hv, hf]
        | some u =>
          by_cases hp : u.changedPasswordAfter d.iat = true
          · simp [isLoggedIn, hc, hne, hv, hf, hp]
          · exact absurd ⟨c, d, u, hc, hne, hv, hf, by simpa using hp⟩ h

/-- C17. `isLoggedIn` never fails the request: for every request it calls `next` once,
without error argument, and it leaves `req` alone. It sets `res.locals.user` in the fully
valid case only (a cookie that verifies, for a subject that is found and has not changed its
password since); in every other case the response is as it was. -/
theorem isLoggedIn_never_fails (w : World) (req : Request) (res : Response) :
    (isLoggedIn w req res).next = [NextArg.none] ∧
    (isLoggedIn w req res).req = req ∧
    (∀ c d u, req.jwtCookie = some c → c ≠ "" → w.verify c = .ok d →
      findById w.users d.id = some u → u.changedPasswordAfter d.iat = false →
      (isLoggedIn w req res).res = { res with localsUser := some u }) ∧
    ((¬ ∃ c d u, req.jwtCookie = some c ∧ c ≠ "" ∧ w.verify c = .ok d ∧
        findById w.users d.id = some u ∧ u.changedPasswordAfter d.iat = false) →
      (isLoggedIn w req res).res = res) := by
  by_cases h : ∃ c d u, req.jwtCookie = some c ∧ c ≠ "" ∧ w.verify c = .ok d ∧
      findById w.users d.id = some u ∧ u.changedPasswordAfter d.iat = false
  · obtain ⟨c, d, u, hc, hne, hv, hf, hp⟩ := h
    have hs := isLoggedIn_of_success w req res hc hne hv hf hp
    refine ⟨by rw [hs], by rw [hs], ?_, ?_⟩
    · intro c2 d2 u2 hc2 hne2 hv2 hf2 hp2
      rw [isLoggedIn_of_success w req res hc2 hne2 hv2 hf2 hp2]
    · intro hn
      exact absurd ⟨c, d, u, hc, hne, hv, hf, hp⟩ hn
  · obtain ⟨h1, h2, h3⟩ := isLoggedIn_of_failure w req res h
    refine ⟨h3, h1, ?_, fun _ => h2⟩
    intro c d u hc hne hv hf hp
    exact absurd ⟨c, d, u, hc, hne, hv, hf, hp⟩ h

/-- The cookie left by `logout`, which does not verify. -/
theorem isLoggedIn_never_fails_witness :
    (isLoggedIn ⟨fun _ => .error "JsonWebTokenError", [⟨"u1", "user", none, true⟩]⟩
        ⟨none, some "loggedout", none⟩ ⟨none⟩).res = ⟨none⟩ :=
  (isLoggedIn_never_fails ⟨fun _ => .error "JsonWebTokenError", [⟨"u1", "user", none, true⟩]⟩
      ⟨none, some "loggedout", none⟩ ⟨none⟩).2.2.2
    (by rintro ⟨c, d, u, _, _, hv, _⟩; cases hv)

/-- C18, as stated, fails in both directions, because `isLoggedIn` reads the cookie only. A
bearer header with a valid token and no cookie: `protect` attaches the subject, `isLoggedIn`
sets nothing. A bearer header without token next to a valid cookie: `protect` fails with the
401 of step 1, `isLoggedIn` sets `res.locals.user`. -/
theorem isLoggedIn_protect_counterexample :
    (protect ⟨fun _ => .ok ⟨"u1", 100⟩, [⟨"u1", "user", none, true⟩]⟩
        ⟨some "Bearer abc", none, none⟩ ⟨none⟩).res = ⟨some ⟨"u1", "user", none, true⟩⟩ ∧
    (isLoggedIn ⟨fun _ => .ok ⟨"u1", 100⟩, [⟨"u1", "user", none, true⟩]⟩
        ⟨some "Bearer abc", none, none⟩ ⟨none⟩).res = ⟨none⟩ ∧
    (protect ⟨fun _ => .ok ⟨"u1", 100⟩, [⟨"u1", "user", none, true⟩]⟩
        ⟨some "Bearer", some "abc", none⟩ ⟨none⟩).next = [NextArg.appError notLoggedIn] ∧
    (isLoggedIn ⟨fun _ => .ok ⟨"u1", 100⟩, [⟨"u1", "user", none, true⟩]⟩
        ⟨some "Bearer", some "abc", none⟩ ⟨none⟩).res = ⟨some ⟨"u1", "user", none, true⟩⟩ := by
  refine ⟨by decide, by decide, by decide, by decide⟩

theorem extractToken_of_no_bearer {req : Request}
    (hh : req.authorization = none ∨
      ∃ a, req.authorization = some a ∧ "Bearer".data.isPrefixOf a.data = false) :
    extractToken req = cookieToken req := by
  rcases hh with h | ⟨a, h, hp⟩
  · simp [extractToken, h]
  · simp [extractToken, h, hp]

/-- C18, amended. On every request whose Authorization header is absent or does not start
with `Bearer`, the soft variant performs the steps of `protect`: when `protect` succeeds and
attaches the subject U, `isLoggedIn` sets `res.locals.user` to the same U, and when `protect`
fails, `isLoggedIn` leaves the response as it was. -/
theorem isLoggedIn_protect (w : World) (req : Request) (res : Response)
    (hh : req.authorization = none ∨
      ∃ a, req.authorization = some a ∧ "Bearer".data.isPrefixOf a.data = false) :
    (∀ u, (protect w req res).next = [NextArg.none] → (protect w req res).req.user = some u →
      (isLoggedIn w req res).res = { res with localsUser := some u } ∧
      (protect w req res).res = (isLoggedIn w req res).res) ∧
    ((protect w req res).next ≠ [NextArg.none] → (isLoggedIn w req res).res = res) := by
  have he := extractToken_of_no_bearer hh
  cases hc : req.jwtCookie with
  | none =>
    have ht : extractToken req = none := by rw [he]; simp [cookieToken, hc]
    simp [protect, ht, isLoggedIn, hc]
  | some c =>
    by_cases hne : c = ""
    · have ht : extractToken req = none := by rw [he]; simp [cookieToken, hc, hne]
      simp [protect, ht, isLoggedIn, hc, hne]
    · have ht : extractToken req = some c := by rw [he]; simp [cookieToken, hc, hne]
      cases hv : w.verify c with
      | error name => simp [protect, ht, isLoggedIn, hc, hne, hv]
      | ok d =>
        cases hf : findById w.users d.id with
        | none => simp [protect, ht, isLoggedIn, hc, hne, hv, hf]
        | some u =>
          by_cases hp : u.changedPasswordAfter d.iat = true
          · simp [protect, ht, isLoggedIn, hc, hne, hv, hf, hp]
          · simp [protect, ht, isLoggedIn, hc, hne, hv, hf, hp]

/-- A request with a valid cookie and no Authorization header. -/
theorem isLoggedIn_protect_witness :
    (isLoggedIn ⟨fun _ => .ok ⟨"u1", 100⟩, [⟨"u1", "user", none, true⟩]⟩
        ⟨none, some "abc", none⟩ ⟨none⟩).res = ⟨some ⟨"u1", "user", none, true⟩⟩ :=
  ((isLoggedIn_protect ⟨fun _ => .ok ⟨"u1", 100⟩, [⟨"u1", "user", none, true⟩]⟩
      ⟨none, some "abc", none⟩ ⟨none⟩ (Or.inl rfl)).1 ⟨"u1", "user", none, true⟩
    (by decide) (by decide)).1

/-! ## Claims on the token service and the reset-token window -/

/-- C19. Token round trip: for every subject identifier S, the token `signToken(S)` made at
time `now`, verified with the same secret at a time before its expiry, yields the payload
with the identifier S and the issued-at second of `now`; verified when the configured
lifetime has elapsed, it fails. -/
theorem token_round_trip (hmac : String → Claims → String) (env : Env) (now later : Int)
    (id : String) :
    (later / 1000 < now / 1000 + env.jwtExpiresIn →
      verifyToken hmac env later (signToken hmac env now id) = .ok ⟨id, now / 1000⟩) ∧
    (now / 1000 + env.jwtExpiresIn ≤ later / 1000 →
      verifyToken hmac env later (signToken hmac env now id) = .error "TokenExpiredError") := by
  constructor
  · intro h
    simp [verifyToken, signToken, jwtVerify, jwtSign, h]
  · intro h
    simp [verifyToken, signToken, jwtVerify, jwtSign, h]

/-- A token of ninety days, verified one minute after it was signed. -/
theorem token_round_trip_witness :
    verifyToken (fun k c => k ++ c.id) ⟨"secret", 7776000⟩ 60000
        (signToken (fun k c => k ++ c.id) ⟨"secret", 7776000⟩ 0 "u1") = .ok ⟨"u1", 0 / 1000⟩ :=
  (token_round_trip (fun k c => k ++ c.id) ⟨"secret", 7776000⟩ 0 60000 "u1").1 (by decide)

theorem mem_saveDoc {users : List UserDoc} {doc x : UserDoc} (h : x ∈ saveDoc users doc) :
    x = doc ∨ x ∈ users := by
  simp only [saveDoc, List.mem_map] at h
  obtain ⟨y, hy, rfl⟩ := h
  split
  · exact Or.inl rfl
  · exact Or.inr hy

theorem mem_saveDoc_self {users : List UserDoc} {doc u : UserDoc} (hu : u ∈ users)
    (hid : u.id = doc.id) : doc ∈ saveDoc users doc := by
  simp only [saveDoc, List.mem_map]
  exact ⟨u, hu, by simp [hid]⟩

/-- A query that at most one document of the collection can satisfy finds that document
exactly when it is in the collection and satisfies the query. -/
theorem find?_eq_some_of_unique {α : Type} (p : α → Bool) (l : List α) (d : α)
    (huniq : ∀ x ∈ l, p x = true → x = d) :
    l.find? p = some d ↔ d ∈ l ∧ p d = true := by
  induction l with
  | nil => simp
  | cons a l ih =>
    by_cases ha : p a = true
    · have had : a = d := huniq a (List.mem_cons_self _ _) ha
      subst had
      simp [List.find?, ha]
    · have ha2 : p a = false := by simpa using ha
      have ih2 := ih (fun x hx hp => huniq x (List.mem_cons_of_mem _ hx) hp)
      simp only [List.find?, ha2, ih2, List.mem_cons]
      constructor
      · rintro ⟨h1, h2⟩
        exact ⟨Or.inr h1, h2⟩
      · rintro ⟨h1 | h1, h2⟩
        · subst h1
          rw [h2] at ha2
          cases ha2
        · exact ⟨h1, h2⟩

theorem findOneByResetToken_eq_none {users : List UserDoc} {hashed : String} {now : Int}
    (h : ∀ x ∈ users, x.passwordResetToken = some hashed → expiresAfter x now = false) :
    findOneByResetToken users hashed now = none := by
  simp only [findOneByResetToken, List.find?_eq_none, Bool.and_eq_true, beq_iff_eq,
    not_and, Bool.not_eq_true]
  intro x hx ht
  rw [h x hx ht.1] at ht
  exact absurd ht.2 (by simp)

theorem resetPassword_of_not_found (sha256 bcryptHash : String → String) (now saveTime : Int)
    (users : List UserDoc) (token : String) (body : ResetBody)
    (h : findOneByResetToken users (sha256 token) now = none) :
    resetPassword sha256 bcryptHash now saveTime users token body
      = ⟨users, [NextArg.appError invalidOrExpired], none⟩ := by
  simp [resetPassword, h]

theorem resetPassword_of_found (sha256 bcryptHash : String → String) (now saveTime : Int)
    (users : List UserDoc) (token : String) (body : ResetBody) (user : UserDoc)
    (h : findOneByResetToken users (sha256 token) now = some user) :
    resetPassword sha256 bcryptHash now saveTime users token body
      = (if passwordValid
            { user with
                password := body.password,
                passwordConfirm := body.passwordConfirm,
                passwordResetToken := none,
                passwordResetExpires := none } then
          ⟨saveDoc users (preSave bcryptHash saveTime
              { user with
                  password := body.password,
                  passwordConfirm := body.passwordConfirm,
                  passwordResetToken := none,
                  passwordResetExpires := none }), [],
            some (preSave bcryptHash saveTime
              { user with
                  password := body.password,
                  passwordConfirm := body.passwordConfirm,
                  passwordResetToken := none,
                  passwordResetExpires := none }, 200)⟩
        else ⟨users, [NextArg.thrown "ValidationError"], none⟩) := by
  simp only [resetPassword, h]

/-- C20. Reset-token window. When `forgotPassword` finds a subject and
`createPasswordResetToken` runs on it at time t with the raw token r (a fresh one: its hash
is stored on no subject), the subject stores the SHA-256 hash of r and the expiry t + 10
minutes and nothing else changes, and `resetPassword` presented with r at time t' finds that
subject exactly when t' is before t + 10 minutes: before the expiry it goes on with that
subject (the new password is validated, saved on it and answered with 200, or the
validation error is handed over), and it answers the 400 error exactly when t' is at or
after the expiry. Presented at or after the expiry, or with a token whose hash is stored on
no subject, `resetPassword` fails with the 400 error "Token is invalid or has expired" and
leaves the collection as it was. -/
theorem reset_token_window (toLowerCase sha256 bcryptHash : String → String)
    (users : List UserDoc) (email r : String) (t later saveTime : Int) (u : UserDoc)
    (body : ResetBody)
    (hfind : findOneByEmail toLowerCase users email = some u)
    (hfresh : ∀ x ∈ users, x.passwordResetToken ≠ some (sha256 r)) :
    u.createPasswordResetToken sha256 r t
      = ({ u with passwordResetToken := some (sha256 r),
                  passwordResetExpires := some (t + 600000) }, r) ∧
    (forgotPassword toLowerCase sha256 true r t users email).users
      = saveDoc users (u.createPasswordResetToken sha256 r t).1 ∧
    (findOneByResetToken (saveDoc users (u.createPasswordResetToken sha256 r t).1)
        (sha256 r) later = some (u.createPasswordResetToken sha256 r t).1
      ↔ later < t + 600000) ∧
    (later < t + 600000 →
      resetPassword sha256 bcryptHash later saveTime
          (saveDoc users (u.createPasswordResetToken sha256 r t).1) r body
        = (if passwordValid
              { u with
                  password := body.password,
                  passwordConfirm := body.passwordConfirm,
                  passwordResetToken := none,
                  passwordResetExpires := none } then
            ⟨saveDoc (saveDoc users (u.createPasswordResetToken sha256 r t).1)
                (preSave bcryptHash saveTime
                  { u with
                      password := body.password,
                      passwordConfirm := body.passwordConfirm,
                      passwordResetToken := none,
                      passwordResetExpires := none }), [],
              some (preSave bcryptHash saveTime
                { u with
                    password := body.password,
                    passwordConfirm := body.passwordConfirm,
                    passwordResetToken := none,
                    passwordResetExpires := none }, 200)⟩
          else ⟨saveDoc users (u.createPasswordResetToken sha256 r t).1,
            [NextArg.thrown "ValidationError"], none⟩)) ∧
    ((resetPassword sha256 bcryptHash later saveTime
          (saveDoc users (u.createPasswordResetToken sha256 r t).1) r body).next
        = [NextArg.appError ⟨"Token is invalid or has expired", 400⟩]
      ↔ t + 600000 ≤ later) ∧
    (t + 600000 ≤ later →
      resetPassword sha256 bcryptHash later saveTime
          (saveDoc users (u.createPasswordResetToken sha256 r t).1) r body
        = ⟨saveDoc users (u.createPasswordResetToken sha256 r t).1,
           [NextArg.appError ⟨"Token is invalid or has expired", 400⟩], none⟩) ∧
    (∀ (store : List UserDoc) (token : String),
      (∀ x ∈ store, x.passwordResetToken ≠ some (sha256 token)) →
      resetPassword sha256 bcryptHash later saveTime store token body
        = ⟨store, [NextArg.appError ⟨"Token is invalid or has expired", 400⟩], none⟩) := by
  have hmem : u ∈ users := List.mem_of_find?_eq_some hfind
  have hact : u.active = true := by
    have := List.find?_some hfind
    simp only [Bool.and_eq_true, beq_iff_eq, bne_iff_ne, ne_eq, Bool.not_eq_false] at this
    exact this.2
  have hissued : u.createPasswordResetToken sha256 r t
      = ({ u with passwordResetToken := some (sha256 r),
                  passwordResetExpires := some (t + 600000) }, r) := by
    simp [UserDoc.createPasswordResetToken]
  have hiff : findOneByResetToken (saveDoc users (u.createPasswordResetToken sha256 r t).1)
        (sha256 r) later = some (u.createPasswordResetToken sha256 r t).1
      ↔ later < t + 600000 := by
    rw [findOneByResetToken, find?_eq_some_of_unique]
    · rw [hissued]
      constructor
      · rintro ⟨_, hp⟩
        simpa [expiresAfter, hact] using hp
      · intro hlt
        refine ⟨mem_saveDoc_self hmem rfl, ?_⟩
        simp [expiresAfter, hact, hlt]
    · intro x hx hp
      rcases mem_saveDoc hx with h | h
      · exact h
      · simp only [Bool.and_eq_true, beq_iff_eq] at hp
        exact absurd hp.1.1 (hfresh x h)
  have hin : later < t + 600000 →
      resetPassword sha256 bcryptHash later saveTime
          (saveDoc users (u.createPasswordResetToken sha256 r t).1) r body
        = (if passwordValid
              { u with
                  password := body.password,
                  passwordConfirm := body.passwordConfirm,
                  passwordResetToken := none,
                  passwordResetExpires := none } then
            ⟨saveDoc (saveDoc users (u.createPasswordResetToken sha256 r t).1)
                (preSave bcryptHash saveTime
                  { u with
                      password := body.password,
                      passwordConfirm := body.passwordConfirm,
                      passwordResetToken := none,
                      passwordResetExpires := none }), [],
              some (preSave bcryptHash saveTime
                { u with
                    password := body.password,
                    passwordConfirm := body.passwordConfirm,
                    passwordResetToken := none,
                    passwordResetExpires := none }, 200)⟩
          else ⟨saveDoc users (u.createPasswordResetToken sha256 r t).1,
            [NextArg.thrown "ValidationError"], none⟩) := by
    intro hlt
    rw [resetPassword_of_found sha256 bcryptHash later saveTime _ r body _ (hiff.2 hlt), hissued]
  have hout : t + 600000 ≤ later →
      resetPassword sha256 bcryptHash later saveTime
          (saveDoc users (u.createPasswordResetToken sha256 r t).1) r body
        = ⟨saveDoc users (u.createPasswordResetToken sha256 r t).1,
           [NextArg.appError ⟨"Token is invalid or has expired", 400⟩], none⟩ := by
    intro hle
    apply resetPassword_of_not_found
    apply findOneByResetToken_eq_none
    intro x hx htok
    rcases mem_saveDoc hx with h | h
    · rw [h, hissued]
      simp only [expiresAfter, decide_eq_false_iff_not, not_lt]
      exact hle
    · exact absurd htok (hfresh x h)
  refine ⟨hissued, ?_, hiff, hin, ?_, hout, ?_⟩
  · simp [forgotPassword, hfind]
  · constructor
    · intro h
      by_contra hlt
      rw [hin (not_le.1 hlt)] at h
      split at h <;> simp at h
    · intro hle
      rw [hout hle]
  · intro store token hnone
    apply resetPassword_of_not_found
    apply findOneByResetToken_eq_none
    intro x hx htok
    exact absurd htok (hnone x hx)

/-- A reset token issued at time 0 and presented one second later with a valid new
password: the subject is found, its password replaced, and the answer is 200. -/
theorem reset_token_window_witness :
    (resetPassword (fun s => "sha256:" ++ s) (fun s => "bcrypt:" ++ s) 1000 1000
        (saveDoc [⟨⟨"u1", "user", none, true⟩, "a@b.c", some "pw", none, none, none⟩]
          (UserDoc.createPasswordResetToken
            ⟨⟨"u1", "user", none, true⟩, "a@b.c", some "pw", none, none, none⟩
            (fun s => "sha256:" ++ s) "r1" 0).1)
        "r1" ⟨some "secret123", some "secret123"⟩)
      = ⟨[⟨⟨"u1", "user", some 0, true⟩, "a@b.c", some "bcrypt:secret123", none, none, none⟩],
         [],
         some (⟨⟨"u1", "user", some 0, true⟩, "a@b.c", some "bcrypt:secret123", none, none, none⟩,
           200)⟩ := by
  have h := (reset_token_window asciiLower (fun s => "sha256:" ++ s) (fun s => "bcrypt:" ++ s)
    [⟨⟨"u1", "user", none, true⟩, "a@b.c", some "pw", none, none, none⟩] "a@b.c" "r1" 0 1000 1000
    ⟨⟨"u1", "user", none, true⟩, "a@b.c", some "pw", none, none, none⟩
    ⟨some "secret123", some "secret123"⟩ (by decide) (by decide)).2.2.2.1 (by decide)
  rw [h]
  decide

/-! ## Claims on the use and the roll-back of a reset token -/

theorem mem_saveDoc_ne {users : List UserDoc} {doc x : UserDoc} (h : x ∈ saveDoc users doc) :
    x = doc ∨ (x ∈ users ∧ x.id ≠ doc.id) := by
  simp only [saveDoc, List.mem_map] at h
  obtain ⟨y, hy, rfl⟩ := h
  by_cases hid : y.id = doc.id
  · exact Or.inl (by simp [hid])
  · exact Or.inr (by simp [hid, hy])

theorem saveDoc_saveDoc (users : List UserDoc) (a b : UserDoc) (h : a.id = b.id) :
    saveDoc (saveDoc users a) b = saveDoc users b := by
  simp only [saveDoc, List.map_map]
  apply List.map_congr_left
  intro x _
  by_cases hx : x.id = b.id
  · simp [hx, h]
  · simp [hx, h]

theorem saveDoc_self {users : List UserDoc} {u : UserDoc} (hu : u ∈ users)
    (hids : (users.map (fun x => x.id)).Nodup) : saveDoc users u = users := by
  have key : ∀ x ∈ users, (if (x.id == u.id) = true then u else x) = x := by
    intro x hx
    by_cases hid : x.id = u.id
    · have : x = u := List.inj_on_of_nodup_map hids hx hu hid
      simp [this]
    · simp [hid]
  rw [saveDoc]
  conv_rhs => rw [← List.map_id users]
  exact List.map_congr_left key

theorem resetPassword_sent {sha256 bcryptHash : String → String} {now saveTime : Int}
    {users : List UserDoc} {token : String} {body : ResetBody} {saved : UserDoc} {status : Nat}
    (h : (resetPassword sha256 bcryptHash now saveTime users token body).sent
      = some (saved, status)) :
    status = 200 ∧ saved.passwordResetToken = none ∧ saved.passwordResetExpires = none ∧
    (resetPassword sha256 bcryptHash now saveTime users token body).users = saveDoc users saved ∧
    (resetPassword sha256 bcryptHash now saveTime users token body).next = [] := by
  unfold resetPassword at h ⊢
  cases hf : findOneByResetToken users (sha256 token) now with
  | none => simp [hf] at h
  | some u =>
    simp only [hf] at h ⊢
    split at h
    · rename_i hv
      simp only [Option.some.injEq, Prod.mk.injEq] at h
      obtain ⟨h1, h2⟩ := h
      subst h1
      simp [hv, h2.symm, preSave]
    · simp at h

/-- C21. A reset token is single-use. After a successful `resetPassword` with the raw token
r (the hash of r being stored on that subject only), `passwordResetToken` and
`passwordResetExpires` are cleared in the saved record, and a second `resetPassword` with
the same r, at any time and with any body, finds no subject: it fails with the 400 error
"Token is invalid or has expired" and leaves the collection, passwords included, as it
was. -/
theorem reset_token_single_use (sha256 bcryptHash : String → String) (users : List UserDoc)
    (r : String) (t saveTime later saveTime2 : Int) (body body2 : ResetBody) (saved : UserDoc)
    (status : Nat)
    (hok : (resetPassword sha256 bcryptHash t saveTime users r body).sent = some (saved, status))
    (huniq : ∀ x ∈ users, x.passwordResetToken = some (sha256 r) → x.id = saved.id) :
    saved.passwordResetToken = none ∧ saved.passwordResetExpires = none ∧
    (resetPassword sha256 bcryptHash t saveTime users r body).users = saveDoc users saved ∧
    resetPassword sha256 bcryptHash later saveTime2
        (resetPassword sha256 bcryptHash t saveTime users r body).users r body2
      = ⟨(resetPassword sha256 bcryptHash t saveTime users r body).users,
         [NextArg.appError ⟨"Token is invalid or has expired", 400⟩], none⟩ := by
  obtain ⟨_, h1, h2, h3, _⟩ := resetPassword_sent hok
  refine ⟨h1, h2, h3, ?_⟩
  rw [h3]
  apply resetPassword_of_not_found
  apply findOneByResetToken_eq_none
  intro x hx htok
  rcases mem_saveDoc_ne hx with h | ⟨hmem, hne⟩
  · rw [h, h1] at htok
    cases htok
  · exact absurd (huniq x hmem htok) hne

/-- A token issued at time 0, used at 1000 ms and presented again at 2000 ms. -/
theorem reset_token_single_use_witness :
    resetPassword (fun s => "sha256:" ++ s) (fun s => "bcrypt:" ++ s) 2000 2000
        (resetPassword (fun s => "sha256:" ++ s) (fun s => "bcrypt:" ++ s) 1000 1000
          [⟨⟨"u1", "user", none, true⟩, "a@b.c", some "pw", none, some "sha256:r1", some 600000⟩]
          "r1" ⟨some "secret123", some "secret123"⟩).users
        "r1" ⟨some "another123", some "another123"⟩
      = ⟨(resetPassword (fun s => "sha256:" ++ s) (fun s => "bcrypt:" ++ s) 1000 1000
          [⟨⟨"u1", "user", none, true⟩, "a@b.c", some "pw", none, some "sha256:r1", some 600000⟩]
          "r1" ⟨some "secret123", some "secret123"⟩).users,
         [NextArg.appError ⟨"Token is invalid or has expired", 400⟩], none⟩ :=
  (reset_token_single_use (fun s => "sha256:" ++ s) (fun s => "bcrypt:" ++ s)
    [⟨⟨"u1", "user", none, true⟩, "a@b.c", some "pw", none, some "sha256:r1", some 600000⟩]
    "r1" 1000 1000 2000 2000 ⟨some "secret123", some "secret123"⟩
    ⟨some "another123", some "another123"⟩
    ⟨⟨"u1", "user", some 0, true⟩, "a@b.c", some "bcrypt:secret123", none, none, none⟩ 200
    (by decide) (by decide)).2.2.2

/-- C22, as stated, fails for a subject that held a reset token before the request: after
the failed delivery both fields are cleared, so the record is not the one it was. -/
theorem forgotPassword_rollback_counterexample :
    (forgotPassword asciiLower (fun s => "sha256:" ++ s) false "r2" 1000
        [⟨⟨"u1", "user", none, true⟩, "a@b.c", some "pw", none, some "sha256:r1", some 600000⟩]
        "a@b.c").users
      = [⟨⟨"u1", "user", none, true⟩, "a@b.c", some "pw", none, none, none⟩] ∧
    ([⟨⟨"u1", "user", none, true⟩, "a@b.c", some "pw", none, none, none⟩] : List UserDoc)
      ≠ [⟨⟨"u1", "user", none, true⟩, "a@b.c", some "pw", none, some "sha256:r1", some 600000⟩] := by
  constructor <;> decide

/-- C22, amended. When the delivery fails in `forgotPassword`, the stored
`passwordResetToken` and `passwordResetExpires` of the subject are cleared and saved, the
caller receives the 500 error and no success response is sent. Afterwards no query by reset
token finds the subject, whatever the token and the time, and its record is the same as
before the request when it held no reset token then. -/
theorem forgotPassword_delivery_failure (toLowerCase sha256 : String → String) (r : String)
    (t : Int)
    (users : List UserDoc) (email : String) (u : UserDoc)
    (hfind : findOneByEmail toLowerCase users email = some u) :
    forgotPassword toLowerCase sha256 false r t users email
      = ⟨saveDoc users { u with passwordResetToken := none, passwordResetExpires := none },
         [NextArg.appError ⟨"There was an error sending the email. Try again later!", 500⟩],
         none, none⟩ ∧
    (∀ x ∈ (forgotPassword toLowerCase sha256 false r t users email).users, x.id = u.id →
      x.passwordResetToken = none ∧ x.passwordResetExpires = none) ∧
    (∀ (hashed : String) (later : Int) (x : UserDoc),
      findOneByResetToken (forgotPassword toLowerCase sha256 false r t users email).users hashed later
        = some x → x.id ≠ u.id) ∧
    (u.passwordResetToken = none → u.passwordResetExpires = none →
      (users.map (fun x => x.id)).Nodup →
      (forgotPassword toLowerCase sha256 false r t users email).users = users) := by
  have hout : forgotPassword toLowerCase sha256 false r t users email
      = ⟨saveDoc users { u with passwordResetToken := none, passwordResetExpires := none },
         [NextArg.appError ⟨"There was an error sending the email. Try again later!", 500⟩],
         none, none⟩ := by
    simp only [forgotPassword, hfind, Bool.false_eq_true, if_false,
      UserDoc.createPasswordResetToken]
    rw [saveDoc_saveDoc]
    rfl
  have hcleared : ∀ x ∈ (forgotPassword toLowerCase sha256 false r t users email).users, x.id = u.id →
      x.passwordResetToken = none ∧ x.passwordResetExpires = none := by
    rw [hout]
    intro x hx hid
    rcases mem_saveDoc_ne hx with h | ⟨_, hne⟩
    · rw [h]
      exact ⟨rfl, rfl⟩
    · exact absurd hid hne
  refine ⟨hout, hcleared, ?_, ?_⟩
  · intro hashed later x hx hid
    have hmem := List.mem_of_find?_eq_some hx
    have hp := List.find?_some hx
    have hnone := (hcleared x hmem hid).1
    simp [hnone] at hp
  · intro h1 h2 hids
    rw [hout]
    have hu : u ∈ users := List.mem_of_find?_eq_some hfind
    have he : ({ u with passwordResetToken := none, passwordResetExpires := none } : UserDoc)
        = u := by
      cases u
      simp_all
    rw [he]
    exact saveDoc_self hu hids

/-- A failed delivery for a subject without outstanding token: the collection is as
before. -/
theorem forgotPassword_delivery_failure_witness :
    (forgotPassword asciiLower (fun s => "sha256:" ++ s) false "r1" 1000
        [⟨⟨"u1", "user", none, true⟩, "a@b.c", some "pw", none, none, none⟩] "a@b.c").users
      = [⟨⟨"u1", "user", none, true⟩, "a@b.c", some "pw", none, none, none⟩] :=
  (forgotPassword_delivery_failure asciiLower (fun s => "sha256:" ++ s) "r1" 1000
    [⟨⟨"u1", "user", none, true⟩, "a@b.c", some "pw", none, none, none⟩] "a@b.c"
    ⟨⟨"u1", "user", none, true⟩, "a@b.c", some "pw", none, none, none⟩ (by decide)).2.2.2
    rfl rfl (by decide)

/-! ## Claims on `createSendToken` -/

theorem signup_of_valid {toLowerCase : String → String} {isEmail : String → Bool}
    {bcryptHash : String → String} {newId : String} {users : List UserDoc} {body : SignupBody}
    (hv : signupValid toLowerCase isEmail newId body = true)
    (hd : duplicateUser users (newDocument toLowerCase newId body) = false) :
    signup toLowerCase isEmail bcryptHash newId users body
      = ⟨users ++ [{ newDocument toLowerCase newId body with
            password := (newDocument toLowerCase newId body).password.map bcryptHash,
            passwordConfirm := none }], [],
          some ({ newDocument toLowerCase newId body with
            password := (newDocument toLowerCase newId body).password.map bcryptHash,
            passwordConfirm := none }, 201)⟩ := by
  simp only [signup, hv, hd, Bool.not_true, Bool.false_eq_true, if_false]

theorem signup_sent {toLowerCase : String → String} {isEmail : String → Bool}
    {bcryptHash : String → String} {newId : String} {users : List UserDoc} {body : SignupBody}
    {u : UserDoc} {c : Nat}
    (h : (signup toLowerCase isEmail bcryptHash newId users body).sent = some (u, c)) :
    c = 201 := by
  unfold signup at h
  simp only at h
  split at h
  · simp at h
  · split at h
    · simp at h
    · simp only [Option.some.injEq, Prod.mk.injEq] at h
      exact h.2.symm

theorem login_of_correct {toLowerCase : String → String}
    {bcryptCompare : String → String → Bool} {users : List UserDoc} {email password : String}
    {user : UserDoc} (he : email ≠ "") (hp : password ≠ "")
    (hf : findOneByEmail toLowerCase users email = some user)
    (hc : correctPassword bcryptCompare (some password) user.password = .ok true) :
    login toLowerCase bcryptCompare users (some email) (some password)
      = ⟨users, [], some (user, 200)⟩ := by
  simp [login, truthyStr, he, hp, hf, hc]

theorem login_sent {toLowerCase : String → String} {bcryptCompare : String → String → Bool}
    {users : List UserDoc} {email password : Option String} {u : UserDoc} {c : Nat}
    (h : (login toLowerCase bcryptCompare users email password).sent = some (u, c)) :
    c = 200 := by
  unfold login at h
  split at h
  · simp at h
  · split at h
    · simp at h
    · split at h
      · simp at h
      · simp at h
      · simp only [Option.some.injEq, Prod.mk.injEq] at h
        exact h.2.symm

theorem updatePassword_of_correct {bcryptCompare : String → String → Bool}
    {bcryptHash : String → String} {saveTime : Int} {users : List UserDoc} {me : User}
    {body : UpdatePasswordBody} {user : UserDoc}
    (hf : findDocById users me.id = some user)
    (hc : correctPassword bcryptCompare body.passwordCurrent user.password = .ok true)
    (hv : passwordValid
      { user with password := body.password, passwordConfirm := body.passwordConfirm } = true) :
    updatePassword bcryptCompare bcryptHash saveTime users (some me) body
      = ⟨saveDoc users (preSave bcryptHash saveTime
            { user with password := body.password, passwordConfirm := body.passwordConfirm }),
          [],
          some (preSave bcryptHash saveTime
            { user with password := body.password, passwordConfirm := body.passwordConfirm },
            200)⟩ := by
  simp only [updatePassword, hf, hc, hv, if_true]

theorem updatePassword_sent {bcryptCompare : String → String → Bool}
    {bcryptHash : String → String} {saveTime : Int} {users : List UserDoc}
    {reqUser : Option User} {body : UpdatePasswordBody} {u : UserDoc} {c : Nat}
    (h : (updatePassword bcryptCompare bcryptHash saveTime users reqUser body).sent
      = some (u, c)) : c = 200 := by
  unfold updatePassword at h
  split at h
  · simp at h
  · split at h
    · simp at h
    · split at h
      · simp at h
      · simp at h
      · simp only at h
        split at h
        · simp only [Option.some.injEq, Prod.mk.injEq] at h
          exact h.2.symm
        · simp at h

/-- C23. For every user and status code s, `createSendToken` responds with status s and
the body `{ status: "success", token, data: { user } }` in which the password of the user is
undefined, the token is `signToken(user._id)` and the cookie `jwt` holds the same token as
the body. `signup` calls it with 201: it does so whenever the new document passes the
validators and the unique indexes, and with no other status. `login` calls it with 200
whenever the subject is found and the password is correct, `resetPassword` whenever the
token finds a subject and the new password is valid, `updatePassword` whenever the current
password is correct and the new one valid; none of them calls it with another status. The
response of the handler is the one `createSendToken` builds from that call. -/
theorem createSendToken_spec (hmac : String → Claims → String) (env : Env)
    (cookieExpiresIn : Int) (production : Bool) (now : Int) (user : UserDoc) (s : Nat) :
    (createSendToken hmac env cookieExpiresIn production now user s).statusCode = s ∧
    (createSendToken hmac env cookieExpiresIn production now user s).status = "success" ∧
    (createSendToken hmac env cookieExpiresIn production now user s).user
      = { user with password := none } ∧
    (createSendToken hmac env cookieExpiresIn production now user s).user.password = none ∧
    (createSendToken hmac env cookieExpiresIn production now user s).token
      = signToken hmac env now user.id ∧
    (createSendToken hmac env cookieExpiresIn production now user s).cookie.name = "jwt" ∧
    (createSendToken hmac env cookieExpiresIn production now user s).cookie.value
      = (createSendToken hmac env cookieExpiresIn production now user s).token ∧
    (∀ (toLowerCase : String → String) (isEmail : String → Bool) (bcryptHash : String → String)
      (newId : String) (users : List UserDoc) (body : SignupBody),
      (signupValid toLowerCase isEmail newId body = true →
        duplicateUser users (newDocument toLowerCase newId body) = false →
        (signup toLowerCase isEmail bcryptHash newId users body).sent
          = some ({ newDocument toLowerCase newId body with
              password := (newDocument toLowerCase newId body).password.map bcryptHash,
              passwordConfirm := none }, 201)) ∧
      ∀ (u : UserDoc) (c : Nat),
        (signup toLowerCase isEmail bcryptHash newId users body).sent = some (u, c) →
        c = 201) ∧
    (∀ (toLowerCase : String → String) (bcryptCompare : String → String → Bool)
      (users : List UserDoc),
      (∀ (email password : String) (found : UserDoc), email ≠ "" → password ≠ "" →
        findOneByEmail toLowerCase users email = some found →
        correctPassword bcryptCompare (some password) found.password = .ok true →
        (login toLowerCase bcryptCompare users (some email) (some password)).sent
          = some (found, 200)) ∧
      ∀ (email password : Option String) (u : UserDoc) (c : Nat),
        (login toLowerCase bcryptCompare users email password).sent = some (u, c) → c = 200) ∧
    (∀ (sha256 bcryptHash : String → String) (t saveTime : Int) (users : List UserDoc)
      (token : String) (body : ResetBody),
      (∀ found : UserDoc, findOneByResetToken users (sha256 token) t = some found →
        passwordValid
          { found with
              password := body.password,
              passwordConfirm := body.passwordConfirm,
              passwordResetToken := none,
              passwordResetExpires := none } = true →
        (resetPassword sha256 bcryptHash t saveTime users token body).sent
          = some (preSave bcryptHash saveTime
              { found with
                  password := body.password,
                  passwordConfirm := body.passwordConfirm,
                  passwordResetToken := none,
                  passwordResetExpires := none }, 200)) ∧
      ∀ (u : UserDoc) (c : Nat),
        (resetPassword sha256 bcryptHash t saveTime users token body).sent = some (u, c) →
        c = 200) ∧
    (∀ (bcryptCompare : String → String → Bool) (bcryptHash : String → String)
      (saveTime : Int) (users : List UserDoc) (body : UpdatePasswordBody),
      (∀ (me : User) (found : UserDoc), findDocById users me.id = some found →
        correctPassword bcryptCompare body.passwordCurrent found.password = .ok true →
        passwordValid
          { found with password := body.password, passwordConfirm := body.passwordConfirm }
          = true →
        (updatePassword bcryptCompare bcryptHash saveTime users (some me) body).sent
          = some (preSave bcryptHash saveTime
              { found with password := body.password, passwordConfirm := body.passwordConfirm },
              200)) ∧
      ∀ (reqUser : Option User) (u : UserDoc) (c : Nat),
        (updatePassword bcryptCompare bcryptHash saveTime users reqUser body).sent
          = some (u, c) → c = 200) ∧
    (∀ (out : ResetOutcome) (u : UserDoc) (c : Nat), out.sent = some (u, c) →
      sendToken hmac env cookieExpiresIn production now out
        = some (createSendToken hmac env cookieExpiresIn production now u c)) := by
  refine ⟨rfl, rfl, rfl, rfl, rfl, rfl, rfl, ?_, ?_, ?_, ?_, ?_⟩
  · intro toLowerCase isEmail bcryptHash newId users body
    exact ⟨fun hv hd => by rw [signup_of_valid hv hd], fun _ _ h => signup_sent h⟩
  · intro toLowerCase bcryptCompare users
    exact ⟨fun email password found he hp hf hc => by rw [login_of_correct he hp hf hc],
      fun _ _ _ _ h => login_sent h⟩
  · intro sha256 bcryptHash t saveTime users token body
    refine ⟨fun found hf hv => ?_, fun _ _ h => (resetPassword_sent h).1⟩
    rw [resetPassword_of_found sha256 bcryptHash t saveTime users token body found hf, if_pos hv]
  · intro bcryptCompare bcryptHash saveTime users body
    exact ⟨fun me found hf hc hv => by rw [updatePassword_of_correct hf hc hv],
      fun _ _ _ h => updatePassword_sent h⟩
  · intro out u c h
    simp only [sendToken, h, Option.map_some']

/-- A signup with a valid body into an empty collection, and a login with an address in
capitals and the right password: `createSendToken` is called with 201 and with 200. -/
theorem createSendToken_spec_witness :
    (signup asciiLower (fun s => s.data.contains '@') (fun s => "bcrypt:" ++ s) "u1" []
        ⟨some "Ann", some "A@B.C", some "secret123", some "secret123", none⟩).sent
      = some (⟨⟨"u1", "user", none, true⟩, "a@b.c", some "bcrypt:secret123", none, none, none⟩,
          201) ∧
    (login asciiLower (fun c p => "bcrypt:" ++ c == p)
        [⟨⟨"u1", "user", none, true⟩, "a@b.c", some "bcrypt:secret123", none, none, none⟩]
        (some "A@B.C") (some "secret123")).sent
      = some (⟨⟨"u1", "user", none, true⟩, "a@b.c", some "bcrypt:secret123", none, none, none⟩,
          200) :=
  ⟨((createSendToken_spec (fun k _ => k) ⟨"secret", 7776000⟩ 90 false 0
      ⟨⟨"u1", "user", none, true⟩, "a@b.c", some "bcrypt:secret123", none, none, none⟩
      201).2.2.2.2.2.2.2.1 asciiLower (fun s => s.data.contains '@') (fun s => "bcrypt:" ++ s)
      "u1" [] ⟨some "Ann", some "A@B.C", some "secret123", some "secret123", none⟩).1
      (by decide) (by decide),
   ((createSendToken_spec (fun k _ => k) ⟨"secret", 7776000⟩ 90 false 0
      ⟨⟨"u1", "user", none, true⟩, "a@b.c", some "bcrypt:secret123", none, none, none⟩
      200).2.2.2.2.2.2.2.2.1 asciiLower (fun c p => "bcrypt:" ++ c == p)
      [⟨⟨"u1", "user", none, true⟩, "a@b.c", some "bcrypt:secret123", none, none, none⟩]).1
      "A@B.C" "secret123"
      ⟨⟨"u1", "user", none, true⟩, "a@b.c", some "bcrypt:secret123", none, none, none⟩
      (by decide) (by decide) (by decide) rfl⟩

/-! ## Claims on the rating statistics -/

theorem tourFindByIdAndUpdate_filter (tours : List Tour) (T : String) (q : ℚ) (a : Option ℚ) :
    (tourFindByIdAndUpdate tours T q a).filter (fun x => x.id != T)
      = tours.filter (fun x => x.id != T) := by
  induction tours with
  | nil => rfl
  | cons t ts ih =>
    by_cases h : t.id = T
    · simp [tourFindByIdAndUpdate, h]
    · simp [tourFindByIdAndUpdate, h, ih]

theorem tourFindByIdAndUpdate_length (tours : List Tour) (T : String) (q : ℚ) (a : Option ℚ) :
    (tourFindByIdAndUpdate tours T q a).length = tours.length := by
  induction tours with
  | nil => rfl
  | cons t ts ih =>
    by_cases h : t.id = T
    · simp [tourFindByIdAndUpdate, h]
    · simp [tourFindByIdAndUpdate, h, ih]

theorem tourFindByIdAndUpdate_find (tours : List Tour) (T : String) (q : ℚ) (a : Option ℚ)
    (t : Tour) (h : tours.find? (fun x => x.id == T) = some t) :
    (tourFindByIdAndUpdate tours T q a).find? (fun x => x.id == T)
      = some { t with ratingsQuantity := q, ratingsAverage := a } := by
  induction tours with
  | nil => simp at h
  | cons x xs ih =>
    by_cases hx : x.id = T
    · simp only [List.find?, hx, beq_self_eq_true, Option.some.injEq] at h
      subst h
      simp [tourFindByIdAndUpdate, hx]
    · have hb : (x.id == T) = false := by simpa using hx
      simp only [List.find?, hb] at h
      simp only [tourFindByIdAndUpdate, hb, Bool.false_eq_true, if_false, List.find?]
      exact ih h

theorem tourFindByIdAndUpdate_twice (tours : List Tour) (T : String) (q q1 : ℚ)
    (a a1 : Option ℚ) :
    tourFindByIdAndUpdate (tourFindByIdAndUpdate tours T q a) T q1 a1
      = tourFindByIdAndUpdate tours T q1 a1 := by
  induction tours with
  | nil => rfl
  | cons t ts ih =>
    by_cases h : t.id = T
    · simp [tourFindByIdAndUpdate, h]
    · simp [tourFindByIdAndUpdate, h, ih]

/-- The update `calcAverageRatings` makes, in closed form. -/
theorem calcAverageRatings_eq (reviews : List Review) (tours : List Tour) (T : String) :
    calcAverageRatings reviews tours T
      = tourFindByIdAndUpdate tours T ((reviews.filter (fun r => r.tour == T)).length : ℚ)
          (if (reviews.filter (fun r => r.tour == T)).length = 0 then some 4.5
           else if ((reviews.filter (fun r => r.tour == T)).filterMap (fun r => r.rating)) = []
             then none
           else some
             (((reviews.filter (fun r => r.tour == T)).filterMap (fun r => r.rating)).sum
               / (((reviews.filter (fun r => r.tour == T)).filterMap
                    (fun r => r.rating)).length : ℚ))) := by
  unfold calcAverageRatings aggregate
  cases hm : reviews.filter (fun r => r.tour == T) with
  | nil => simp
  | cons r rs =>
    simp only [List.isEmpty_cons, Bool.false_eq_true, if_false, List.length_cons, avg,
      Nat.succ_ne_zero, List.isEmpty_eq_true]

theorem eraseP_append_fresh (reviews : List Review) (r : Review)
    (h : ∀ x ∈ reviews, x.id ≠ r.id) :
    (reviews ++ [r]).eraseP (fun x => x.id == r.id) = reviews := by
  induction reviews with
  | nil => simp [List.eraseP]
  | cons x xs ih =>
    have hx : (x.id == r.id) = false := by simpa using h x (List.mem_cons_self _ _)
    rw [List.cons_append, List.eraseP_cons_of_neg (by simp [hx]),
      ih (fun y hy => h y (List.mem_cons_of_mem _ hy))]

theorem find?_append_fresh (reviews : List Review) (r : Review)
    (h : ∀ x ∈ reviews, x.id ≠ r.id) :
    (reviews ++ [r]).find? (fun x => x.id == r.id) = some r := by
  induction reviews with
  | nil => simp
  | cons x xs ih =>
    have hx : (x.id == r.id) = false := by simpa using h x (List.mem_cons_self _ _)
    simp only [List.cons_append, List.find?, hx]
    exact ih (fun y hy => h y (List.mem_cons_of_mem _ hy))

theorem createReview_status {reviews : List Review} {tours : List Tour} {r : Review}
    (h : (createReview reviews tours r).status = some 201) :
    createReview reviews tours r
      = ⟨reviews ++ [r], calcAverageRatings (reviews ++ [r]) tours r.tour, [], some 201⟩ ∧
    (∀ x ∈ reviews, x.id ≠ r.id) := by
  unfold createReview at h ⊢
  split at h
  · simp at h
  · split at h
    · simp at h
    · rename_i h1 h2
      simp only [h1, h2, Bool.false_eq_true, if_false, true_and]
      intro x hx hid
      apply h2
      simp only [duplicateKey, List.any_eq_true]
      exact ⟨x, hx, by simp [hid]⟩

/-- Creating a review and deleting it: the reviews are as before, and the tours are what
`calcAverageRatings` makes of them on the reviews as before. -/
theorem create_then_delete {reviews : List Review} {tours : List Tour} {r : Review}
    (h : (createReview reviews tours r).status = some 201) :
    deleteReview (createReview reviews tours r).reviews (createReview reviews tours r).tours r.id
      = ⟨reviews, calcAverageRatings reviews tours r.tour, [], some 204⟩ := by
  obtain ⟨he, hfresh⟩ := createReview_status h
  rw [he]
  simp only [deleteReview, find?_append_fresh reviews r hfresh,
    eraseP_append_fresh reviews r hfresh]
  simp only [calcAverageRatings_eq, tourFindByIdAndUpdate_twice]




/-- C24, as stated, fails for a tour whose stored `ratingsQuantity` is not the number of its
reviews: with 7 stored and no review, creating a review and deleting it leaves 0. -/
theorem review_create_delete_counterexample :
    (deleteReview
        (createReview [] [⟨"T", some 4.5, 7⟩] ⟨"r1", "Great", some 5, "T", "U"⟩).reviews
        (createReview [] [⟨"T", some 4.5, 7⟩] ⟨"r1", "Great", some 5, "T", "U"⟩).tours
        "r1").tours = [⟨"T", some 4.5, 0⟩] ∧
    (createReview [] [⟨"T", some 4.5, 7⟩] ⟨"r1", "Great", some 5, "T", "U"⟩).status = some 201 ∧
    (⟨"T", some 4.5, 0⟩ : Tour).ratingsQuantity ≠ (⟨"T", some 4.5, 7⟩ : Tour).ratingsQuantity := by
  refine ⟨?_, ?_, ?_⟩
  · simp [createReview, deleteReview, reviewValid, duplicateKey, calcAverageRatings, aggregate,
      avg, tourFindByIdAndUpdate]
  · simp [createReview, reviewValid, duplicateKey]
  · norm_num



/-- C24, amended. For every tour T and every collection of reviews, `calcAverageRatings(T)`
sets the `ratingsQuantity` of the tour to the number of reviews whose tour is T and its
`ratingsAverage` to the arithmetic mean of the ratings those reviews carry (null when none
of them carries a rating), or to 0 and 4.5 when no review of T remains. No other tour is
touched. Consequently creating a review for T and then deleting it leaves the reviews as
they were and the `ratingsQuantity` of T at the number of reviews of T before the creation:
its prior value when that value was this number. -/
theorem calcAverageRatings_spec (reviews : List Review) (tours : List Tour) (T : String) :
    (∀ t : Tour, tours.find? (fun x => x.id == T) = some t →
      (calcAverageRatings reviews tours T).find? (fun x => x.id == T)
        = some { t with
            ratingsQuantity := ((reviews.filter (fun r => r.tour == T)).length : ℚ),
            ratingsAverage :=
              if (reviews.filter (fun r => r.tour == T)).length = 0 then some 4.5
              else if ((reviews.filter (fun r => r.tour == T)).filterMap
                  (fun r => r.rating)) = [] then none
              else some
                (((reviews.filter (fun r => r.tour == T)).filterMap (fun r => r.rating)).sum
                  / (((reviews.filter (fun r => r.tour == T)).filterMap
                      (fun r => r.rating)).length : ℚ)) }) ∧
    (calcAverageRatings reviews tours T).filter (fun x => x.id != T)
      = tours.filter (fun x => x.id != T) ∧
    (calcAverageRatings reviews tours T).length = tours.length ∧
    (∀ r : Review, r.tour = T → (createReview reviews tours r).status = some 201 →
      (deleteReview (createReview reviews tours r).reviews
          (createReview reviews tours r).tours r.id).reviews = reviews ∧
      (deleteReview (createReview reviews tours r).reviews
          (createReview reviews tours r).tours r.id).tours
        = calcAverageRatings reviews tours T ∧
      (deleteReview (createReview reviews tours r).reviews
          (createReview reviews tours r).tours r.id).status = some 204 ∧
      ∀ t : Tour, tours.find? (fun x => x.id == T) = some t →
        ∃ t1 : Tour,
          (deleteReview (createReview reviews tours r).reviews
            (createReview reviews tours r).tours r.id).tours.find? (fun x => x.id == T)
            = some t1 ∧
          t1.ratingsQuantity = ((reviews.filter (fun r => r.tour == T)).length : ℚ) ∧
          (t.ratingsQuantity = ((reviews.filter (fun r => r.tour == T)).length : ℚ) →
            t1.ratingsQuantity = t.ratingsQuantity)) := by
  refine ⟨?_, ?_, ?_, ?_⟩
  · intro t ht
    rw [calcAverageRatings_eq]
    exact tourFindByIdAndUpdate_find tours T _ _ t ht
  · rw [calcAverageRatings_eq]
    exact tourFindByIdAndUpdate_filter tours T _ _
  · rw [calcAverageRatings_eq]
    exact tourFindByIdAndUpdate_length tours T _ _
  · intro r hr hs
    rw [create_then_delete hs, hr]
    refine ⟨rfl, rfl, rfl, ?_⟩
    intro t ht
    rw [calcAverageRatings_eq]
    exact ⟨_, tourFindByIdAndUpdate_find tours T _ _ t ht, rfl, fun h => h.symm⟩

/-- Two reviews of T with ratings 4 and 5 and a review of another tour: T gets the quantity
2 and the average 9/2; a third review of T that is created and deleted leaves the reviews
as they were. -/
theorem calcAverageRatings_spec_witness :
    (calcAverageRatings
        [⟨"r1", "Good", some 4, "T", "U1"⟩, ⟨"r2", "Great", some 5, "T", "U2"⟩,
         ⟨"r3", "Fine", some 3, "S", "U1"⟩]
        [⟨"S", some 3, 1⟩, ⟨"T", some 4.5, 0⟩] "T").find? (fun x => x.id == "T")
      = some ⟨"T", some (9 / 2), 2⟩ ∧
    (deleteReview
        (createReview
          [⟨"r1", "Good", some 4, "T", "U1"⟩, ⟨"r2", "Great", some 5, "T", "U2"⟩,
           ⟨"r3", "Fine", some 3, "S", "U1"⟩]
          [⟨"S", some 3, 1⟩, ⟨"T", some 4.5, 0⟩] ⟨"r4", "Nice", some 2, "T", "U3"⟩).reviews
        (createReview
          [⟨"r1", "Good", some 4, "T", "U1"⟩, ⟨"r2", "Great", some 5, "T", "U2"⟩,
           ⟨"r3", "Fine", some 3, "S", "U1"⟩]
          [⟨"S", some 3, 1⟩, ⟨"T", some 4.5, 0⟩] ⟨"r4", "Nice", some 2, "T", "U3"⟩).tours
        "r4").reviews
      = [⟨"r1", "Good", some 4, "T", "U1"⟩, ⟨"r2", "Great", some 5, "T", "U2"⟩,
         ⟨"r3", "Fine", some 3, "S", "U1"⟩] := by
  constructor
  · have h := (calcAverageRatings_spec
      [⟨"r1", "Good", some 4, "T", "U1"⟩, ⟨"r2", "Great", some 5, "T", "U2"⟩,
       ⟨"r3", "Fine", some 3, "S", "U1"⟩]
      [⟨"S", some 3, 1⟩, ⟨"T", some 4.5, 0⟩] "T").1 ⟨"T", some 4.5, 0⟩ (by simp)
    rw [h]
    simp
    norm_num
  · exact ((calcAverageRatings_spec
      [⟨"r1", "Good", some 4, "T", "U1"⟩, ⟨"r2", "Great", some 5, "T", "U2"⟩,
       ⟨"r3", "Fine", some 3, "S", "U1"⟩]
      [⟨"S", some 3, 1⟩, ⟨"T", some 4.5, 0⟩] "T").2.2.2 ⟨"r4", "Nice", some 2, "T", "U3"⟩ rfl
      (by
        simp [createReview, reviewValid, duplicateKey]
        norm_num)).1

/-! ## Claims on `updateMe` -/

theorem bodyGet_cons {α : Type} (k0 : String) (v0 : α) (o : List (String × α)) (k : String) :
    bodyGet ((k0, v0) :: o) k = if k0 = k then some v0 else bodyGet o k := by
  by_cases h : k0 = k
  · simp [bodyGet, List.find?, h]
  · have hb : (k0 == k) = false := by simpa using h
    simp [bodyGet, List.find?, h, hb]

theorem bodyGet_bodySet {α : Type} (o : List (String × α)) (k : String) (v : α)
    (k2 : String) : bodyGet (bodySet o k v) k2 = if k = k2 then some v else bodyGet o k2 := by
  induction o with
  | nil => simp [bodySet, bodyGet_cons, bodyGet]
  | cons p o ih =>
    obtain ⟨k0, v0⟩ := p
    by_cases h : k0 = k
    · subst h
      simp only [bodySet, beq_self_eq_true, if_true, bodyGet_cons]
      by_cases h2 : k0 = k2 <;> simp [h2]
    · simp only [bodySet, beq_iff_eq, h, if_false, bodyGet_cons, ih]
      by_cases h2 : k0 = k2
      · subst h2
        simp [Ne.symm h]
      · simp [h2]

theorem bodyGet_isSome_iff {α : Type} (o : List (String × α)) (k : String) :
    (bodyGet o k).isSome = true ↔ k ∈ o.map Prod.fst := by
  induction o with
  | nil => simp [bodyGet]
  | cons p o ih =>
    obtain ⟨k0, v0⟩ := p
    rw [bodyGet_cons]
    by_cases h : k0 = k
    · simp [h]
    · simp only [h, if_false, ih, List.map_cons, List.mem_cons]
      constructor
      · exact Or.inr
      · rintro (h1 | h1)
        · exact absurd h1.symm h
        · exact h1

/-- The fold of `filterObj` over a list of keys of `obj`. -/
theorem bodyGet_foldl_filter {α : Type} (obj : List (String × α)) (allowed : List String)
    (k : String) (ks : List String) (acc : List (String × α))
    (hks : ∀ el ∈ ks, el ∈ obj.map Prod.fst) :
    bodyGet
        (ks.foldl
          (fun newObj el =>
            if allowed.contains el then
              match bodyGet obj el with
              | some v => bodySet newObj el v
              | none => newObj
            else newObj)
          acc) k
      = if k ∈ ks ∧ k ∈ allowed then bodyGet obj k else bodyGet acc k := by
  induction ks generalizing acc with
  | nil => simp
  | cons el ks ih =>
    rw [List.foldl_cons, ih _ (fun x hx => hks x (List.mem_cons_of_mem _ hx))]
    have hel : (bodyGet obj el).isSome = true :=
      (bodyGet_isSome_iff obj el).2 (hks el (List.mem_cons_self _ _))
    obtain ⟨v, hv⟩ := Option.isSome_iff_exists.1 hel
    by_cases hin : k ∈ ks ∧ k ∈ allowed
    · have : k ∈ el :: ks ∧ k ∈ allowed := ⟨List.mem_cons_of_mem _ hin.1, hin.2⟩
      rw [if_pos hin, if_pos this]
    · rw [if_neg hin]
      by_cases ha : el ∈ allowed
      · have hc : allowed.contains el = true := by simpa using ha
        simp only [hc, if_true, hv, bodyGet_bodySet]
        by_cases hk : el = k
        · subst hk
          simp [ha, hv]
        · have : ¬ (k ∈ el :: ks ∧ k ∈ allowed) := by
            rintro ⟨h1, h2⟩
            rcases List.mem_cons.1 h1 with h3 | h3
            · exact hk h3.symm
            · exact hin ⟨h3, h2⟩
          rw [if_neg hk, if_neg this]
      · have hc : allowed.contains el = false := by simpa using ha
        simp only [hc, Bool.false_eq_true, if_false]
        have : ¬ (k ∈ el :: ks ∧ k ∈ allowed) := by
          rintro ⟨h1, h2⟩
          rcases List.mem_cons.1 h1 with h3 | h3
          · exact ha (h3 ▸ h2)
          · exact hin ⟨h3, h2⟩
        rw [if_neg this]

/-- The properties of the object `filterObj` returns. -/
theorem bodyGet_filterObj {α : Type} (obj : List (String × α)) (allowed : List String)
    (k : String) :
    bodyGet (filterObj obj allowed) k = if k ∈ allowed then bodyGet obj k else none := by
  unfold filterObj
  rw [bodyGet_foldl_filter obj allowed k _ [] (fun _ h => h)]
  by_cases ha : k ∈ allowed
  · by_cases hk : k ∈ obj.map Prod.fst
    · simp [ha, hk]
    · have hn : bodyGet obj k = none := by
        cases hb : bodyGet obj k with
        | none => rfl
        | some v =>
          exact absurd ((bodyGet_isSome_iff obj k).1 (by simp [hb])) hk
      rw [if_neg (fun h => hk h.1), if_pos ha, hn]
      rfl
  · rw [if_neg (fun h => ha h.2), if_neg ha]
    rfl


theorem mem_keys_filterObj {α : Type} (obj : List (String × α)) (allowed : List String)
    (k : String) :
    k ∈ (filterObj obj allowed).map Prod.fst ↔ k ∈ obj.map Prod.fst ∧ k ∈ allowed := by
  rw [← bodyGet_isSome_iff, ← bodyGet_isSome_iff, bodyGet_filterObj]
  by_cases ha : k ∈ allowed <;> simp [ha]

theorem updateMe_update {α : Type} {truthy : α → Bool} {storeError : Option String}
    {reqUser : Option User} {body : List (String × α)} {id : String}
    {upd : List (String × α)}
    (h : (updateMe truthy storeError reqUser body).update = some (id, upd)) :
    upd = filterObj body ["name", "email"] ∧
    (truthyProp truthy (bodyGet body "password")
      || truthyProp truthy (bodyGet body "passwordConfirm")) = false := by
  unfold updateMe at h
  split at h
  · simp at h
  · rename_i hg
    refine ⟨?_, by simpa using hg⟩
    cases reqUser with
    | none => simp at h
    | some me =>
      cases storeError with
      | none =>
        simp only [Option.some.injEq, Prod.mk.injEq] at h
        exact h.2.symm
      | some e =>
        simp only [Option.some.injEq, Prod.mk.injEq] at h
        exact h.2.symm

/-- C25. The handler `updateMe` can change the name and the email of a user only: for every
request body, `filterObj(body, "name", "email")` returns an object whose keys are exactly the
keys of the body that are among name and email, each with its original value, so the update
sent to the store has no key `role`, `active`, `password` or other; and when the body
carries a truthy `password` or `passwordConfirm`, `updateMe` fails with the 400 error and
sends no update. -/
theorem updateMe_spec {α : Type} (truthy : α → Bool) (storeError : Option String)
    (reqUser : Option User) (body : List (String × α)) :
    (∀ k : String, k ∈ (filterObj body ["name", "email"]).map Prod.fst ↔
      k ∈ body.map Prod.fst ∧ (k = "name" ∨ k = "email")) ∧
    (∀ k : String, k = "name" ∨ k = "email" →
      bodyGet (filterObj body ["name", "email"]) k = bodyGet body k) ∧
    (∀ k : String, ¬ (k = "name" ∨ k = "email") →
      bodyGet (filterObj body ["name", "email"]) k = none) ∧
    (∀ (id : String) (upd : List (String × α)),
      (updateMe truthy storeError reqUser body).update = some (id, upd) →
      upd = filterObj body ["name", "email"] ∧
      (∀ k ∈ upd.map Prod.fst, k = "name" ∨ k = "email") ∧
      bodyGet upd "role" = none ∧ bodyGet upd "active" = none ∧
      bodyGet upd "password" = none ∧ bodyGet upd "passwordConfirm" = none) ∧
    ((truthyProp truthy (bodyGet body "password")
        || truthyProp truthy (bodyGet body "passwordConfirm")) = true →
      (updateMe truthy storeError reqUser body).next
        = [NextArg.appError
            ⟨"This route is not for password updates. Please use /updateMyPassword", 400⟩] ∧
      (updateMe truthy storeError reqUser body).update = none ∧
      (updateMe truthy storeError reqUser body).status = none) := by
  have hin : ∀ k : String, k ∈ ["name", "email"] ↔ (k = "name" ∨ k = "email") := by
    intro k
    simp
  refine ⟨?_, ?_, ?_, ?_, ?_⟩
  · intro k
    rw [mem_keys_filterObj, hin]
  · intro k hk
    rw [bodyGet_filterObj, if_pos ((hin k).2 hk)]
  · intro k hk
    rw [bodyGet_filterObj, if_neg (fun h => hk ((hin k).1 h))]
  · intro id upd h
    obtain ⟨h1, _⟩ := updateMe_update h
    subst h1
    refine ⟨rfl, ?_, ?_, ?_, ?_, ?_⟩
    · intro k hk
      exact (hin k).1 ((mem_keys_filterObj _ _ _).1 hk).2
    all_goals
      rw [bodyGet_filterObj, if_neg (by decide)]
  · intro h
    simp only [updateMe, h, if_true, notForPasswords, and_self]

/-- A body with a name, a role and an empty password: the update holds the name only. A
body with a password gets the 400 error. -/
theorem updateMe_spec_witness :
    (updateMe (fun s => s != "") none (some ⟨"u1", "user", none, true⟩)
        [("role", "admin"), ("name", "Ann"), ("password", "")]).update
      = some ("u1", [("name", "Ann")]) ∧
    (updateMe (fun s => s != "") none (some ⟨"u1", "user", none, true⟩)
        [("name", "Ann"), ("password", "secret123")]).update = none :=
  ⟨by decide,
   ((updateMe_spec (fun s => s != "") none (some ⟨"u1", "user", none, true⟩)
      [("name", "Ann"), ("password", "secret123")]).2.2.2.2 (by decide)).2.1⟩

end NatureTours
